import Mathlib

/-!
Verification development for the Unsplash batch downloader
(src/UnsplashDownloader.py).  The core of the program is the worker method
`UnsplashDownloader.run` (lines 54-358): it validates the configuration,
derives a rate budget, then for each job pages through the search API,
resolves every result to a download URL and streams it to disk, with
server-signalled rate-limit backoff and a cooperative stop flag.

The embedding below is a step-for-step functional translation of `run`:

* Python strings are modelled as Lean `String`s, but every operation the
  code performs on them (`strip`, `isdigit`, `int(...)`, `in`,
  `replace(" ", "_")`, truthiness) is implemented structurally over
  `String.data` so that all definitions evaluate by kernel reduction.
* The outside world (the `requests` library, `time.time`, `os.environ`,
  and the `_stop_flag` written by the GUI thread) is an oracle `World`:
  each of the run's search calls, tracking calls, image fetches, clock
  reads and stop-flag reads is answered by the oracle at the index of
  that occurrence (the n-th read of `_stop_flag` returns `w.stop n`, and
  so on).  This makes the interpreter deterministic while quantifying
  over every possible environment behaviour.
* Every Qt signal emission (`progress`, `error`, `finished`,
  `progress_max`, `progress_value`, `page_max`, `page_value`) and every
  externally visible action (network call, file write, one-second sleep,
  stop-flag read) is recorded as an `Event` in an append-only trace, so
  that ordering claims become statements about the trace.  `err*`
  constructors are the `error` signal emissions, `prog*`/`progress*`/
  `page*` constructors are `progress`-family emissions.
* The `while True` retry loop of lines 131-237 is the only unbounded
  loop; it gets a fuel parameter, and running out of fuel is reported as
  a distinguished `fuelOut` result (the corresponding Python execution
  does not terminate unless stopped, so terminating executions are
  exactly the ones whose result is not `fuelOut`).
* Floating point appears only in `safe_limit = max(1, int(limit * 0.9))`,
  `interval_sec = 3600.0 / safe_limit`, the `interval_sec >= 1.0` guard,
  `int(interval_sec)` and `math.ceil(target / 30)`.  For every argument
  the program can produce, the float results agree with exact rational
  arithmetic, so these are embedded as the rational floor/ceiling
  (`safeLimitReal`, `pagesNeededReal`) together with executable integer
  forms proved equal to them.
* `orientation`, `color`, `order_by` and `content_filter` only add query
  parameters to the search request and influence no control flow, no
  counter and no emission, so they are not part of the model; the search
  oracle already answers arbitrarily per request.
-/

/-! ## Python string primitives, structurally over `List Char` -/

/-- Digits of an ASCII decimal string to a natural number
(the value `int(s)` gives on a digit-only string). -/
def digitsToNat (cs : List Char) : Nat :=
  cs.foldl (fun acc c => acc * 10 + (c.toNat - '0'.toNat)) 0

/-- Whitespace-stripping on both ends, as Python `str.strip()`. -/
def trimChars (cs : List Char) : List Char :=
  ((cs.dropWhile Char.isWhitespace).reverse.dropWhile Char.isWhitespace).reverse

/-- Python `str.strip()`. -/
def pyStrip (parseSrc : String) : String :=
  String.mk (trimChars parseSrc.data)

/-- Truthiness of a Python string: nonempty. -/
def pyTruthyS (parseSrc : String) : Bool :=
  !parseSrc.data.isEmpty

/-- Truthiness of an optional Python string: not `None` and nonempty. -/
def pyTruthy (o : Option String) : Bool :=
  match o with
  | some v => pyTruthyS v
  | none => false

/-- Python `a or b` on two optional strings (used for
`urls.get("full") or urls.get("regular")`, line 294). -/
def pyOrOpt (a b : Option String) : Option String :=
  if pyTruthy a then a else b

/-- Python `str.isdigit()` for the ASCII strings in rate-limit headers:
nonempty and all decimal digits. -/
def pyIsdigit (parseSrc : String) : Bool :=
  !parseSrc.data.isEmpty && parseSrc.data.all Char.isDigit

/-- All-digits check for a character list. -/
def allDigits (cs : List Char) : Bool :=
  !cs.isEmpty && cs.all Char.isDigit

/-- Python `int(s)` on a string: strip whitespace, optional sign, decimal
digits; `None` (modelling `ValueError`) otherwise. -/
def pyToInt (parseSrc : String) : Option Int :=
  match trimChars parseSrc.data with
  | '+' :: rest => if allDigits rest then some (digitsToNat rest : Int) else none
  | '-' :: rest => if allDigits rest then some (-(digitsToNat rest : Int)) else none
  | cs => if allDigits cs then some (digitsToNat cs : Int) else none

/-- Does `pat` occur as a contiguous substring of the list (Python `in`)? -/
def startsWithChars : List Char → List Char → Bool
  | _, [] => true
  | [], _ :: _ => false
  | a :: as, b :: bs => a == b && startsWithChars as bs

/-- Substring containment on character lists. -/
def containsChars : List Char → List Char → Bool
  | [], pat => pat.isEmpty
  | h :: t, pat => startsWithChars (h :: t) pat || containsChars t pat

/-- Python `pat in hay` on strings. -/
def containsStr (hay pat : String) : Bool :=
  containsChars hay.data pat.data

/-- `keyword.replace(" ", "_")` (line 303). -/
def replaceSpaces (parseSrc : String) : String :=
  String.mk (parseSrc.data.map (fun c => if c = ' ' then '_' else c))

/-- The destination file name `{keyword.replace(" ","_")}_{photo_id}.jpg`
(lines 303-304). -/
def fileName (kw photoId : String) : String :=
  replaceSpaces kw ++ "_" ++ photoId ++ ".jpg"

/-! ## Data model -/

/-- One search result item, the fields of a `photo` dict that lines
259-294 read: `id`, `links.download_location`, `urls.full`,
`urls.regular` (`none` = key absent / JSON `null`). -/
structure Photo where
  id : String
  downloadLocation : Option String
  urlFull : Option String
  urlRegular : Option String
deriving DecidableEq, Repr

/-- One job from the `jobs` list: `{"keyword": str, "count": int}`. -/
structure Job where
  keyword : String
  count : Int
deriving DecidableEq, Repr

/-- The run's immutable configuration: constructor arguments of
`UnsplashDownloader` plus the `UNSPLASH_ACCESS_KEY` environment value
read at line 63. -/
structure Config where
  accessKey : String
  envKey : String
  jobs : List Job
  limitPerHour : Nat
  autoRetry : Bool

/-- Outcome of one `requests.get` on the search URL (lines 152-158):
either a raised exception, or a response with status code, the two
rate-limit headers, the body text, and what `resp.json().get("results",
[])` would yield if evaluated (`none` = `resp.json()` raises). -/
inductive SearchResp where
  | exn (msg : String)
  | resp (status : Nat) (remaining reset : Option String) (body : String)
      (results : Option (List Photo))
deriving Repr

/-- Outcome of one tracking call (lines 270-272): exception, or a
response whose `jsonUrl` is `none` when `.json()` raises and otherwise
`some (dl_json.get("url"))`. -/
inductive TrackResp where
  | exn (msg : String)
  | resp (status : Nat) (jsonUrl : Option (Option String))
deriving Repr

/-- Outcome of one image fetch (lines 307-309): exception or a status
code (body streaming is assumed to succeed on status 200). -/
inductive ImgResp where
  | exn (msg : String)
  | resp (status : Nat)
deriving Repr

/-- The environment oracle.  Each component is indexed by the occurrence
count of the corresponding action inside one run: `search n` answers the
n-th search request, `stop n` the n-th read of `_stop_flag`, etc. -/
structure World where
  search : Nat → SearchResp
  track : Nat → TrackResp
  img : Nat → ImgResp
  now : Nat → Int
  stop : Nat → Bool

/-- Interpreter state: occurrence counters for the oracle, the
`request_count` and `total_downloaded` variables of `run`, and the ghost
per-job download tally (`perJob`, one entry per job, incremented exactly
where line 315 increments `job_downloaded`). -/
structure St where
  searchIdx : Nat
  requestCount : Nat
  pollCount : Nat
  trackCount : Nat
  imgCount : Nat
  timeCount : Nat
  totalDownloaded : Nat
  perJob : List Nat
deriving DecidableEq, Repr

/-- The trace alphabet: every signal emission and every externally
visible action of `run`, in program order.  The `err*` constructors are
emissions of the `error` signal, `finished` of `finished`; `poll b`
records one read of `_stop_flag` returning `b`; `sleep1` one
`time.sleep(1)`. -/
inductive Event where
  | errNoJobs
  | errNoKey
  | errZeroTotal
  | errSearch (msg : String)
  | errRate (status : Nat)
  | errHttp (status : Nat)
  | errUnexpected (msg : String)
  | finished
  | mkdirOut
  | progressMax (n : Nat)
  | progressValue (n : Nat)
  | pageMax (n : Nat)
  | pageValue (n : Nat)
  | progLimit (safe : Nat)
  | progStopped
  | progWaitAborted
  | progJobStart (idx : Nat) (kw : String) (target : Int)
  | progSearching (req : Nat)
  | progRateDebug (remaining reset : Option String)
  | progRateWait (waitMin : Nat)
  | progRetry
  | progNoMore (kw : String)
  | progTrackJsonFail (photoId : String)
  | progTrackHttpFail (photoId : String) (status : Nat)
  | progTrackExn (photoId : String)
  | progNoUrl (photoId : String)
  | progSaved (total : Nat) (name : String)
  | progImgFail (status : Nat) (photoId : String)
  | progImgExn (photoId : String)
  | progJobDone (kw : String) (target : Int)
  | progAllDone
  | searchCall (kw : String) (page : Nat)
  | trackCall (url : String)
  | imgCall (url : String)
  | fileWrite (name : String)
  | sleep1
  | poll (b : Bool)
deriving DecidableEq, Repr

/-- Is the event an emission of the `error` signal? -/
def Event.isError : Event → Bool
  | .errNoJobs | .errNoKey | .errZeroTotal | .errSearch _ | .errRate _
  | .errHttp _ | .errUnexpected _ => true
  | _ => false

/-- Is the event a network call? -/
def Event.isNet : Event → Bool
  | .searchCall _ _ | .trackCall _ | .imgCall _ => true
  | _ => false

/-- Is the event a search request? -/
def Event.isSearch : Event → Bool
  | .searchCall _ _ => true
  | _ => false

/-- Number of search requests in a trace. -/
def csearch (l : List Event) : Nat :=
  l.countP Event.isSearch

/-- Page numbers of the search requests in a trace, in order. -/
def searchPages (l : List Event) : List Nat :=
  l.filterMap (fun e => match e with | Event.searchCall _ p => some p | _ => none)

/-! ## The rate budget (lines 84-85) -/

/-- Line 84 read in exact arithmetic:
`safe_limit = max(1, int(limit_per_hour * 0.9))` (for a nonnegative
argument Python `int` truncation is the floor). -/
def safeLimitReal (n : Nat) : ℤ :=
  max 1 ⌊(n : ℚ) * (9 / 10)⌋

/-- Executable form of `safe_limit`, proved equal to `safeLimitReal`
in `c4_rate_budget`. -/
def safeLimit (n : Nat) : Nat :=
  max 1 (9 * n / 10)

/-- Line 85: `interval_sec = 3600.0 / safe_limit`. -/
def intervalSec (n : Nat) : ℚ :=
  3600 / (safeLimit n : ℚ)

/-- Executable `int(interval_sec)` (the count of one-second sleeps at
line 340); `intervalFloor_eq_floor` proves it is `⌊intervalSec n⌋`. -/
def intervalFloor (n : Nat) : Nat :=
  3600 / safeLimit n

/-- Line 117 read in exact arithmetic:
`pages_needed = math.ceil(target_count / per_page) if target_count > 0
else 0` with `per_page = 30`. -/
def pagesNeededReal (t : Int) : ℤ :=
  if 0 < t then ⌈(t : ℚ) / 30⌉ else 0

/-- Executable form of `pages_needed`, proved equal to
`pagesNeededReal` in `c9_pages_needed`. -/
def pagesNeededOf (t : Int) : Nat :=
  if 0 < t then (Int.toNat t + 29) / 30 else 0

/-! ## The 403/429 wait decision (lines 171-230) -/

/-- The marker phrase looked up in the response body at line 199. -/
def rateLimitMarker : String := "Rate Limit Exceeded"

/-- Guard of lines 189-193: `remaining_int == 0 and reset_ts and
reset_ts.isdigit()` (a digit-only string is nonempty, so truthiness of
`reset_ts` is subsumed by `isdigit`; `remaining_int` is `None` when the
header is absent or unparseable, lines 178-183). -/
def rateBranch1 (remaining reset : Option String) : Bool :=
  (remaining.bind pyToInt == some 0) &&
    (match reset with
     | some r => pyIsdigit r
     | none => false)

/-- `int(reset_ts)` under the digits-only guard. -/
def resetEpochOf (reset : Option String) : Nat :=
  match reset with
  | some r => digitsToNat r.data
  | none => 0

/-- Result of the wait computation: retry after a number of seconds, or
no retry possible (the terminal error of lines 224-230). -/
inductive RateDecision where
  | wait (sec : Nat)
  | terminal
deriving DecidableEq, Repr

/-- Lines 185-230 as a pure decision: with auto-retry, a valid
`remaining == 0` / digits-only reset pair gives
`max(0, reset_epoch - now)`; otherwise the body marker gives 3600;
otherwise — and always when auto-retry is off — the outcome is
terminal. -/
def rateLimitWait (autoRetry : Bool) (remaining reset : Option String)
    (body : String) (now : Int) : RateDecision :=
  if autoRetry then
    if rateBranch1 remaining reset then
      RateDecision.wait (Int.toNat (max 0 ((resetEpochOf reset : Int) - now)))
    else if containsStr body rateLimitMarker then
      RateDecision.wait 3600
    else
      RateDecision.terminal
  else
    RateDecision.terminal

/-- Is a search response terminal for the whole run (abort at lines
159-162, 224-237)?  Terminality does not depend on the clock: only the
wait length does. -/
def terminalSearchResp (autoRetry : Bool) (r : SearchResp) : Bool :=
  match r with
  | SearchResp.exn _ => true
  | SearchResp.resp status remaining reset body _ =>
    if status = 200 then false
    else if status = 403 ∨ status = 429 then
      match rateLimitWait autoRetry remaining reset body 0 with
      | RateDecision.wait _ => false
      | RateDecision.terminal => true
    else true

/-! ## The interpreter -/

/-- The rate-limit wait of lines 208-215: up to `n` one-second sleeps,
each preceded by a stop-flag read; observing the flag emits the
wait-aborted progress message, emits `finished` and returns from `run`
(`aborted`). -/
def waitLoop (w : World) : Nat → St → List Event × St × Bool
  | 0, s => ([], s, true)
  | n + 1, s =>
    let b := w.stop s.pollCount
    let s₁ := { s with pollCount := s.pollCount + 1 }
    if b then
      ([Event.poll true, Event.progWaitAborted, Event.finished], s₁, false)
    else
      let (e, s₂, r) := waitLoop w n s₁
      (Event.poll false :: Event.sleep1 :: e, s₂, r)

/-- The inter-page safety wait of lines 340-344: like `waitLoop` but
observing the flag only breaks the wait (the caller re-reads the flag at
line 345). -/
def intervalLoop (w : World) : Nat → St → List Event × St
  | 0, s => ([], s)
  | n + 1, s =>
    let b := w.stop s.pollCount
    let s₁ := { s with pollCount := s.pollCount + 1 }
    if b then
      ([Event.poll true, Event.progWaitAborted], s₁)
    else
      let (e, s₂) := intervalLoop w n s₁
      (Event.poll false :: Event.sleep1 :: e, s₂)

/-- How the `while True` page-request loop of lines 131-237 ends. -/
inductive FetchResult where
  | gotResp (results : Option (List Photo))
  | stopBreak (lastResults : Option (Option (List Photo)))
  | returned
  | fuelOut
deriving Repr

/-- Lines 131-237: request one page, retrying on a 403/429 whose wait
could be computed.  `gotResp` = broke out on a 200 (carrying the later
`resp.json()` parse); `stopBreak` = broke out on the stop flag at line
132, carrying the parse of whatever response the local `resp` still
holds (`none` on the first iteration, when `resp` is unbound);
`returned` = `run` returned (transport error, HTTP error, terminal rate
limit, or stop during the backoff wait). -/
def fetchPage (w : World) (autoRetry : Bool) (kw : String) (page : Nat) :
    Nat → Option (Option (List Photo)) → St → List Event × St × FetchResult
  | 0, _, s => ([], s, FetchResult.fuelOut)
  | fuel + 1, lastR, s =>
    let b := w.stop s.pollCount
    let s₀ := { s with pollCount := s.pollCount + 1 }
    if b then
      ([Event.poll true], s₀, FetchResult.stopBreak lastR)
    else
      let eHead := [Event.poll false, Event.progSearching (s₀.requestCount + 1),
        Event.searchCall kw page]
      match w.search s₀.searchIdx with
      | SearchResp.exn msg =>
        (eHead ++ [Event.errSearch msg, Event.finished],
          { s₀ with searchIdx := s₀.searchIdx + 1 }, FetchResult.returned)
      | SearchResp.resp status remaining reset body results =>
        let s₁ := { s₀ with searchIdx := s₀.searchIdx + 1,
                            requestCount := s₀.requestCount + 1 }
        if status = 200 then
          (eHead, s₁, FetchResult.gotResp results)
        else if status = 403 ∨ status = 429 then
          let eDbg := eHead ++ [Event.progRateDebug remaining reset]
          if autoRetry then
            let (tnow, s₂) :=
              if rateBranch1 remaining reset then
                (w.now s₁.timeCount, { s₁ with timeCount := s₁.timeCount + 1 })
              else
                (0, s₁)
            match rateLimitWait true remaining reset body tnow with
            | RateDecision.wait waitSec =>
              let eNote := [Event.progRateWait (waitSec / 60)]
              let (eW, s₃, completed) := waitLoop w waitSec s₂
              if completed then
                let (eNext, s₄, r) :=
                  fetchPage w autoRetry kw page fuel (some results) s₃
                (eDbg ++ eNote ++ eW ++ Event.progRetry :: eNext, s₄, r)
              else
                (eDbg ++ eNote ++ eW, s₃, FetchResult.returned)
            | RateDecision.terminal =>
              (eDbg ++ [Event.errRate status, Event.finished], s₂,
                FetchResult.returned)
          else
            (eDbg ++ [Event.errRate status, Event.finished], s₁,
              FetchResult.returned)
        else
          (eHead ++ [Event.errHttp status, Event.finished], s₁,
            FetchResult.returned)

/-- Lines 264-294 (`download_location` tracking call): at most one
tracking request; its body's `url` is adopted only on HTTP 200 with a
parsed body; every failure is logged as progress and yields `none`. -/
def resolveUrl (w : World) (photo : Photo) (s : St) :
    List Event × St × Option String :=
  match photo.downloadLocation with
  | some loc =>
    if pyTruthyS loc then
      let tr := w.track s.trackCount
      let s₁ := { s with trackCount := s.trackCount + 1 }
      match tr with
      | TrackResp.exn _ =>
        ([Event.trackCall loc, Event.progTrackExn photo.id], s₁, none)
      | TrackResp.resp status jsonUrl =>
        if status = 200 then
          match jsonUrl with
          | none =>
            ([Event.trackCall loc, Event.progTrackJsonFail photo.id], s₁, none)
          | some u => ([Event.trackCall loc], s₁, u)
        else
          ([Event.trackCall loc, Event.progTrackHttpFail photo.id status], s₁,
            none)
    else ([], s, none)
  | none => ([], s, none)

/-- Lines 306-327: the image fetch.  On status 200 the file is written
and both download counters advance (the ghost `perJob` entry for the
current job advances with `total_downloaded`); any other status or an
exception logs progress and leaves all counters untouched. -/
def downloadImage (w : World) (jobIdx : Nat) (photoId url name : String)
    (s : St) : List Event × St × Bool :=
  let r := w.img s.imgCount
  let s₁ := { s with imgCount := s.imgCount + 1 }
  match r with
  | ImgResp.exn _ => ([Event.imgCall url, Event.progImgExn photoId], s₁, false)
  | ImgResp.resp status =>
    if status = 200 then
      let total := s₁.totalDownloaded + 1
      let s₂ := { s₁ with totalDownloaded := total,
                          perJob := s₁.perJob.set jobIdx
                            (s₁.perJob.getD jobIdx 0 + 1) }
      ([Event.imgCall url, Event.fileWrite name, Event.progressValue total,
        Event.progSaved total name], s₂, true)
    else
      ([Event.imgCall url, Event.progImgFail status photoId], s₁, false)

/-- Lines 251-327: the per-item loop over one page's results, threading
`job_downloaded`.  Stops early on the stop flag (with the stopped
message) or once the per-job target is reached. -/
def photosLoop (w : World) (jobIdx : Nat) (kw : String) (target : Int) :
    List Photo → Nat → St → List Event × St × Nat
  | [], jd, s => ([], s, jd)
  | photo :: rest, jd, s =>
    let b := w.stop s.pollCount
    let s₁ := { s with pollCount := s.pollCount + 1 }
    if b then
      ([Event.poll true, Event.progStopped], s₁, jd)
    else if target ≤ (jd : Int) then
      ([Event.poll false], s₁, jd)
    else
      let (e₂, s₂, url₀) := resolveUrl w photo s₁
      let url₁ := if pyTruthy url₀ then url₀
        else pyOrOpt photo.urlFull photo.urlRegular
      match url₁ with
      | none =>
        let (eR, sR, jdR) := photosLoop w jobIdx kw target rest jd s₂
        (Event.poll false :: e₂ ++ Event.progNoUrl photo.id :: eR, sR, jdR)
      | some u =>
        if pyTruthyS u then
          let (e₃, s₃, ok) :=
            downloadImage w jobIdx photo.id u (fileName kw photo.id) s₂
          let jd₁ := if ok then jd + 1 else jd
          let (eR, sR, jdR) := photosLoop w jobIdx kw target rest jd₁ s₃
          (Event.poll false :: e₂ ++ e₃ ++ eR, sR, jdR)
        else
          let (eR, sR, jdR) := photosLoop w jobIdx kw target rest jd s₂
          (Event.poll false :: e₂ ++ Event.progNoUrl photo.id :: eR, sR, jdR)

/-- What follows one page fetch: continue with the next page, leave the
page loop, or return from `run`. -/
inductive PageDecision where
  | nextPage
  | doneLoop
  | returnedRun
deriving DecidableEq, Repr

/-- Lines 239-346, everything between the request loop and the next page
iteration: the stop check of line 239, `resp.json()` (whose failure —
including the `resp`-unbound case after a first-iteration stop — is the
top-level unexpected-error handler of lines 356-358), the empty-results
early end, the item loop, the page progress update, the job-complete
check, and the guarded inter-page wait. -/
def pageRest (w : World) (limitPerHour : Nat) (jobIdx : Nat) (kw : String)
    (target : Int) (page pagesNeeded : Nat)
    (resOpt : Option (Option (List Photo))) (jd : Nat) (s : St) :
    List Event × St × Nat × PageDecision :=
  let b := w.stop s.pollCount
  let s₁ := { s with pollCount := s.pollCount + 1 }
  if b then
    ([Event.poll true], s₁, jd, PageDecision.doneLoop)
  else
    match resOpt with
    | none =>
      ([Event.poll false, Event.errUnexpected "NameError", Event.finished],
        s₁, jd, PageDecision.returnedRun)
    | some none =>
      ([Event.poll false, Event.errUnexpected "json", Event.finished],
        s₁, jd, PageDecision.returnedRun)
    | some (some results) =>
      if results.isEmpty then
        ([Event.poll false, Event.progNoMore kw], s₁, jd, PageDecision.doneLoop)
      else
        let (e₂, s₂, jd₁) := photosLoop w jobIdx kw target results jd s₁
        if target ≤ (jd₁ : Int) then
          (Event.poll false :: e₂ ++ [Event.pageValue page,
            Event.progJobDone kw target], s₂, jd₁, PageDecision.doneLoop)
        else if 1 ≤ intervalFloor limitPerHour ∧ page < pagesNeeded then
          let (e₄, s₃) := intervalLoop w (intervalFloor limitPerHour) s₂
          let b₂ := w.stop s₃.pollCount
          let s₄ := { s₃ with pollCount := s₃.pollCount + 1 }
          if b₂ then
            (Event.poll false :: e₂ ++ Event.pageValue page :: e₄ ++
              [Event.poll true], s₄, jd₁, PageDecision.doneLoop)
          else
            (Event.poll false :: e₂ ++ Event.pageValue page :: e₄ ++
              [Event.poll false], s₄, jd₁, PageDecision.nextPage)
        else
          (Event.poll false :: e₂ ++ [Event.pageValue page], s₂, jd₁,
            PageDecision.nextPage)

/-- How a bounded loop of the orchestrator ends. -/
inductive LoopResult where
  | done
  | returned
  | fuelOut
deriving DecidableEq, Repr

/-- Lines 125-346: the page loop `for page in range(1, pages_needed+1)`,
structured over the number of remaining pages. -/
def pageLoop (w : World) (autoRetry : Bool) (limitPerHour : Nat)
    (jobIdx : Nat) (kw : String) (target : Int) (pagesNeeded fuel : Nat) :
    Nat → Nat → Nat → St → List Event × St × Nat × LoopResult
  | _, 0, jd, s => ([], s, jd, LoopResult.done)
  | page, pagesLeft + 1, jd, s =>
    let b := w.stop s.pollCount
    let s₁ := { s with pollCount := s.pollCount + 1 }
    if b then
      ([Event.poll true, Event.progStopped], s₁, jd, LoopResult.done)
    else
      let (eF, s₂, fr) := fetchPage w autoRetry kw page fuel none s₁
      match fr with
      | FetchResult.returned =>
        (Event.poll false :: eF, s₂, jd, LoopResult.returned)
      | FetchResult.fuelOut =>
        (Event.poll false :: eF, s₂, jd, LoopResult.fuelOut)
      | FetchResult.gotResp results =>
        let (eR, s₃, jd₁, d) := pageRest w limitPerHour jobIdx kw target page
          pagesNeeded (some results) jd s₂
        match d with
        | PageDecision.doneLoop =>
          (Event.poll false :: eF ++ eR, s₃, jd₁, LoopResult.done)
        | PageDecision.returnedRun =>
          (Event.poll false :: eF ++ eR, s₃, jd₁, LoopResult.returned)
        | PageDecision.nextPage =>
          let (eN, s₄, jd₂, r) := pageLoop w autoRetry limitPerHour jobIdx kw
            target pagesNeeded fuel (page + 1) pagesLeft jd₁ s₃
          (Event.poll false :: eF ++ eR ++ eN, s₄, jd₂, r)
      | FetchResult.stopBreak lastR =>
        let (eR, s₃, jd₁, d) := pageRest w limitPerHour jobIdx kw target page
          pagesNeeded lastR jd s₂
        match d with
        | PageDecision.doneLoop =>
          (Event.poll false :: eF ++ eR, s₃, jd₁, LoopResult.done)
        | PageDecision.returnedRun =>
          (Event.poll false :: eF ++ eR, s₃, jd₁, LoopResult.returned)
        | PageDecision.nextPage =>
          let (eN, s₄, jd₂, r) := pageLoop w autoRetry limitPerHour jobIdx kw
            target pagesNeeded fuel (page + 1) pagesLeft jd₁ s₃
          (Event.poll false :: eF ++ eR ++ eN, s₄, jd₂, r)

/-- Lines 101-349: the job loop.  A job with `count <= 0` is skipped
before any emission (line 108); otherwise the job-start message and the
page progress bar are emitted and the page loop runs from page 1. -/
def jobLoop (w : World) (autoRetry : Bool) (limitPerHour fuel : Nat) :
    List Job → Nat → St → List Event × St × LoopResult
  | [], _, s => ([], s, LoopResult.done)
  | job :: rest, idx, s =>
    let b := w.stop s.pollCount
    let s₁ := { s with pollCount := s.pollCount + 1 }
    if b then
      ([Event.poll true, Event.progStopped], s₁, LoopResult.done)
    else if job.count ≤ 0 then
      let (eR, sR, r) := jobLoop w autoRetry limitPerHour fuel rest (idx + 1) s₁
      (Event.poll false :: eR, sR, r)
    else
      let pagesNeeded := pagesNeededOf job.count
      if pagesNeeded = 0 then
        let (eR, sR, r) := jobLoop w autoRetry limitPerHour fuel rest (idx + 1) s₁
        (Event.poll false :: Event.progJobStart (idx + 1) job.keyword job.count
          :: eR, sR, r)
      else
        let eHead := [Event.poll false,
          Event.progJobStart (idx + 1) job.keyword job.count,
          Event.pageMax pagesNeeded, Event.pageValue 0]
        let (eP, s₂, _, r) := pageLoop w autoRetry limitPerHour idx job.keyword
          job.count pagesNeeded fuel 1 pagesNeeded 0 s₁
        match r with
        | LoopResult.returned => (eHead ++ eP, s₂, LoopResult.returned)
        | LoopResult.fuelOut => (eHead ++ eP, s₂, LoopResult.fuelOut)
        | LoopResult.done =>
          let b₂ := w.stop s₂.pollCount
          let s₃ := { s₂ with pollCount := s₂.pollCount + 1 }
          if b₂ then
            (eHead ++ eP ++ [Event.poll true], s₃, LoopResult.done)
          else
            let (eR, sR, r₂) := jobLoop w autoRetry limitPerHour fuel rest
              (idx + 1) s₃
            (eHead ++ eP ++ Event.poll false :: eR, sR, r₂)

/-- The initial interpreter state for a configuration. -/
def initSt (cfg : Config) : St :=
  { searchIdx := 0, requestCount := 0, pollCount := 0, trackCount := 0,
    imgCount := 0, timeCount := 0, totalDownloaded := 0,
    perJob := cfg.jobs.map (fun _ => 0) }

/-- Lines 54-358: the whole of `run`.  Configuration errors (no jobs, no
credential, zero total) emit `error` then `finished` before any network
activity; otherwise the output directory is created, the progress bars
initialised, the budget announced, and the job loop runs; afterwards the
completion message is emitted unless the stop flag is set (line 351),
and `finished` is always emitted on termination. -/
def runWorker (w : World) (cfg : Config) (fuel : Nat) :
    List Event × St × LoopResult :=
  let s₀ := initSt cfg
  if cfg.jobs.isEmpty then
    ([Event.errNoJobs, Event.finished], s₀, LoopResult.done)
  else if !pyTruthyS (pyStrip cfg.accessKey) && !pyTruthyS cfg.envKey then
    ([Event.errNoKey, Event.finished], s₀, LoopResult.done)
  else
    let totalImages : Int := (cfg.jobs.map Job.count).sum
    if totalImages ≤ 0 then
      ([Event.mkdirOut, Event.errZeroTotal, Event.finished], s₀,
        LoopResult.done)
    else
      let eHead := [Event.mkdirOut, Event.progressMax (Int.toNat totalImages),
        Event.progressValue 0, Event.progLimit (safeLimit cfg.limitPerHour)]
      let (eJ, s₁, r) := jobLoop w cfg.autoRetry cfg.limitPerHour fuel
        cfg.jobs 0 s₀
      match r with
      | LoopResult.returned => (eHead ++ eJ, s₁, LoopResult.returned)
      | LoopResult.fuelOut => (eHead ++ eJ, s₁, LoopResult.fuelOut)
      | LoopResult.done =>
        let b := w.stop s₁.pollCount
        let s₂ := { s₁ with pollCount := s₁.pollCount + 1 }
        if b then
          (eHead ++ eJ ++ [Event.poll true, Event.finished], s₂,
            LoopResult.done)
        else
          (eHead ++ eJ ++ [Event.poll false, Event.progAllDone,
            Event.finished], s₂, LoopResult.done)

/-- Events the item-processing code (lines 251-327) can emit: flag
reads, the stopped message, resolution and download logging, network
calls, file writes and the download counters. -/
def Event.isPhotoSide : Event → Bool
  | .poll _ | .progStopped | .progNoUrl _ | .trackCall _ | .progTrackExn _
  | .progTrackJsonFail _ | .progTrackHttpFail _ _ | .imgCall _ | .fileWrite _
  | .progressValue _ | .progSaved _ _ | .progImgFail _ _ | .progImgExn _ =>
    true
  | _ => false

/-- Events the two cancellable waits (lines 208-215 and 340-346) can
emit. -/
def Event.isWaitSide : Event → Bool
  | .poll _ | .sleep1 | .progWaitAborted | .finished => true
  | _ => false

/-- Events the page-request loop (lines 131-237) can emit. -/
def Event.isFetchSide : Event → Bool
  | .poll _ | .progSearching _ | .searchCall _ _ | .errSearch _ | .finished
  | .progRateDebug _ _ | .progRateWait _ | .progRetry | .errRate _
  | .errHttp _ | .sleep1 | .progWaitAborted => true
  | _ => false

/-! ## Concrete example environments (used in witnesses and
counterexamples) -/

/-- A world where every search returns HTTP 200 with an empty result
list and the stop flag is never set. -/
def wEmptyResults : World :=
  { search := fun _ => SearchResp.resp 200 none none "" (some []),
    track := fun _ => TrackResp.exn "unused",
    img := fun _ => ImgResp.exn "unused",
    now := fun _ => 0,
    stop := fun _ => false }

/-- A world whose stop flag is set from the third read onwards (the
flag is written once by the GUI thread, hence monotone); no network
call ever completes because none is ever reached. -/
def wStopAt2 : World :=
  { search := fun _ => SearchResp.exn "unused",
    track := fun _ => TrackResp.exn "unused",
    img := fun _ => ImgResp.exn "unused",
    now := fun _ => 0,
    stop := fun i => decide (2 ≤ i) }

/-- A world whose every search fails with HTTP 500. -/
def wHttp500 : World :=
  { search := fun _ => SearchResp.resp 500 none none "server error" (some []),
    track := fun _ => TrackResp.exn "unused",
    img := fun _ => ImgResp.exn "unused",
    now := fun _ => 0,
    stop := fun _ => false }

/-- A world where every search succeeds with one photo carrying only a
full-resolution URL and every image fetch succeeds. -/
def wOnePhoto : World :=
  { search := fun _ => SearchResp.resp 200 none none ""
      (some [{ id := "p1", downloadLocation := none, urlFull := some "F",
               urlRegular := none }]),
    track := fun _ => TrackResp.exn "unused",
    img := fun _ => ImgResp.resp 200,
    now := fun _ => 0,
    stop := fun _ => false }

/-- One job for the keyword `cats` asking for 30 images. -/
def cfgCats : Config :=
  { accessKey := "k", envKey := "",
    jobs := [{ keyword := "cats", count := 30 }],
    limitPerHour := 50, autoRetry := true }

/-- One job for the keyword `a b` asking for 1 image. -/
def cfgOne : Config :=
  { accessKey := "k", envKey := "",
    jobs := [{ keyword := "a b", count := 1 }],
    limitPerHour := 50, autoRetry := true }

/-- A world whose tracking endpoint returns HTTP 200 with body
`{"url": "T"}`. -/
def wTrackOk : World :=
  { search := fun _ => SearchResp.exn "unused",
    track := fun _ => TrackResp.resp 200 (some (some "T")),
    img := fun _ => ImgResp.resp 200,
    now := fun _ => 0,
    stop := fun _ => false }

/-- A world whose every image fetch returns HTTP 404. -/
def wImg404 : World :=
  { search := fun _ => SearchResp.exn "unused",
    track := fun _ => TrackResp.exn "unused",
    img := fun _ => ImgResp.resp 404,
    now := fun _ => 0,
    stop := fun _ => false }

/-- A photo with a tracking URL and both fallback URLs. -/
def phTracked : Photo :=
  { id := "p2", downloadLocation := some "L", urlFull := some "F",
    urlRegular := some "R" }

/-- A photo with no URLs at all. -/
def phBare : Photo :=
  { id := "p3", downloadLocation := none, urlFull := none,
    urlRegular := none }

/-- A photo with only a full-resolution URL. -/
def phFullOnly : Photo :=
  { id := "p4", downloadLocation := none, urlFull := some "F",
    urlRegular := none }

/-! ## Exact-arithmetic lemmas for the derived quantities -/

/-- The rational floor in `safeLimitReal` is the integer division `9*n/10`. -/
theorem floor_nine_tenths (n : Nat) :
    ⌊(n : ℚ) * (9 / 10)⌋ = (9 * n / 10 : ℕ) := by
  have h : (n : ℚ) * (9 / 10) = ((9 * n : ℕ) : ℚ) / ((10 : ℕ) : ℚ) := by
    push_cast
    ring
  rw [h, Rat.floor_natCast_div_natCast]
  omega

/-- The executable `safeLimit` agrees with the exact-arithmetic reading
of line 84. -/
theorem safeLimit_eq_real (n : Nat) : (safeLimit n : ℤ) = safeLimitReal n := by
  unfold safeLimit safeLimitReal
  rw [floor_nine_tenths]
  push_cast [Nat.cast_max]
  rfl

/-- The executable `intervalFloor` is the floor of `interval_sec`. -/
theorem intervalFloor_eq_floor (n : Nat) :
    (intervalFloor n : ℤ) = ⌊intervalSec n⌋ := by
  unfold intervalFloor intervalSec
  have h : (3600 : ℚ) / (safeLimit n : ℚ) =
      ((3600 : ℕ) : ℚ) / ((safeLimit n : ℕ) : ℚ) := by push_cast; ring
  rw [h, Rat.floor_natCast_div_natCast]
  push_cast
  rfl

/-- The executable `pagesNeededOf` agrees with the exact-arithmetic
reading of line 117. -/
theorem pagesNeededOf_eq_real (t : Int) :
    (pagesNeededOf t : ℤ) = pagesNeededReal t := by
  unfold pagesNeededOf pagesNeededReal
  by_cases ht : 0 < t
  · simp only [ht, if_true]
    have h₁ : ⌈(t : ℚ) / 30⌉ = -⌊(-t : ℤ) * (1 / 30 : ℚ)⌋ := by
      rw [show ((-t : ℤ) * (1 / 30 : ℚ)) = -((t : ℚ) / 30) by push_cast; ring]
      rw [Int.floor_neg]
      ring
    have h₂ : ((-t : ℤ) : ℚ) * (1 / 30 : ℚ) = ((-t : ℤ) : ℚ) / ((30 : ℕ) : ℚ) := by
      push_cast
      ring
    rw [h₁, h₂, Rat.floor_intCast_div_natCast]
    omega
  · simp [ht]

/-! ## C4: the rate budget -/

/-- C4: for every run the budget computed once at run start satisfies
`safeLimit = max(1, floor(requestsPerHour * 0.9))` and
`minIntervalSeconds = 3600 / safeLimit` (with the executable sleep count
being its floor); in particular `requestsPerHour = 50` yields 45 and
`requestsPerHour = 1` yields 1. -/
theorem c4_rate_budget :
    (∀ n : Nat, (safeLimit n : ℤ) = max 1 ⌊(n : ℚ) * (9 / 10)⌋) ∧
    (∀ n : Nat, intervalSec n = 3600 / (safeLimit n : ℚ)) ∧
    (∀ n : Nat, (intervalFloor n : ℤ) = ⌊intervalSec n⌋) ∧
    safeLimit 50 = 45 ∧ safeLimit 1 = 1 :=
  ⟨safeLimit_eq_real, fun _ => rfl, intervalFloor_eq_floor, by decide, by decide⟩

/-! ## C2: the 403/429 wait decision -/

/-- C2: with auto-retry, a remaining header parsing to 0 together with a
digits-only reset epoch gives a wait of `max(0, resetEpoch - now)`;
otherwise a body containing the rate-limit marker gives exactly 3600
seconds; otherwise the outcome is terminal; without auto-retry the
outcome is always terminal; and an absent or unparseable remaining
header never enables the header branch. -/
theorem c2_rate_limit_wait (remaining reset : Option String) (body : String)
    (now : Int) (r t : String) :
    (remaining = some r → pyToInt r = some 0 → reset = some t →
      pyIsdigit t = true →
      rateLimitWait true remaining reset body now
        = RateDecision.wait (Int.toNat (max 0 ((digitsToNat t.data : Int) - now)))) ∧
    (rateBranch1 remaining reset = false →
      containsStr body rateLimitMarker = true →
      rateLimitWait true remaining reset body now = RateDecision.wait 3600) ∧
    (rateBranch1 remaining reset = false →
      containsStr body rateLimitMarker = false →
      rateLimitWait true remaining reset body now = RateDecision.terminal) ∧
    (rateLimitWait false remaining reset body now = RateDecision.terminal) ∧
    (remaining.bind pyToInt = none →
      rateLimitWait true remaining reset body now
        = (if containsStr body rateLimitMarker then RateDecision.wait 3600
           else RateDecision.terminal)) := by
  refine ⟨?_, ?_, ?_, ?_, ?_⟩
  · intro h₁ h₂ h₃ h₄
    subst h₁
    subst h₃
    simp [rateLimitWait, rateBranch1, h₂, h₄, resetEpochOf]
  · intro h₁ h₂
    simp [rateLimitWait, h₁, h₂]
  · intro h₁ h₂
    simp [rateLimitWait, h₁, h₂]
  · simp [rateLimitWait]
  · intro h₁
    have hb : rateBranch1 remaining reset = false := by
      simp [rateBranch1, h₁]
    simp [rateLimitWait, hb]

/-- Witness for C2 at concrete header and body values. -/
theorem c2_rate_limit_wait_witness :
    rateLimitWait true (some "0") (some "120") "" 100 = RateDecision.wait 20 ∧
    rateLimitWait true none none "Oops: Rate Limit Exceeded." 0
      = RateDecision.wait 3600 ∧
    rateLimitWait true (some "abc") none "no marker here" 0
      = RateDecision.terminal ∧
    rateLimitWait false (some "0") (some "120") "Rate Limit Exceeded" 0
      = RateDecision.terminal ∧
    rateLimitWait true (some "oops") (some "120") "Rate Limit Exceeded" 5
      = RateDecision.wait 3600 := by
  refine ⟨?_, ?_, ?_, ?_, ?_⟩
  · exact ((c2_rate_limit_wait (some "0") (some "120") "" 100 "0" "120").1
      rfl (by decide) rfl (by decide)).trans (by decide)
  · exact (c2_rate_limit_wait none none "Oops: Rate Limit Exceeded." 0 "" "").2.1
      (by decide) (by decide)
  · exact (c2_rate_limit_wait (some "abc") none "no marker here" 0 "" "").2.2.1
      (by decide) (by decide)
  · exact (c2_rate_limit_wait (some "0") (some "120") "Rate Limit Exceeded" 0
      "" "").2.2.2.1
  · exact ((c2_rate_limit_wait (some "oops") (some "120") "Rate Limit Exceeded"
      5 "" "").2.2.2.2 (by decide)).trans (by decide)

/-! ## Trace lemmas: pages of the search requests (towards C9) -/

/-- An all-equal list of page numbers is a nondecreasing chain. -/
theorem chain_of_all_eq {l : List Nat} (p : Nat) (h : ∀ x ∈ l, x = p) :
    List.Chain' (· ≤ ·) l := by
  induction l with
  | nil => exact List.chain'_nil
  | cons a t ih =>
    rw [List.chain'_cons']
    refine ⟨?_, ih (fun x hx => h x (List.mem_cons_of_mem a hx))⟩
    intro y hy
    rw [h a (List.mem_cons_self a t), h y (List.mem_cons_of_mem a
      (List.mem_of_mem_head? hy))]

/-- Appending nondecreasing page lists separated by a pivot stays
nondecreasing. -/
theorem chain_le_append {l₁ l₂ : List Nat} (p : Nat)
    (h₁ : List.Chain' (· ≤ ·) l₁) (h₂ : List.Chain' (· ≤ ·) l₂)
    (hb₁ : ∀ x ∈ l₁, x ≤ p) (hb₂ : ∀ y ∈ l₂, p ≤ y) :
    List.Chain' (· ≤ ·) (l₁ ++ l₂) := by
  rw [List.chain'_append]
  refine ⟨h₁, h₂, ?_⟩
  intro x hx y hy
  exact le_trans (hb₁ x (List.mem_of_mem_getLast? hx))
    (hb₂ y (List.mem_of_mem_head? hy))

theorem searchPages_append (a b : List Event) :
    searchPages (a ++ b) = searchPages a ++ searchPages b := by
  simp [searchPages]


/-- A trace without search-call events has no search pages. -/
theorem searchPages_eq_nil {l : List Event}
    (h : ∀ e ∈ l, Event.isSearch e = false) : searchPages l = [] := by
  rw [searchPages, List.filterMap_eq_nil_iff]
  intro a ha
  cases a <;> first
    | rfl
    | exact absurd (h _ ha) (by simp [Event.isSearch])

/-- Membership in `searchPages`. -/
theorem mem_searchPages {x : Nat} {l : List Event} :
    x ∈ searchPages l ↔ ∃ kw, Event.searchCall kw x ∈ l := by
  rw [searchPages, List.mem_filterMap]
  constructor
  · rintro ⟨a, ha, hfa⟩
    cases a <;> simp_all
    exact ⟨_, ha⟩
  · rintro ⟨kw, hm⟩
    exact ⟨Event.searchCall kw x, hm, rfl⟩

/-- The resolver issues no search request. -/
theorem noSearch_resolveUrl (w : World) (photo : Photo) (s : St) :
    ∀ e ∈ (resolveUrl w photo s).1, Event.isSearch e = false := by
  unfold resolveUrl
  rcases photo with ⟨pid, dl, uf, ur⟩
  cases dl with
  | none => simp
  | some loc =>
    by_cases hl : pyTruthyS loc
    · simp only [hl, if_true]
      cases w.track s.trackCount with
      | exn m => simp [Event.isSearch]
      | resp status jsonUrl =>
        by_cases hs : status = 200
        · cases jsonUrl <;> simp [hs, Event.isSearch]
        · simp [hs, Event.isSearch]
    · simp [hl]

/-- The image fetch issues no search request. -/
theorem noSearch_downloadImage (w : World) (jobIdx : Nat)
    (photoId url name : String) (s : St) :
    ∀ e ∈ (downloadImage w jobIdx photoId url name s).1,
      Event.isSearch e = false := by
  unfold downloadImage
  cases w.img s.imgCount with
  | exn m => simp [Event.isSearch]
  | resp status =>
    by_cases hs : status = 200
    · simp [hs, Event.isSearch]
    · simp [hs, Event.isSearch]

/-- The item loop issues no search request. -/
theorem noSearch_photosLoop (w : World) (jobIdx : Nat) (kw : String)
    (target : Int) (photos : List Photo) (jd : Nat) (s : St) :
    ∀ e ∈ (photosLoop w jobIdx kw target photos jd s).1,
      Event.isSearch e = false := by
  induction photos generalizing jd s with
  | nil => simp [photosLoop]
  | cons photo rest ih =>
    unfold photosLoop
    by_cases hb : w.stop s.pollCount
    · simp [hb, Event.isSearch]
    · simp only [hb, Bool.false_eq_true, if_false]
      by_cases ht : target ≤ (jd : Int)
      · simp [ht, Event.isSearch]
      · simp only [ht, if_false]
        rcases hru : resolveUrl w photo { s with pollCount := s.pollCount + 1 }
          with ⟨e₂, s₂, url₀⟩
        have hres : ∀ e ∈ e₂, Event.isSearch e = false := by
          have := noSearch_resolveUrl w photo { s with pollCount := s.pollCount + 1 }
          rw [hru] at this
          exact this
        cases hurl : (if pyTruthy url₀ then url₀
            else pyOrOpt photo.urlFull photo.urlRegular) with
        | none =>
          simp only [hru, hurl]
          exact List.forall_mem_cons.mpr ⟨rfl,
            List.forall_mem_append.mpr ⟨hres,
              List.forall_mem_cons.mpr ⟨rfl, ih _ _⟩⟩⟩
        | some u =>
          by_cases hu : pyTruthyS u
          · rcases hdl : downloadImage w jobIdx photo.id u (fileName kw photo.id)
              s₂ with ⟨e₃, s₃, ok⟩
            have hdli : ∀ e ∈ e₃, Event.isSearch e = false := by
              have := noSearch_downloadImage w jobIdx photo.id u
                (fileName kw photo.id) s₂
              rw [hdl] at this
              exact this
            simp only [hru, hurl, hu, if_true, hdl]
            exact List.forall_mem_cons.mpr ⟨rfl,
              List.forall_mem_append.mpr
                ⟨List.forall_mem_append.mpr ⟨hres, hdli⟩, ih _ _⟩⟩
          · simp only [hru, hurl, hu, Bool.false_eq_true, if_false]
            exact List.forall_mem_cons.mpr ⟨rfl,
              List.forall_mem_append.mpr ⟨hres,
                List.forall_mem_cons.mpr ⟨rfl, ih _ _⟩⟩⟩

/-- The backoff wait issues no search request. -/
theorem noSearch_waitLoop (w : World) (n : Nat) (s : St) :
    ∀ e ∈ (waitLoop w n s).1, Event.isSearch e = false := by
  induction n generalizing s with
  | zero => simp [waitLoop]
  | succ n ih =>
    unfold waitLoop
    by_cases hb : w.stop s.pollCount
    · simp [hb, Event.isSearch]
    · simp only [hb, Bool.false_eq_true, if_false]
      exact List.forall_mem_cons.mpr ⟨rfl,
        List.forall_mem_cons.mpr ⟨rfl, ih _⟩⟩

/-- The inter-page wait issues no search request. -/
theorem noSearch_intervalLoop (w : World) (n : Nat) (s : St) :
    ∀ e ∈ (intervalLoop w n s).1, Event.isSearch e = false := by
  induction n generalizing s with
  | zero => simp [intervalLoop]
  | succ n ih =>
    unfold intervalLoop
    by_cases hb : w.stop s.pollCount
    · simp [hb, Event.isSearch]
    · simp only [hb, Bool.false_eq_true, if_false]
      exact List.forall_mem_cons.mpr ⟨rfl,
        List.forall_mem_cons.mpr ⟨rfl, ih _⟩⟩

/-- The post-fetch page handling issues no search request. -/
theorem noSearch_pageRest (w : World) (limitPerHour jobIdx : Nat)
    (kw : String) (target : Int) (page pagesNeeded : Nat)
    (resOpt : Option (Option (List Photo))) (jd : Nat) (s : St) :
    ∀ e ∈ (pageRest w limitPerHour jobIdx kw target page pagesNeeded resOpt
      jd s).1, Event.isSearch e = false := by
  unfold pageRest
  by_cases hb : w.stop s.pollCount
  · simp [hb, Event.isSearch]
  · simp only [hb, Bool.false_eq_true, if_false]
    match resOpt with
    | none => simp [Event.isSearch]
    | some none => simp [Event.isSearch]
    | some (some results) =>
      by_cases he : results.isEmpty
      · simp [he, Event.isSearch]
      · simp only [he, Bool.false_eq_true, if_false]
        rcases hpl : photosLoop w jobIdx kw target results jd
          { s with pollCount := s.pollCount + 1 } with ⟨e₂, s₂, jd₁⟩
        have hpli : ∀ e ∈ e₂, Event.isSearch e = false := by
          have := noSearch_photosLoop w jobIdx kw target results jd
            { s with pollCount := s.pollCount + 1 }
          rw [hpl] at this
          exact this
        by_cases ht : target ≤ (jd₁ : Int)
        · simp only [hpl, ht, if_true]
          exact List.forall_mem_cons.mpr ⟨rfl,
            List.forall_mem_append.mpr ⟨hpli,
              List.forall_mem_cons.mpr ⟨rfl,
                List.forall_mem_cons.mpr ⟨rfl, by simp⟩⟩⟩⟩
        · simp only [hpl, ht, if_false]
          by_cases hg : 1 ≤ intervalFloor limitPerHour ∧ page < pagesNeeded
          · rcases hil : intervalLoop w (intervalFloor limitPerHour) s₂
              with ⟨e₄, s₃⟩
            have hili : ∀ e ∈ e₄, Event.isSearch e = false := by
              have := noSearch_intervalLoop w (intervalFloor limitPerHour) s₂
              rw [hil] at this
              exact this
            by_cases hb₂ : w.stop s₃.pollCount
            · simp only [hg, if_true, hil, hb₂]
              exact List.forall_mem_cons.mpr ⟨rfl,
                List.forall_mem_append.mpr
                  ⟨List.forall_mem_append.mpr
                    ⟨hpli, List.forall_mem_cons.mpr ⟨rfl, hili⟩⟩,
                   List.forall_mem_cons.mpr ⟨rfl, by simp⟩⟩⟩
            · simp only [hg, if_true, hil, hb₂]
              exact List.forall_mem_cons.mpr ⟨rfl,
                List.forall_mem_append.mpr
                  ⟨List.forall_mem_append.mpr
                    ⟨hpli, List.forall_mem_cons.mpr ⟨rfl, hili⟩⟩,
                   List.forall_mem_cons.mpr ⟨rfl, by simp⟩⟩⟩
          · simp only [hg, if_false]
            exact List.forall_mem_cons.mpr ⟨rfl,
              List.forall_mem_append.mpr ⟨hpli,
                List.forall_mem_cons.mpr ⟨rfl, by simp⟩⟩⟩

/-- All search requests issued by the page-request loop carry the page
it was invoked for (retries re-request the same page). -/
theorem fetchPage_pages (w : World) (autoRetry : Bool) (kw : String)
    (page : Nat) :
    ∀ fuel lastR s, ∀ e ∈ (fetchPage w autoRetry kw page fuel lastR s).1,
      ∀ kw' p', e = Event.searchCall kw' p' → p' = page := by
  intro fuel
  induction fuel with
  | zero => intro lastR s; simp [fetchPage]
  | succ n ih =>
    intro lastR s
    have hsc : ∀ kw' p',
        Event.searchCall kw page = Event.searchCall kw' p' → p' = page := by
      intro kw' p' h
      injection h with h₁ h₂
      exact h₂.symm
    have hbridge : ∀ (l : List Event),
        (∀ e ∈ l, Event.isSearch e = false) →
        ∀ e ∈ l, ∀ kw' p', e = Event.searchCall kw' p' → p' = page := by
      intro l hl e he kw' p' hEq
      have := hl e he
      rw [hEq] at this
      exact absurd this (by simp [Event.isSearch])
    have hHead : ∀ req, ∀ e ∈ [Event.poll false, Event.progSearching req,
        Event.searchCall kw page], ∀ kw' p',
        e = Event.searchCall kw' p' → p' = page :=
      fun req => List.forall_mem_cons.mpr ⟨(fun _ _ h => nomatch h),
        List.forall_mem_cons.mpr ⟨(fun _ _ h => nomatch h),
          List.forall_mem_cons.mpr ⟨hsc, by simp⟩⟩⟩
    have hDbg : ∀ rem rst, ∀ e ∈ [Event.progRateDebug rem rst], ∀ kw' p',
        e = Event.searchCall kw' p' → p' = page :=
      fun rem rst => List.forall_mem_cons.mpr ⟨(fun _ _ h => nomatch h), by simp⟩
    have hNote : ∀ m, ∀ e ∈ [Event.progRateWait m], ∀ kw' p',
        e = Event.searchCall kw' p' → p' = page :=
      fun m => List.forall_mem_cons.mpr ⟨(fun _ _ h => nomatch h), by simp⟩
    have hTail2 : ∀ (a b : Event), Event.isSearch a = false →
        Event.isSearch b = false → ∀ e ∈ [a, b], ∀ kw' p',
        e = Event.searchCall kw' p' → p' = page := by
      intro a b ha hb
      refine List.forall_mem_cons.mpr ⟨?_, List.forall_mem_cons.mpr ⟨?_, by simp⟩⟩
      · intro kw' p' hEq
        rw [hEq] at ha
        exact absurd ha (by simp [Event.isSearch])
      · intro kw' p' hEq
        rw [hEq] at hb
        exact absurd hb (by simp [Event.isSearch])
    unfold fetchPage
    dsimp only
    split
    · exact fun e he => by
        rcases List.mem_singleton.mp he with rfl
        exact fun _ _ h => nomatch h
    · split
      · exact List.forall_mem_append.mpr ⟨hHead _, hTail2 _ _ rfl rfl⟩
      · split
        · exact hHead _
        · split
          · split
            · split
              · split
                · dsimp only
                  split
                  · exact List.forall_mem_append.mpr
                      ⟨List.forall_mem_append.mpr
                        ⟨List.forall_mem_append.mpr
                          ⟨List.forall_mem_append.mpr ⟨hHead _, hDbg _ _⟩,
                           hNote _⟩,
                         hbridge _ (noSearch_waitLoop w _ _)⟩,
                       List.forall_mem_cons.mpr
                         ⟨(fun _ _ h => nomatch h), ih _ _⟩⟩
                  · exact List.forall_mem_append.mpr
                      ⟨List.forall_mem_append.mpr
                        ⟨List.forall_mem_append.mpr ⟨hHead _, hDbg _ _⟩,
                         hNote _⟩,
                       hbridge _ (noSearch_waitLoop w _ _)⟩
                · dsimp only
                  split
                  · exact List.forall_mem_append.mpr
                      ⟨List.forall_mem_append.mpr
                        ⟨List.forall_mem_append.mpr
                          ⟨List.forall_mem_append.mpr ⟨hHead _, hDbg _ _⟩,
                           hNote _⟩,
                         hbridge _ (noSearch_waitLoop w _ _)⟩,
                       List.forall_mem_cons.mpr
                         ⟨(fun _ _ h => nomatch h), ih _ _⟩⟩
                  · exact List.forall_mem_append.mpr
                      ⟨List.forall_mem_append.mpr
                        ⟨List.forall_mem_append.mpr ⟨hHead _, hDbg _ _⟩,
                         hNote _⟩,
                       hbridge _ (noSearch_waitLoop w _ _)⟩
              · exact List.forall_mem_append.mpr
                  ⟨List.forall_mem_append.mpr ⟨hHead _, hDbg _ _⟩,
                   hTail2 _ _ rfl rfl⟩
            · exact List.forall_mem_append.mpr
                ⟨List.forall_mem_append.mpr ⟨hHead _, hDbg _ _⟩,
                 hTail2 _ _ rfl rfl⟩
          · exact List.forall_mem_append.mpr ⟨hHead _, hTail2 _ _ rfl rfl⟩

/-- Every page value appearing among a fetch's search requests is the
requested page. -/
theorem searchPages_fetchPage_all (w : World) (autoRetry : Bool)
    (kw : String) (page fuel : Nat) (lastR : Option (Option (List Photo)))
    (s : St) :
    ∀ x ∈ searchPages (fetchPage w autoRetry kw page fuel lastR s).1,
      x = page := by
  intro x hx
  rcases mem_searchPages.mp hx with ⟨kw', hm⟩
  exact fetchPage_pages w autoRetry kw page fuel lastR s _ hm kw' x rfl

/-- A fetch either ran out of fuel, broke instantly on the stop flag, or
issued at least one search request. -/
theorem fetchPage_shape (w : World) (autoRetry : Bool) (kw : String)
    (page : Nat) :
    ∀ fuel lastR s,
      (fetchPage w autoRetry kw page fuel lastR s).2.2 = FetchResult.fuelOut ∨
      ((fetchPage w autoRetry kw page fuel lastR s).2.2
          = FetchResult.stopBreak lastR ∧
        (fetchPage w autoRetry kw page fuel lastR s).1 = [Event.poll true]) ∨
      (∃ kw' p', Event.searchCall kw' p'
        ∈ (fetchPage w autoRetry kw page fuel lastR s).1) := by
  intro fuel lastR s
  cases fuel with
  | zero => exact Or.inl rfl
  | succ n =>
    unfold fetchPage
    dsimp only
    split
    · exact Or.inr (Or.inl ⟨rfl, rfl⟩)
    · refine Or.inr (Or.inr ⟨kw, page, ?_⟩)
      split <;> (try dsimp only) <;> (try split) <;> (try dsimp only) <;>
        (try split) <;> (try dsimp only) <;> (try split) <;>
        (try dsimp only) <;> (try split) <;> (try dsimp only) <;>
        (try split) <;> (try dsimp only) <;> (try split) <;> simp

/-- The page loop moves to the next page only when the fetch produced a
parsed response. -/
theorem pageRest_nextPage (w : World) (limitPerHour jobIdx : Nat)
    (kw : String) (target : Int) (page pagesNeeded : Nat)
    (resOpt : Option (Option (List Photo))) (jd : Nat) (s : St) :
    (pageRest w limitPerHour jobIdx kw target page pagesNeeded resOpt jd
      s).2.2.2 = PageDecision.nextPage →
    ∃ results, resOpt = some (some results) := by
  unfold pageRest
  dsimp only
  split
  · exact fun h => nomatch h
  · split
    · exact fun h => nomatch h
    · exact fun h => nomatch h
    · rename_i results
      split
      · exact fun h => nomatch h
      · split
        · exact fun h => nomatch h
        · split
          · split
            · exact fun h => nomatch h
            · exact fun _ => ⟨results, rfl⟩
          · exact fun _ => ⟨results, rfl⟩

/-- The page handling after one fetch contributes no search pages. -/
theorem searchPages_pageRest (w : World) (limitPerHour jobIdx : Nat)
    (kw : String) (target : Int) (page pagesNeeded : Nat)
    (resOpt : Option (Option (List Photo))) (jd : Nat) (s : St) :
    searchPages (pageRest w limitPerHour jobIdx kw target page pagesNeeded
      resOpt jd s).1 = [] :=
  searchPages_eq_nil (noSearch_pageRest w limitPerHour jobIdx kw target page
    pagesNeeded resOpt jd s)

theorem searchPages_poll_cons (b : Bool) (l : List Event) :
    searchPages (Event.poll b :: l) = searchPages l := rfl

theorem searchPages_progStopped_cons (l : List Event) :
    searchPages (Event.progStopped :: l) = searchPages l := rfl

theorem head?_append_left {l₁ l₂ : List Nat} (h : l₁ ≠ []) :
    (l₁ ++ l₂).head? = l₁.head? := by
  cases l₁ with
  | nil => exact absurd rfl h
  | cons a t => rfl

/-- Assembling one page step's search pages with those of the remaining
pages. -/
theorem pages_assembly {psF psN : List Nat} {page pagesLeft : Nat}
    (hF : ∀ x ∈ psF, x = page)
    (hN1 : List.Chain' (· ≤ ·) psN)
    (hN2 : ∀ x ∈ psN, page + 1 ≤ x ∧ x < page + 1 + pagesLeft)
    (hFne : psN ≠ [] → psF ≠ []) :
    List.Chain' (· ≤ ·) (psF ++ psN) ∧
      (∀ x ∈ psF ++ psN, page ≤ x ∧ x < page + (pagesLeft + 1)) ∧
      (psF ++ psN = [] ∨ (psF ++ psN).head? = some page) := by
  refine ⟨?_, ?_, ?_⟩
  · refine chain_le_append page (chain_of_all_eq page hF) hN1 ?_ ?_
    · intro x hx
      rw [hF x hx]
    · intro y hy
      have := hN2 y hy
      omega
  · intro x hx
    rcases List.mem_append.mp hx with hx | hx
    · rw [hF x hx]
      omega
    · have := hN2 x hx
      omega
  · cases hpsF : psF with
    | nil =>
      cases hpsN : psN with
      | nil =>
        left
        rfl
      | cons b u =>
        exact absurd hpsF (hFne (by rw [hpsN]; simp))
    | cons a t =>
      right
      rw [List.cons_append, List.head?_cons,
        hF a (by rw [hpsF]; exact List.mem_cons_self a t)]

/-- The search pages of a single page step (no further pages). -/
theorem pages_single {psF : List Nat} {page pagesLeft : Nat}
    (hF : ∀ x ∈ psF, x = page) :
    List.Chain' (· ≤ ·) psF ∧
      (∀ x ∈ psF, page ≤ x ∧ x < page + (pagesLeft + 1)) ∧
      (psF = [] ∨ psF.head? = some page) := by
  refine ⟨chain_of_all_eq page hF, ?_, ?_⟩
  · intro x hx
    rw [hF x hx]
    omega
  · cases hpsF : psF with
    | nil => exact Or.inl rfl
    | cons a t =>
      right
      rw [List.head?_cons, hF a (by rw [hpsF]; exact List.mem_cons_self a t)]

/-- C9 core: within one job, the pages of the issued search requests are
nondecreasing, bounded by the loop's page window, and start at the
window's first page. -/
theorem pageLoop_pages (w : World) (autoRetry : Bool)
    (limitPerHour jobIdx : Nat) (kw : String) (target : Int)
    (pagesNeeded fuel : Nat) :
    ∀ pagesLeft page jd s,
      List.Chain' (· ≤ ·) (searchPages (pageLoop w autoRetry limitPerHour
        jobIdx kw target pagesNeeded fuel page pagesLeft jd s).1) ∧
      (∀ x ∈ searchPages (pageLoop w autoRetry limitPerHour jobIdx kw target
        pagesNeeded fuel page pagesLeft jd s).1,
        page ≤ x ∧ x < page + pagesLeft) ∧
      (searchPages (pageLoop w autoRetry limitPerHour jobIdx kw target
          pagesNeeded fuel page pagesLeft jd s).1 = [] ∨
        (searchPages (pageLoop w autoRetry limitPerHour jobIdx kw target
          pagesNeeded fuel page pagesLeft jd s).1).head? = some page) := by
  intro pagesLeft
  induction pagesLeft with
  | zero =>
    intro page jd s
    refine ⟨by simp [pageLoop, searchPages], by simp [pageLoop, searchPages],
      Or.inl (by simp [pageLoop, searchPages])⟩
  | succ pagesLeft ih =>
    intro page jd s
    unfold pageLoop
    dsimp only
    split
    · exact ⟨by simp [searchPages], by simp [searchPages], Or.inl rfl⟩
    · split
      · simp only [searchPages_poll_cons]
        exact pages_single (searchPages_fetchPage_all w autoRetry kw page
          fuel none _)
      · simp only [searchPages_poll_cons]
        exact pages_single (searchPages_fetchPage_all w autoRetry kw page
          fuel none _)
      · rename_i results heqF
        split
        · simp only [searchPages_poll_cons, searchPages_append,
            searchPages_pageRest, List.append_nil]
          exact pages_single (searchPages_fetchPage_all w autoRetry kw page
            fuel none _)
        · simp only [searchPages_poll_cons, searchPages_append,
            searchPages_pageRest, List.append_nil]
          exact pages_single (searchPages_fetchPage_all w autoRetry kw page
            fuel none _)
        · simp only [searchPages_poll_cons, searchPages_append,
            searchPages_pageRest, List.append_nil]
          obtain ⟨ih1, ih2, ih3⟩ := ih (page + 1) _ _
          refine pages_assembly (searchPages_fetchPage_all w autoRetry kw page
            fuel none _) ih1 ih2 ?_
          intro _
          rcases fetchPage_shape w autoRetry kw page fuel none
            { s with pollCount := s.pollCount + 1 } with h | ⟨h, _⟩ |
            ⟨kw', p', hm⟩
          · rw [heqF] at h
            exact nomatch h
          · rw [heqF] at h
            exact nomatch h
          · exact List.ne_nil_of_mem (mem_searchPages.mpr ⟨kw', hm⟩)
      · rename_i lastR' heqF
        split
        · simp only [searchPages_poll_cons, searchPages_append,
            searchPages_pageRest, List.append_nil]
          exact pages_single (searchPages_fetchPage_all w autoRetry kw page
            fuel none _)
        · simp only [searchPages_poll_cons, searchPages_append,
            searchPages_pageRest, List.append_nil]
          exact pages_single (searchPages_fetchPage_all w autoRetry kw page
            fuel none _)
        · rename_i heqD
          simp only [searchPages_poll_cons, searchPages_append,
            searchPages_pageRest, List.append_nil]
          obtain ⟨ih1, ih2, ih3⟩ := ih (page + 1) _ _
          refine pages_assembly (searchPages_fetchPage_all w autoRetry kw page
            fuel none _) ih1 ih2 ?_
          intro _
          obtain ⟨r, hr⟩ := pageRest_nextPage w limitPerHour jobIdx kw target
            page pagesNeeded lastR' jd
            (fetchPage w autoRetry kw page fuel none
              { s with pollCount := s.pollCount + 1 }).2.1 heqD
          rcases fetchPage_shape w autoRetry kw page fuel none
            { s with pollCount := s.pollCount + 1 } with h | ⟨h, _⟩ |
            ⟨kw', p', hm⟩
          · rw [heqF] at h
            exact nomatch h
          · rw [heqF] at h
            injection h with h'
            rw [hr] at h'
            exact nomatch h'
          · exact List.ne_nil_of_mem (mem_searchPages.mpr ⟨kw', hm⟩)

/-! ## C9: pages per job -/

/-- C9: `pagesNeeded` is `ceil(targetCount / 30)` for positive targets
(65 gives 3, 30 gives 1); a job with `targetCount <= 0` is skipped with
no emission and no page request; and within one job the pages of the
issued search requests are nondecreasing, lie in `1..pagesNeeded`, and
start at page 1. -/
theorem c9_pages_needed :
    (∀ t : Int, (pagesNeededOf t : ℤ) = pagesNeededReal t) ∧
    pagesNeededOf 65 = 3 ∧ pagesNeededOf 30 = 1 ∧ pagesNeededOf 0 = 0 ∧
    (∀ (w : World) (autoRetry : Bool) (limitPerHour fuel : Nat) (job : Job)
        (rest : List Job) (idx : Nat) (s : St),
      job.count ≤ 0 → w.stop s.pollCount = false →
      jobLoop w autoRetry limitPerHour fuel (job :: rest) idx s
        = (Event.poll false ::
            (jobLoop w autoRetry limitPerHour fuel rest (idx + 1)
              { s with pollCount := s.pollCount + 1 }).1,
           (jobLoop w autoRetry limitPerHour fuel rest (idx + 1)
              { s with pollCount := s.pollCount + 1 }).2.1,
           (jobLoop w autoRetry limitPerHour fuel rest (idx + 1)
              { s with pollCount := s.pollCount + 1 }).2.2)) ∧
    (∀ (w : World) (autoRetry : Bool) (limitPerHour jobIdx : Nat)
        (kw : String) (target : Int) (pagesNeeded fuel jd : Nat) (s : St),
      List.Chain' (· ≤ ·) (searchPages (pageLoop w autoRetry limitPerHour
        jobIdx kw target pagesNeeded fuel 1 pagesNeeded jd s).1) ∧
      (∀ x ∈ searchPages (pageLoop w autoRetry limitPerHour jobIdx kw target
        pagesNeeded fuel 1 pagesNeeded jd s).1, 1 ≤ x ∧ x ≤ pagesNeeded) ∧
      (searchPages (pageLoop w autoRetry limitPerHour jobIdx kw target
          pagesNeeded fuel 1 pagesNeeded jd s).1 = [] ∨
        (searchPages (pageLoop w autoRetry limitPerHour jobIdx kw target
          pagesNeeded fuel 1 pagesNeeded jd s).1).head? = some 1)) := by
  refine ⟨pagesNeededOf_eq_real, by decide, by decide, by decide, ?_, ?_⟩
  · intro w autoRetry limitPerHour fuel job rest idx s htarget hstop
    conv_lhs => unfold jobLoop
    dsimp only
    rw [hstop]
    simp only [Bool.false_eq_true, if_false]
    rw [if_pos htarget]
  · intro w autoRetry limitPerHour jobIdx kw target pagesNeeded fuel jd s
    obtain ⟨h1, h2, h3⟩ := pageLoop_pages w autoRetry limitPerHour jobIdx kw
      target pagesNeeded fuel pagesNeeded 1 jd s
    refine ⟨h1, ?_, h3⟩
    intro x hx
    have := h2 x hx
    omega

/-- Witness for C9's conditional parts: a zero-count job is skipped with
a single silent flag read, and the one search request of an
empty-results job is page 1 within bounds. -/
theorem c9_pages_needed_witness :
    jobLoop wEmptyResults true 50 5 [{ keyword := "dead", count := 0 }] 0
      (initSt cfgCats)
      = ([Event.poll false], { initSt cfgCats with pollCount := 1 },
         LoopResult.done) ∧
    (1 ≤ 1 ∧ 1 ≤ 30) := by
  constructor
  · have h := c9_pages_needed.2.2.2.2.1 wEmptyResults true 50 5
      { keyword := "dead", count := 0 } [] 0 (initSt cfgCats) (by decide)
      (by decide)
    rw [h]
    decide
  · exact (c9_pages_needed.2.2.2.2.2 wEmptyResults true 50 0 "cats" 30 30 5 0
      (initSt cfgCats)).2.1 1 (by decide)

/-! ## Alphabet lemmas: which events each component can emit -/

theorem alphabet_resolveUrl (w : World) (photo : Photo) (s : St) :
    ∀ e ∈ (resolveUrl w photo s).1, Event.isPhotoSide e = true := by
  unfold resolveUrl
  rcases photo with ⟨pid, dl, uf, ur⟩
  cases dl with
  | none => simp
  | some loc =>
    by_cases hl : pyTruthyS loc
    · simp only [hl, if_true]
      cases w.track s.trackCount with
      | exn m => simp [Event.isPhotoSide]
      | resp status jsonUrl =>
        by_cases hs : status = 200
        · cases jsonUrl <;> simp [hs, Event.isPhotoSide]
        · simp [hs, Event.isPhotoSide]
    · simp [hl]

theorem alphabet_downloadImage (w : World) (jobIdx : Nat)
    (photoId url name : String) (s : St) :
    ∀ e ∈ (downloadImage w jobIdx photoId url name s).1,
      Event.isPhotoSide e = true := by
  unfold downloadImage
  cases w.img s.imgCount with
  | exn m => simp [Event.isPhotoSide]
  | resp status =>
    by_cases hs : status = 200
    · simp [hs, Event.isPhotoSide]
    · simp [hs, Event.isPhotoSide]

theorem alphabet_photosLoop (w : World) (jobIdx : Nat) (kw : String)
    (target : Int) (photos : List Photo) (jd : Nat) (s : St) :
    ∀ e ∈ (photosLoop w jobIdx kw target photos jd s).1,
      Event.isPhotoSide e = true := by
  induction photos generalizing jd s with
  | nil => simp [photosLoop]
  | cons photo rest ih =>
    unfold photosLoop
    by_cases hb : w.stop s.pollCount
    · simp [hb, Event.isPhotoSide]
    · simp only [hb, Bool.false_eq_true, if_false]
      by_cases ht : target ≤ (jd : Int)
      · simp [ht, Event.isPhotoSide]
      · simp only [ht, if_false]
        rcases hru : resolveUrl w photo { s with pollCount := s.pollCount + 1 }
          with ⟨e₂, s₂, url₀⟩
        have hres : ∀ e ∈ e₂, Event.isPhotoSide e = true := by
          have := alphabet_resolveUrl w photo { s with pollCount := s.pollCount + 1 }
          rw [hru] at this
          exact this
        cases hurl : (if pyTruthy url₀ then url₀
            else pyOrOpt photo.urlFull photo.urlRegular) with
        | none =>
          simp only [hru, hurl]
          exact List.forall_mem_cons.mpr ⟨rfl,
            List.forall_mem_append.mpr ⟨hres,
              List.forall_mem_cons.mpr ⟨rfl, ih _ _⟩⟩⟩
        | some u =>
          by_cases hu : pyTruthyS u
          · rcases hdl : downloadImage w jobIdx photo.id u (fileName kw photo.id)
              s₂ with ⟨e₃, s₃, ok⟩
            have hdli : ∀ e ∈ e₃, Event.isPhotoSide e = true := by
              have := alphabet_downloadImage w jobIdx photo.id u
                (fileName kw photo.id) s₂
              rw [hdl] at this
              exact this
            simp only [hru, hurl, hu, if_true, hdl]
            exact List.forall_mem_cons.mpr ⟨rfl,
              List.forall_mem_append.mpr
                ⟨List.forall_mem_append.mpr ⟨hres, hdli⟩, ih _ _⟩⟩
          · simp only [hru, hurl, hu, Bool.false_eq_true, if_false]
            exact List.forall_mem_cons.mpr ⟨rfl,
              List.forall_mem_append.mpr ⟨hres,
                List.forall_mem_cons.mpr ⟨rfl, ih _ _⟩⟩⟩

theorem alphabet_waitLoop (w : World) (n : Nat) (s : St) :
    ∀ e ∈ (waitLoop w n s).1, Event.isWaitSide e = true := by
  induction n generalizing s with
  | zero => simp [waitLoop]
  | succ n ih =>
    unfold waitLoop
    by_cases hb : w.stop s.pollCount
    · simp [hb, Event.isWaitSide]
    · simp only [hb, Bool.false_eq_true, if_false]
      exact List.forall_mem_cons.mpr ⟨rfl,
        List.forall_mem_cons.mpr ⟨rfl, ih _⟩⟩

theorem alphabet_intervalLoop (w : World) (n : Nat) (s : St) :
    ∀ e ∈ (intervalLoop w n s).1, Event.isWaitSide e = true := by
  induction n generalizing s with
  | zero => simp [intervalLoop]
  | succ n ih =>
    unfold intervalLoop
    by_cases hb : w.stop s.pollCount
    · simp [hb, Event.isWaitSide]
    · simp only [hb, Bool.false_eq_true, if_false]
      exact List.forall_mem_cons.mpr ⟨rfl,
        List.forall_mem_cons.mpr ⟨rfl, ih _⟩⟩

theorem alphabet_fetchPage (w : World) (autoRetry : Bool) (kw : String)
    (page : Nat) :
    ∀ fuel lastR s, ∀ e ∈ (fetchPage w autoRetry kw page fuel lastR s).1,
      Event.isFetchSide e = true := by
  intro fuel
  induction fuel with
  | zero => intro lastR s; simp [fetchPage]
  | succ n ih =>
    intro lastR s
    have hW : ∀ (m : Nat) (s' : St), ∀ e ∈ (waitLoop w m s').1,
        Event.isFetchSide e = true := by
      intro m s' e he
      have := alphabet_waitLoop w m s' e he
      cases e <;> first | rfl | exact absurd this (by simp [Event.isWaitSide])
    unfold fetchPage
    dsimp only
    split
    · simp [Event.isFetchSide]
    · split
      · exact List.forall_mem_append.mpr
          ⟨List.forall_mem_cons.mpr ⟨rfl, List.forall_mem_cons.mpr ⟨rfl,
            List.forall_mem_cons.mpr ⟨rfl, by simp⟩⟩⟩,
           List.forall_mem_cons.mpr ⟨rfl, List.forall_mem_cons.mpr ⟨rfl,
             by simp⟩⟩⟩
      · split
        · exact List.forall_mem_cons.mpr ⟨rfl, List.forall_mem_cons.mpr ⟨rfl,
            List.forall_mem_cons.mpr ⟨rfl, by simp⟩⟩⟩
        · split
          · split
            · split
              · split
                · dsimp only
                  split
                  · exact List.forall_mem_append.mpr
                      ⟨List.forall_mem_append.mpr
                        ⟨List.forall_mem_append.mpr
                          ⟨List.forall_mem_append.mpr
                            ⟨List.forall_mem_cons.mpr ⟨rfl,
                              List.forall_mem_cons.mpr ⟨rfl,
                                List.forall_mem_cons.mpr ⟨rfl, by simp⟩⟩⟩,
                             List.forall_mem_cons.mpr ⟨rfl, by simp⟩⟩,
                           List.forall_mem_cons.mpr ⟨rfl, by simp⟩⟩,
                         hW _ _⟩,
                       List.forall_mem_cons.mpr ⟨rfl, ih _ _⟩⟩
                  · exact List.forall_mem_append.mpr
                      ⟨List.forall_mem_append.mpr
                        ⟨List.forall_mem_append.mpr
                          ⟨List.forall_mem_cons.mpr ⟨rfl,
                            List.forall_mem_cons.mpr ⟨rfl,
                              List.forall_mem_cons.mpr ⟨rfl, by simp⟩⟩⟩,
                           List.forall_mem_cons.mpr ⟨rfl, by simp⟩⟩,
                         List.forall_mem_cons.mpr ⟨rfl, by simp⟩⟩,
                       hW _ _⟩
                · dsimp only
                  split
                  · exact List.forall_mem_append.mpr
                      ⟨List.forall_mem_append.mpr
                        ⟨List.forall_mem_append.mpr
                          ⟨List.forall_mem_append.mpr
                            ⟨List.forall_mem_cons.mpr ⟨rfl,
                              List.forall_mem_cons.mpr ⟨rfl,
                                List.forall_mem_cons.mpr ⟨rfl, by simp⟩⟩⟩,
                             List.forall_mem_cons.mpr ⟨rfl, by simp⟩⟩,
                           List.forall_mem_cons.mpr ⟨rfl, by simp⟩⟩,
                         hW _ _⟩,
                       List.forall_mem_cons.mpr ⟨rfl, ih _ _⟩⟩
                  · exact List.forall_mem_append.mpr
                      ⟨List.forall_mem_append.mpr
                        ⟨List.forall_mem_append.mpr
                          ⟨List.forall_mem_cons.mpr ⟨rfl,
                            List.forall_mem_cons.mpr ⟨rfl,
                              List.forall_mem_cons.mpr ⟨rfl, by simp⟩⟩⟩,
                           List.forall_mem_cons.mpr ⟨rfl, by simp⟩⟩,
                         List.forall_mem_cons.mpr ⟨rfl, by simp⟩⟩,
                       hW _ _⟩
              · exact List.forall_mem_append.mpr
                  ⟨List.forall_mem_append.mpr
                    ⟨List.forall_mem_cons.mpr ⟨rfl,
                      List.forall_mem_cons.mpr ⟨rfl,
                        List.forall_mem_cons.mpr ⟨rfl, by simp⟩⟩⟩,
                     List.forall_mem_cons.mpr ⟨rfl, by simp⟩⟩,
                   List.forall_mem_cons.mpr ⟨rfl,
                     List.forall_mem_cons.mpr ⟨rfl, by simp⟩⟩⟩
            · exact List.forall_mem_append.mpr
                ⟨List.forall_mem_append.mpr
                  ⟨List.forall_mem_cons.mpr ⟨rfl,
                    List.forall_mem_cons.mpr ⟨rfl,
                      List.forall_mem_cons.mpr ⟨rfl, by simp⟩⟩⟩,
                   List.forall_mem_cons.mpr ⟨rfl, by simp⟩⟩,
                 List.forall_mem_cons.mpr ⟨rfl,
                   List.forall_mem_cons.mpr ⟨rfl, by simp⟩⟩⟩
          · exact List.forall_mem_append.mpr
              ⟨List.forall_mem_cons.mpr ⟨rfl, List.forall_mem_cons.mpr ⟨rfl,
                List.forall_mem_cons.mpr ⟨rfl, by simp⟩⟩⟩,
               List.forall_mem_cons.mpr ⟨rfl,
                 List.forall_mem_cons.mpr ⟨rfl, by simp⟩⟩⟩

/-! ## Sleep placement: every sleep follows a search request -/

theorem sp_of_no_sleep {Δ : List Event} (h : ∀ e ∈ Δ, e ≠ Event.sleep1) :
    ∀ l₁ l₂, Δ = l₁ ++ Event.sleep1 :: l₂ →
      ∃ kw' p', Event.searchCall kw' p' ∈ l₁ := by
  intro l₁ l₂ hd
  exact absurd rfl (h Event.sleep1 (by rw [hd]; simp))

theorem sp_cons {a : Event} {Δ : List Event} (ha : a ≠ Event.sleep1)
    (hΔ : ∀ l₁ l₂, Δ = l₁ ++ Event.sleep1 :: l₂ →
      ∃ kw' p', Event.searchCall kw' p' ∈ l₁) :
    ∀ l₁ l₂, a :: Δ = l₁ ++ Event.sleep1 :: l₂ →
      ∃ kw' p', Event.searchCall kw' p' ∈ l₁ := by
  intro l₁ l₂ hd
  cases l₁ with
  | nil =>
    rw [List.nil_append] at hd
    injection hd with h₁ h₂
    exact absurd h₁ ha
  | cons x l₁' =>
    rw [List.cons_append] at hd
    injection hd with h₁ h₂
    obtain ⟨kw', p', hm⟩ := hΔ l₁' l₂ h₂
    exact ⟨kw', p', List.mem_cons_of_mem x hm⟩

theorem sp_cons_search {kw : String} {p : Nat} {Δ : List Event} :
    ∀ l₁ l₂, Event.searchCall kw p :: Δ = l₁ ++ Event.sleep1 :: l₂ →
      ∃ kw' p', Event.searchCall kw' p' ∈ l₁ := by
  intro l₁ l₂ hd
  cases l₁ with
  | nil =>
    rw [List.nil_append] at hd
    injection hd with h₁ h₂
    exact nomatch h₁
  | cons x l₁' =>
    rw [List.cons_append] at hd
    injection hd with h₁ h₂
    exact ⟨kw, p, by rw [← h₁]; exact List.mem_cons_self _ _⟩

theorem sp_append {A B : List Event}
    (hA : ∀ l₁ l₂, A = l₁ ++ Event.sleep1 :: l₂ →
      ∃ kw' p', Event.searchCall kw' p' ∈ l₁)
    (hB : (∃ kw' p', Event.searchCall kw' p' ∈ A) ∨
      (∀ e ∈ B, e ≠ Event.sleep1)) :
    ∀ l₁ l₂, A ++ B = l₁ ++ Event.sleep1 :: l₂ →
      ∃ kw' p', Event.searchCall kw' p' ∈ l₁ := by
  intro l₁ l₂ hd
  rcases List.append_eq_append_iff.mp hd with ⟨a', ha1, ha2⟩ | ⟨c', hc1, hc2⟩
  · rcases hB with ⟨kw', p', hm⟩ | hB
    · exact ⟨kw', p', by rw [ha1]; exact List.mem_append_left _ hm⟩
    · exact absurd rfl (hB Event.sleep1 (by rw [ha2]; simp))
  · cases c' with
    | nil =>
      rcases hB with ⟨kw', p', hm⟩ | hB
      · refine ⟨kw', p', ?_⟩
        rw [List.append_nil] at hc1
        rw [← hc1]
        exact hm
      · rw [List.nil_append] at hc2
        exact absurd rfl (hB Event.sleep1 (by rw [← hc2]; simp))
    | cons x c'' =>
      rw [List.cons_append] at hc2
      injection hc2 with h₁ h₂
      rw [← h₁] at hc1
      exact hA l₁ c'' hc1

/-- Within one page-request loop, any sleep is preceded by a search
request of that same loop. -/
theorem sp_fetchPage (w : World) (autoRetry : Bool) (kw : String)
    (page : Nat) :
    ∀ fuel lastR s l₁ l₂,
      (fetchPage w autoRetry kw page fuel lastR s).1
        = l₁ ++ Event.sleep1 :: l₂ →
      ∃ kw' p', Event.searchCall kw' p' ∈ l₁ := by
  intro fuel lastR s
  cases fuel with
  | zero => exact sp_of_no_sleep (by simp [fetchPage])
  | succ n =>
    unfold fetchPage
    dsimp only
    split
    · exact sp_of_no_sleep (by simp)
    · split
      · simp only [List.append_assoc, List.cons_append, List.nil_append]
        exact sp_cons (by simp) (sp_cons (by simp) sp_cons_search)
      · split
        · simp only [List.append_assoc, List.cons_append, List.nil_append]
          exact sp_cons (by simp) (sp_cons (by simp) sp_cons_search)
        · split
          · split
            · split
              · split
                · dsimp only
                  split
                  · simp only [List.append_assoc, List.cons_append,
                      List.nil_append]
                    exact sp_cons (by simp) (sp_cons (by simp) sp_cons_search)
                  · simp only [List.append_assoc, List.cons_append,
                      List.nil_append]
                    exact sp_cons (by simp) (sp_cons (by simp) sp_cons_search)
                · dsimp only
                  split
                  · simp only [List.append_assoc, List.cons_append,
                      List.nil_append]
                    exact sp_cons (by simp) (sp_cons (by simp) sp_cons_search)
                  · simp only [List.append_assoc, List.cons_append,
                      List.nil_append]
                    exact sp_cons (by simp) (sp_cons (by simp) sp_cons_search)
              · simp only [List.append_assoc, List.cons_append,
                  List.nil_append]
                exact sp_cons (by simp) (sp_cons (by simp) sp_cons_search)
            · simp only [List.append_assoc, List.cons_append, List.nil_append]
              exact sp_cons (by simp) (sp_cons (by simp) sp_cons_search)
          · simp only [List.append_assoc, List.cons_append, List.nil_append]
            exact sp_cons (by simp) (sp_cons (by simp) sp_cons_search)

/-- Without a parsed nonempty result, the post-fetch handling never
sleeps. -/
theorem noSleep_pageRest_of (w : World) (limitPerHour jobIdx : Nat)
    (kw : String) (target : Int) (page pagesNeeded : Nat)
    (resOpt : Option (Option (List Photo))) (jd : Nat) (s : St)
    (h : ∀ r, resOpt ≠ some (some r)) :
    ∀ e ∈ (pageRest w limitPerHour jobIdx kw target page pagesNeeded resOpt
      jd s).1, e ≠ Event.sleep1 := by
  unfold pageRest
  dsimp only
  split
  · simp
  · cases resOpt with
    | none => simp
    | some o =>
      cases o with
      | none => simp
      | some r => exact absurd rfl (h r)

/-- Within one job's page loop, any sleep is preceded by an earlier
search request of that same job: no wait precedes a job's first
request. -/
theorem sp_pageLoop (w : World) (autoRetry : Bool) (limitPerHour jobIdx : Nat)
    (kw : String) (target : Int) (pagesNeeded fuel : Nat) :
    ∀ pagesLeft page jd s l₁ l₂,
      (pageLoop w autoRetry limitPerHour jobIdx kw target pagesNeeded fuel
        page pagesLeft jd s).1 = l₁ ++ Event.sleep1 :: l₂ →
      ∃ kw' p', Event.searchCall kw' p' ∈ l₁ := by
  intro pagesLeft page jd s
  cases pagesLeft with
  | zero => exact sp_of_no_sleep (by simp [pageLoop])
  | succ pagesLeft =>
    unfold pageLoop
    dsimp only
    split
    · exact sp_of_no_sleep (by simp)
    · split
      · exact sp_cons (by simp)
          (sp_fetchPage w autoRetry kw page fuel none _)
      · exact sp_cons (by simp)
          (sp_fetchPage w autoRetry kw page fuel none _)
      · rename_i results heqF
        have hmem : ∃ kw' p', Event.searchCall kw' p'
            ∈ (fetchPage w autoRetry kw page fuel none
              { s with pollCount := s.pollCount + 1 }).1 := by
          rcases fetchPage_shape w autoRetry kw page fuel none
            { s with pollCount := s.pollCount + 1 } with h | ⟨h, _⟩ | hm
          · rw [heqF] at h
            exact nomatch h
          · rw [heqF] at h
            exact nomatch h
          · exact hm
        split
        · exact sp_cons (by simp)
            (sp_append (sp_fetchPage w autoRetry kw page fuel none _)
              (Or.inl hmem))
        · exact sp_cons (by simp)
            (sp_append (sp_fetchPage w autoRetry kw page fuel none _)
              (Or.inl hmem))
        · simp only [List.append_assoc]
          exact sp_cons (by simp)
            (sp_append (sp_fetchPage w autoRetry kw page fuel none _)
              (Or.inl hmem))
      · rename_i lastR' heqF
        cases lastR' with
        | none =>
          split
          · exact sp_cons (by simp)
              (sp_append (sp_fetchPage w autoRetry kw page fuel none _)
                (Or.inr (noSleep_pageRest_of w limitPerHour jobIdx kw target
                  page pagesNeeded none jd _ (fun r => by simp))))
          · exact sp_cons (by simp)
              (sp_append (sp_fetchPage w autoRetry kw page fuel none _)
                (Or.inr (noSleep_pageRest_of w limitPerHour jobIdx kw target
                  page pagesNeeded none jd _ (fun r => by simp))))
          · rename_i heqD
            obtain ⟨r, hr⟩ := pageRest_nextPage w limitPerHour jobIdx kw
              target page pagesNeeded none jd _ heqD
            exact nomatch hr
        | some ro =>
          have hmem : ∃ kw' p', Event.searchCall kw' p'
              ∈ (fetchPage w autoRetry kw page fuel none
                { s with pollCount := s.pollCount + 1 }).1 := by
            rcases fetchPage_shape w autoRetry kw page fuel none
              { s with pollCount := s.pollCount + 1 } with h | ⟨h, _⟩ | hm
            · rw [heqF] at h
              exact nomatch h
            · rw [heqF] at h
              injection h with h'
              exact nomatch h'
            · exact hm
          split
          · exact sp_cons (by simp)
              (sp_append (sp_fetchPage w autoRetry kw page fuel none _)
                (Or.inl hmem))
          · exact sp_cons (by simp)
              (sp_append (sp_fetchPage w autoRetry kw page fuel none _)
                (Or.inl hmem))
          · simp only [List.append_assoc]
            exact sp_cons (by simp)
              (sp_append (sp_fetchPage w autoRetry kw page fuel none _)
                (Or.inl hmem))

theorem count_sleep_photosLoop (w : World) (jobIdx : Nat) (kw : String)
    (target : Int) (photos : List Photo) (jd : Nat) (s : St) :
    (photosLoop w jobIdx kw target photos jd s).1.count Event.sleep1 = 0 := by
  rw [List.count_eq_zero]
  intro hmem
  exact absurd (alphabet_photosLoop w jobIdx kw target photos jd s
    Event.sleep1 hmem) (by simp [Event.isPhotoSide])

theorem count_sleep_intervalLoop (w : World)
    (hstop : ∀ i, w.stop i = false) :
    ∀ n s, (intervalLoop w n s).1.count Event.sleep1 = n := by
  intro n
  induction n with
  | zero => intro s; simp [intervalLoop]
  | succ n ih =>
    intro s
    unfold intervalLoop
    rw [hstop]
    simp only [Bool.false_eq_true, if_false]
    rw [List.count_cons, List.count_cons, ih]
    simp

/-- The executable inter-page guard agrees with the source's
`interval_sec >= 1.0`. -/
theorem intervalGuard_iff (n : Nat) :
    1 ≤ intervalFloor n ↔ (1 : ℚ) ≤ intervalSec n := by
  constructor
  · intro h
    have h2 : (1 : ℤ) ≤ ⌊intervalSec n⌋ := by
      rw [← intervalFloor_eq_floor]
      exact_mod_cast h
    have h3 := Int.le_floor.mp h2
    push_cast at h3
    exact h3
  · intro h
    have h2 : (1 : ℤ) ≤ ⌊intervalSec n⌋ := Int.le_floor.mpr (by push_cast; exact h)
    rw [← intervalFloor_eq_floor] at h2
    exact_mod_cast h2

/-- When a page completes with further pages to go and no cancellation,
the loop sleeps exactly `int(interval_sec)` seconds if and only if the
guard `interval_sec >= 1.0 and page < pages_needed` holds, and otherwise
does not sleep at all. -/
theorem pageRest_sleep_count (w : World) (limitPerHour jobIdx : Nat)
    (kw : String) (target : Int) (page pagesNeeded : Nat)
    (results : List Photo) (jd : Nat) (s : St)
    (hstop : ∀ i, w.stop i = false)
    (hnext : (pageRest w limitPerHour jobIdx kw target page pagesNeeded
      (some (some results)) jd s).2.2.2 = PageDecision.nextPage) :
    (pageRest w limitPerHour jobIdx kw target page pagesNeeded
      (some (some results)) jd s).1.count Event.sleep1
      = (if 1 ≤ intervalFloor limitPerHour ∧ page < pagesNeeded then
          intervalFloor limitPerHour else 0) := by
  unfold pageRest at hnext ⊢
  dsimp only at hnext ⊢
  rw [hstop] at hnext ⊢
  simp only [Bool.false_eq_true, if_false] at hnext ⊢
  by_cases he : results.isEmpty
  · rw [if_pos he] at hnext
    exact nomatch hnext
  · rw [if_neg he] at hnext ⊢
    by_cases ht : target ≤ ((photosLoop w jobIdx kw target results jd
        { s with pollCount := s.pollCount + 1 }).2.2 : Int)
    · rw [if_pos ht] at hnext
      exact nomatch hnext
    · rw [if_neg ht] at hnext ⊢
      by_cases hg : 1 ≤ intervalFloor limitPerHour ∧ page < pagesNeeded
      · rw [if_pos hg] at hnext ⊢
        rw [if_pos hg]
        rw [hstop] at hnext ⊢
        simp only [Bool.false_eq_true, if_false] at hnext ⊢
        simp [List.count_cons, List.count_append, count_sleep_photosLoop,
          count_sleep_intervalLoop w hstop]
      · rw [if_neg hg] at hnext ⊢
        rw [if_neg hg]
        simp [List.count_cons, List.count_append, count_sleep_photosLoop]

/-- C5 counterexample: a run whose rate budget puts the minimum interval
at 80 seconds issues its first (and only) search request with no sleep
anywhere in the run, so a search request is not preceded by enforcement
of the interval. -/
theorem c5_rate_limiter_counterexample :
    (1 : ℚ) ≤ intervalSec cfgCats.limitPerHour ∧
    Event.searchCall "cats" 1 ∈ (runWorker wEmptyResults cfgCats 5).1 ∧
    Event.sleep1 ∉ (runWorker wEmptyResults cfgCats 5).1 := by
  refine ⟨?_, by decide, by decide⟩
  exact (intervalGuard_iff cfgCats.limitPerHour).mp (by decide)

/-- C5 (amended): the safety interval is enforced only after a finished
page and only when more pages remain in the same job — after such a page
the loop sleeps exactly `int(interval_sec)` cancellable seconds if
`interval_sec >= 1.0 and page < pages_needed` and zero seconds
otherwise; within a job every sleep comes after an earlier search
request of that job, so the first page of each job is requested with no
preceding wait. -/
theorem c5_rate_limiter_amended :
    (∀ (w : World) (autoRetry : Bool) (limitPerHour jobIdx : Nat)
        (kw : String) (target : Int) (pagesNeeded fuel pagesLeft page jd : Nat)
        (s : St) (l₁ l₂ : List Event),
      (pageLoop w autoRetry limitPerHour jobIdx kw target pagesNeeded fuel
        page pagesLeft jd s).1 = l₁ ++ Event.sleep1 :: l₂ →
      ∃ kw' p', Event.searchCall kw' p' ∈ l₁) ∧
    (∀ (w : World) (limitPerHour jobIdx : Nat) (kw : String) (target : Int)
        (page pagesNeeded : Nat) (results : List Photo) (jd : Nat) (s : St),
      (∀ i, w.stop i = false) →
      (pageRest w limitPerHour jobIdx kw target page pagesNeeded
        (some (some results)) jd s).2.2.2 = PageDecision.nextPage →
      (pageRest w limitPerHour jobIdx kw target page pagesNeeded
        (some (some results)) jd s).1.count Event.sleep1
        = (if 1 ≤ intervalFloor limitPerHour ∧ page < pagesNeeded then
            intervalFloor limitPerHour else 0)) ∧
    (∀ n, 1 ≤ intervalFloor n ↔ (1 : ℚ) ≤ intervalSec n) := by
  refine ⟨?_, ?_, intervalGuard_iff⟩
  · intro w autoRetry limitPerHour jobIdx kw target pagesNeeded fuel
      pagesLeft page jd s l₁ l₂
    exact sp_pageLoop w autoRetry limitPerHour jobIdx kw target pagesNeeded
      fuel pagesLeft page jd s l₁ l₂
  · intro w limitPerHour jobIdx kw target page pagesNeeded results jd s
      hstop hnext
    exact pageRest_sleep_count w limitPerHour jobIdx kw target page
      pagesNeeded results jd s hstop hnext

/-- Witness for the amended C5 at a two-page job with a one-second
interval: the sleep between pages 1 and 2 is preceded by the page-1
search request, and the completed first page is followed by exactly
`int(interval_sec) = 1` sleep. -/
theorem c5_rate_limiter_amended_witness :
    (∃ kw' p', Event.searchCall kw' p' ∈ ([Event.poll false, Event.poll false,
      Event.progSearching 1, Event.searchCall "x" 1, Event.poll false,
      Event.poll false, Event.imgCall "F", Event.fileWrite "x_p1.jpg",
      Event.progressValue 1, Event.progSaved 1 "x_p1.jpg", Event.pageValue 1,
      Event.poll false] : List Event)) ∧
    (pageRest wOnePhoto 4000 0 "x" 31 1 2
      (some (some [{ id := "p1", downloadLocation := none,
                     urlFull := some "F", urlRegular := none }])) 0
      (initSt cfgOne)).1.count Event.sleep1
      = (if 1 ≤ intervalFloor 4000 ∧ 1 < 2 then intervalFloor 4000 else 0) := by
  constructor
  · exact c5_rate_limiter_amended.1 wOnePhoto true 4000 0 "x" 31 2 5 2 1 0
      (initSt cfgOne)
      [Event.poll false, Event.poll false, Event.progSearching 1,
        Event.searchCall "x" 1, Event.poll false, Event.poll false,
        Event.imgCall "F", Event.fileWrite "x_p1.jpg", Event.progressValue 1,
        Event.progSaved 1 "x_p1.jpg", Event.pageValue 1, Event.poll false]
      [Event.poll false, Event.poll false, Event.poll false,
        Event.progSearching 2, Event.searchCall "x" 2, Event.poll false,
        Event.poll false, Event.imgCall "F", Event.fileWrite "x_p1.jpg",
        Event.progressValue 2, Event.progSaved 2 "x_p1.jpg",
        Event.pageValue 2] (by decide)
  · exact c5_rate_limiter_amended.2.1 wOnePhoto 4000 0 "x" 31 1 2
      [{ id := "p1", downloadLocation := none, urlFull := some "F",
         urlRegular := none }] 0 (initSt cfgOne) (fun i => rfl) (by decide)

/-! ## C6: per-item URL resolution -/

/-- The resolver never writes a file and never fetches an image. -/
theorem noWrite_resolveUrl (w : World) (photo : Photo) (s : St) :
    ∀ e ∈ (resolveUrl w photo s).1,
      (∀ nm, e ≠ Event.fileWrite nm) ∧ (∀ u, e ≠ Event.imgCall u) := by
  unfold resolveUrl
  rcases photo with ⟨pid, dl, uf, ur⟩
  cases dl with
  | none => simp
  | some loc =>
    by_cases hl : pyTruthyS loc
    · simp only [hl, if_true]
      cases w.track s.trackCount with
      | exn m => simp
      | resp status jsonUrl =>
        by_cases hs : status = 200
        · cases jsonUrl <;> simp [hs]
        · simp [hs]
    · simp [hl]

/-- C6: a truthy tracking URL is called exactly once; its body's `url`
is adopted only on HTTP 200 with parsed JSON; every tracking failure
resolves to `none`; without a tracking URL no tracking call happens; the
fallback is `urls.full or urls.regular` with Python truthiness; and an
item with no resolvable URL is skipped — logged, nothing written — while
the item loop continues with the rest. -/
theorem c6_resolution_fallback (w : World) (photo : Photo) (s : St)
    (loc : String) (u : Option String) :
    (photo.downloadLocation = some loc → pyTruthyS loc = true →
      (∃ tail, (resolveUrl w photo s).1 = Event.trackCall loc :: tail ∧
        ∀ e ∈ tail, ∀ v, e ≠ Event.trackCall v) ∧
      ((resolveUrl w photo s).2.1).trackCount = s.trackCount + 1) ∧
    (photo.downloadLocation = some loc → pyTruthyS loc = true →
      w.track s.trackCount = TrackResp.resp 200 (some u) →
      (resolveUrl w photo s).2.2 = u) ∧
    (photo.downloadLocation = some loc → pyTruthyS loc = true →
      (∀ status j, w.track s.trackCount = TrackResp.resp status j →
        status ≠ 200 → (resolveUrl w photo s).2.2 = none) ∧
      (∀ msg, w.track s.trackCount = TrackResp.exn msg →
        (resolveUrl w photo s).2.2 = none) ∧
      (w.track s.trackCount = TrackResp.resp 200 none →
        (resolveUrl w photo s).2.2 = none)) ∧
    (pyTruthy photo.downloadLocation = false →
      resolveUrl w photo s = ([], s, none)) ∧
    (∀ a b : Option String, pyOrOpt a b = if pyTruthy a then a else b) ∧
    (∀ (jobIdx : Nat) (kw : String) (target : Int) (rest : List Photo)
        (jd : Nat),
      w.stop s.pollCount = false → ¬ target ≤ (jd : Int) →
      pyTruthy (resolveUrl w photo
        { s with pollCount := s.pollCount + 1 }).2.2 = false →
      pyTruthy photo.urlFull = false → pyTruthy photo.urlRegular = false →
      photosLoop w jobIdx kw target (photo :: rest) jd s
        = (Event.poll false ::
            (resolveUrl w photo { s with pollCount := s.pollCount + 1 }).1 ++
            Event.progNoUrl photo.id ::
            (photosLoop w jobIdx kw target rest jd
              (resolveUrl w photo
                { s with pollCount := s.pollCount + 1 }).2.1).1,
           (photosLoop w jobIdx kw target rest jd
             (resolveUrl w photo
               { s with pollCount := s.pollCount + 1 }).2.1).2.1,
           (photosLoop w jobIdx kw target rest jd
             (resolveUrl w photo
               { s with pollCount := s.pollCount + 1 }).2.1).2.2) ∧
      (∀ e ∈ (resolveUrl w photo { s with pollCount := s.pollCount + 1 }).1,
        ∀ nm, e ≠ Event.fileWrite nm)) := by
  refine ⟨?_, ?_, ?_, ?_, fun a b => rfl, ?_⟩
  · intro hdl hl
    unfold resolveUrl
    rw [hdl]
    simp only [hl, if_true]
    cases w.track s.trackCount with
    | exn m => exact ⟨⟨[Event.progTrackExn photo.id], rfl, by simp⟩, rfl⟩
    | resp status jsonUrl =>
      dsimp only
      by_cases hs : status = 200
      · rw [if_pos hs]
        cases jsonUrl with
        | none => exact ⟨⟨[Event.progTrackJsonFail photo.id], rfl, by simp⟩, rfl⟩
        | some v => exact ⟨⟨[], rfl, by simp⟩, rfl⟩
      · rw [if_neg hs]
        exact ⟨⟨[Event.progTrackHttpFail photo.id status], rfl, by simp⟩, rfl⟩
  · intro hdl hl htr
    unfold resolveUrl
    rw [hdl]
    simp only [hl, if_true]
    rw [htr]
    simp
  · intro hdl hl
    refine ⟨?_, ?_, ?_⟩
    · intro status j htr hs
      unfold resolveUrl
      rw [hdl]
      simp only [hl, if_true]
      rw [htr]
      dsimp only
      rw [if_neg hs]
    · intro msg htr
      unfold resolveUrl
      rw [hdl]
      simp only [hl, if_true]
      rw [htr]
    · intro htr
      unfold resolveUrl
      rw [hdl]
      simp only [hl, if_true]
      rw [htr]
      simp
  · intro hfd
    unfold resolveUrl
    cases hdl2 : photo.downloadLocation with
    | none => rfl
    | some loc2 =>
      rw [hdl2] at hfd
      simp only [pyTruthy] at hfd
      simp only [hfd, Bool.false_eq_true, if_false]
  · intro jobIdx kw target rest jd hstop ht hu hf hr
    refine ⟨?_, fun e he nm => (noWrite_resolveUrl w photo _ e he).1 nm⟩
    conv_lhs => unfold photosLoop
    dsimp only
    rw [hstop]
    simp only [Bool.false_eq_true, if_false]
    rw [if_neg ht]
    rw [hu]
    simp only [Bool.false_eq_true, if_false]
    simp only [pyOrOpt, hf, Bool.false_eq_true, if_false]
    cases hreg : photo.urlRegular with
    | none => rfl
    | some r2 =>
      rw [hreg] at hr
      simp only [pyTruthy] at hr
      simp only [hr, Bool.false_eq_true, if_false]

/-- Witness for C6: with a working tracking endpoint the tracked photo's
URL resolves to the tracking body's `url`, the tracking call appears
exactly once, and a photo without a download location makes no call and
resolves to `none`. -/
theorem c6_resolution_fallback_witness :
    (resolveUrl wTrackOk phTracked (initSt cfgOne)).2.2 = some "T" ∧
    resolveUrl wTrackOk phBare (initSt cfgOne) = ([], initSt cfgOne, none) ∧
    (∃ tail, (resolveUrl wTrackOk phTracked (initSt cfgOne)).1
        = Event.trackCall "L" :: tail ∧
      ∀ e ∈ tail, ∀ v, e ≠ Event.trackCall v) :=
  ⟨(c6_resolution_fallback wTrackOk phTracked (initSt cfgOne) "L"
      (some "T")).2.1 rfl (by decide) rfl,
   (c6_resolution_fallback wTrackOk phBare (initSt cfgOne) "" none).2.2.2.1
      rfl,
   ((c6_resolution_fallback wTrackOk phTracked (initSt cfgOne) "L"
      (some "T")).1 rfl (by decide)).1⟩

/-! ## C7: item-level failures are non-fatal -/

/-- C7: an exception or a non-200 status on the image fetch logs the
failure, advances no downloaded counter and yields `success = false`;
neither the resolver nor the image fetch ever emits an error or
`finished` signal; and an item whose download fails is skipped while the
item loop continues with the rest of the page at the same per-job count. -/
theorem c7_item_failures (w : World) (jobIdx : Nat) (pid url name : String)
    (photo : Photo) (kw : String) (target : Int) (rest : List Photo)
    (jd : Nat) (s : St) :
    (∀ m, w.img s.imgCount = ImgResp.exn m →
      downloadImage w jobIdx pid url name s =
        ([Event.imgCall url, Event.progImgExn pid],
         { s with imgCount := s.imgCount + 1 }, false)) ∧
    (∀ status, w.img s.imgCount = ImgResp.resp status → status ≠ 200 →
      downloadImage w jobIdx pid url name s =
        ([Event.imgCall url, Event.progImgFail status pid],
         { s with imgCount := s.imgCount + 1 }, false)) ∧
    (∀ e ∈ (downloadImage w jobIdx pid url name s).1,
      e.isError = false ∧ e ≠ Event.finished) ∧
    (∀ e ∈ (resolveUrl w photo s).1,
      e.isError = false ∧ e ≠ Event.finished) ∧
    ((resolveUrl w photo s).2.1.totalDownloaded = s.totalDownloaded ∧
      (resolveUrl w photo s).2.1.perJob = s.perJob) ∧
    (∀ u : String,
      w.stop s.pollCount = false → ¬ target ≤ (jd : Int) →
      (if pyTruthy (resolveUrl w photo
            { s with pollCount := s.pollCount + 1 }).2.2
        then (resolveUrl w photo
            { s with pollCount := s.pollCount + 1 }).2.2
        else pyOrOpt photo.urlFull photo.urlRegular) = some u →
      pyTruthyS u = true →
      (downloadImage w jobIdx photo.id u (fileName kw photo.id)
        (resolveUrl w photo
          { s with pollCount := s.pollCount + 1 }).2.1).2.2 = false →
      photosLoop w jobIdx kw target (photo :: rest) jd s
        = (Event.poll false ::
            (resolveUrl w photo
              { s with pollCount := s.pollCount + 1 }).1 ++
            (downloadImage w jobIdx photo.id u (fileName kw photo.id)
              (resolveUrl w photo
                { s with pollCount := s.pollCount + 1 }).2.1).1 ++
            (photosLoop w jobIdx kw target rest jd
              (downloadImage w jobIdx photo.id u (fileName kw photo.id)
                (resolveUrl w photo
                  { s with pollCount := s.pollCount + 1 }).2.1).2.1).1,
           (photosLoop w jobIdx kw target rest jd
             (downloadImage w jobIdx photo.id u (fileName kw photo.id)
               (resolveUrl w photo
                 { s with pollCount := s.pollCount + 1 }).2.1).2.1).2)) := by
  refine ⟨?_, ?_, ?_, ?_, ?_, ?_⟩
  · intro m hm
    unfold downloadImage
    rw [hm]
  · intro status hm hs
    unfold downloadImage
    rw [hm]
    dsimp only
    rw [if_neg hs]
  · unfold downloadImage
    cases w.img s.imgCount with
    | exn m => simp [Event.isError]
    | resp status =>
      dsimp only
      by_cases hs : status = 200
      · rw [if_pos hs]; simp [Event.isError]
      · rw [if_neg hs]; simp [Event.isError]
  · unfold resolveUrl
    rcases photo with ⟨qid, dl, uf, ur⟩
    cases dl with
    | none => simp
    | some loc =>
      by_cases hl : pyTruthyS loc
      · simp only [hl, if_true]
        cases w.track s.trackCount with
        | exn m => simp [Event.isError]
        | resp status jsonUrl =>
          dsimp only
          by_cases hs : status = 200
          · rw [if_pos hs]
            cases jsonUrl <;> simp [Event.isError]
          · rw [if_neg hs]; simp [Event.isError]
      · simp [hl]
  · unfold resolveUrl
    rcases photo with ⟨qid, dl, uf, ur⟩
    cases dl with
    | none => exact ⟨rfl, rfl⟩
    | some loc =>
      by_cases hl : pyTruthyS loc
      · simp only [hl, if_true]
        cases w.track s.trackCount with
        | exn m => exact ⟨rfl, rfl⟩
        | resp status jsonUrl =>
          dsimp only
          by_cases hs : status = 200
          · rw [if_pos hs]
            cases jsonUrl <;> exact ⟨rfl, rfl⟩
          · rw [if_neg hs]; exact ⟨rfl, rfl⟩
      · simp [hl]
  · intro u hstop ht hu htu hfail
    conv_lhs => unfold photosLoop
    dsimp only
    rw [hstop]
    simp only [Bool.false_eq_true, if_false]
    rw [if_neg ht]
    rw [hu]
    dsimp only
    simp only [htu, if_true]
    rw [hfail]
    simp only [Bool.false_eq_true, if_false]

/-- Witness for C7: a 404 image fetch logs the failure, leaves every
downloaded counter at zero and reports no success, and the item loop over
one such photo ends with the per-job count still zero and no error or
`finished` event. -/
theorem c7_item_failures_witness :
    downloadImage wImg404 0 "p4" "F" (fileName "a b" "p4") (initSt cfgOne)
      = ([Event.imgCall "F", Event.progImgFail 404 "p4"],
         { initSt cfgOne with imgCount := 1 }, false) ∧
    photosLoop wImg404 0 "a b" 1 [phFullOnly] 0 (initSt cfgOne)
      = ([Event.poll false, Event.imgCall "F", Event.progImgFail 404 "p4"],
         { initSt cfgOne with pollCount := 1, imgCount := 1 }, 0) := by
  constructor
  · exact (c7_item_failures wImg404 0 "p4" "F" (fileName "a b" "p4")
      phFullOnly "a b" 1 [] 0 (initSt cfgOne)).2.1 404 rfl (by decide)
  · have h := (c7_item_failures wImg404 0 "p4" "F" (fileName "a b" "p4")
      phFullOnly "a b" 1 [] 0 (initSt cfgOne)).2.2.2.2.2 "F" rfl (by decide)
      (by decide) (by decide) (by decide)
    exact h.trans (by decide)

/-! ## C3: terminal search outcomes abort the whole run -/

/-- Whether the wait decision is terminal does not depend on the clock
reading: only the length of a computable wait does. -/
theorem rateLimitWait_terminal_now (a : Bool) (remaining reset : Option String)
    (body : String) (t t' : Int)
    (h : rateLimitWait a remaining reset body t = RateDecision.terminal) :
    rateLimitWait a remaining reset body t' = RateDecision.terminal := by
  unfold rateLimitWait at h ⊢
  cases a with
  | false => rfl
  | true =>
    simp only [if_true] at h ⊢
    by_cases hb : rateBranch1 remaining reset
    · rw [if_pos hb] at h
      exact absurd h (by simp)
    · by_cases hm : containsStr body rateLimitMarker
      · rw [if_neg hb, if_pos hm] at h
        exact absurd h (by simp)
      · rw [if_neg hb, if_neg hm]

/-- C3: a terminal search response — a transport failure, a non-200
status other than 403/429, or a 403/429 whose wait cannot be determined
or with auto-retry off — makes the page-request loop return from `run`
with a single search call and a trace ending in an error report followed
by `finished`; the page loop, job loop and `run` itself then append
nothing: no further page requests, jobs or item downloads happen. -/
theorem c3_terminal_abort (w : World) (autoRetry : Bool) (kw : String)
    (page : Nat) (limitPerHour jobIdx : Nat) (target : Int)
    (pagesNeeded : Nat) (cfg : Config) :
    (∀ (fuel : Nat) (lastR : Option (Option (List Photo))) (s : St),
      w.stop s.pollCount = false →
      terminalSearchResp autoRetry (w.search s.searchIdx) = true →
      ∃ (d : List Event) (e : Event) (t : St),
        fetchPage w autoRetry kw page (fuel + 1) lastR s
          = (d ++ [e, Event.finished], t, FetchResult.returned) ∧
        e.isError = true ∧
        csearch (d ++ [e, Event.finished]) = 1) ∧
    (∀ (fuel pg pagesLeft jd : Nat) (s : St),
      w.stop s.pollCount = false →
      (fetchPage w autoRetry kw pg fuel none
        { s with pollCount := s.pollCount + 1 }).2.2 = FetchResult.returned →
      pageLoop w autoRetry limitPerHour jobIdx kw target pagesNeeded fuel
          pg (pagesLeft + 1) jd s
        = (Event.poll false :: (fetchPage w autoRetry kw pg fuel none
            { s with pollCount := s.pollCount + 1 }).1,
           (fetchPage w autoRetry kw pg fuel none
            { s with pollCount := s.pollCount + 1 }).2.1, jd,
           LoopResult.returned)) ∧
    (∀ (fuel idx : Nat) (job : Job) (rest : List Job) (s : St),
      w.stop s.pollCount = false → ¬ job.count ≤ 0 →
      pagesNeededOf job.count ≠ 0 →
      (pageLoop w autoRetry limitPerHour idx job.keyword job.count
          (pagesNeededOf job.count) fuel 1 (pagesNeededOf job.count) 0
          { s with pollCount := s.pollCount + 1 }).2.2.2
        = LoopResult.returned →
      jobLoop w autoRetry limitPerHour fuel (job :: rest) idx s
        = ([Event.poll false,
            Event.progJobStart (idx + 1) job.keyword job.count,
            Event.pageMax (pagesNeededOf job.count), Event.pageValue 0] ++
           (pageLoop w autoRetry limitPerHour idx job.keyword job.count
             (pagesNeededOf job.count) fuel 1 (pagesNeededOf job.count) 0
             { s with pollCount := s.pollCount + 1 }).1,
           (pageLoop w autoRetry limitPerHour idx job.keyword job.count
             (pagesNeededOf job.count) fuel 1 (pagesNeededOf job.count) 0
             { s with pollCount := s.pollCount + 1 }).2.1,
           LoopResult.returned)) ∧
    (∀ fuel : Nat,
      cfg.jobs.isEmpty = false →
      (!pyTruthyS (pyStrip cfg.accessKey) && !pyTruthyS cfg.envKey) = false →
      ¬ ((cfg.jobs.map Job.count).sum ≤ (0 : Int)) →
      (jobLoop w cfg.autoRetry cfg.limitPerHour fuel cfg.jobs 0
        (initSt cfg)).2.2 = LoopResult.returned →
      runWorker w cfg fuel
        = ([Event.mkdirOut,
            Event.progressMax (Int.toNat ((cfg.jobs.map Job.count).sum)),
            Event.progressValue 0,
            Event.progLimit (safeLimit cfg.limitPerHour)] ++
           (jobLoop w cfg.autoRetry cfg.limitPerHour fuel cfg.jobs 0
             (initSt cfg)).1,
           (jobLoop w cfg.autoRetry cfg.limitPerHour fuel cfg.jobs 0
             (initSt cfg)).2.1,
           LoopResult.returned)) := by
  refine ⟨?_, ?_, ?_, ?_⟩
  · intro fuel lastR s hstop hterm
    unfold fetchPage
    dsimp only
    rw [hstop]
    simp only [Bool.false_eq_true, if_false]
    rcases hr : w.search s.searchIdx with m | ⟨status, remaining, reset, body, results⟩
    · refine ⟨[Event.poll false, Event.progSearching (s.requestCount + 1),
        Event.searchCall kw page], Event.errSearch m, _, rfl, rfl, ?_⟩
      simp [csearch, Event.isSearch]
    · rw [hr] at hterm
      unfold terminalSearchResp at hterm
      dsimp only at hterm
      dsimp only
      by_cases h200 : status = 200
      · rw [if_pos h200] at hterm
        exact absurd hterm (by simp)
      · rw [if_neg h200] at hterm ⊢
        by_cases h43 : status = 403 ∨ status = 429
        · rw [if_pos h43] at hterm ⊢
          rcases hw : rateLimitWait autoRetry remaining reset body 0 with sec | _
          · rw [hw] at hterm
            exact absurd hterm (by simp)
          · cases autoRetry with
            | false =>
              simp only [Bool.false_eq_true, if_false]
              refine ⟨[Event.poll false, Event.progSearching (s.requestCount + 1),
                Event.searchCall kw page, Event.progRateDebug remaining reset],
                Event.errRate status, _, rfl, rfl, ?_⟩
              simp [csearch, Event.isSearch]
            | true =>
              simp only [if_true]
              by_cases hb : rateBranch1 remaining reset
              · have hw2 := rateLimitWait_terminal_now true remaining reset
                  body 0 (w.now s.timeCount) hw
                simp only [hb, if_true]
                rw [hw2]
                refine ⟨[Event.poll false, Event.progSearching (s.requestCount + 1),
                  Event.searchCall kw page, Event.progRateDebug remaining reset],
                  Event.errRate status, _, rfl, rfl, ?_⟩
                simp [csearch, Event.isSearch]
              · have hw2 := rateLimitWait_terminal_now true remaining reset
                  body 0 0 hw
                simp only [hb, Bool.false_eq_true, if_false]
                rw [hw2]
                refine ⟨[Event.poll false, Event.progSearching (s.requestCount + 1),
                  Event.searchCall kw page, Event.progRateDebug remaining reset],
                  Event.errRate status, _, rfl, rfl, ?_⟩
                simp [csearch, Event.isSearch]
        · rw [if_neg h43] at hterm ⊢
          refine ⟨[Event.poll false, Event.progSearching (s.requestCount + 1),
            Event.searchCall kw page], Event.errHttp status, _, rfl, rfl, ?_⟩
          simp [csearch, Event.isSearch]
  · intro fuel pg pagesLeft jd s hstop hf
    conv_lhs => unfold pageLoop
    dsimp only
    rw [hstop]
    simp only [Bool.false_eq_true, if_false]
    rw [hf]
  · intro fuel idx job rest s hstop hcount hpn hret
    conv_lhs => unfold jobLoop
    dsimp only
    rw [hstop]
    simp only [Bool.false_eq_true, if_false]
    rw [if_neg hcount, if_neg hpn]
    rw [hret]
  · intro fuel h1 h2 h3 h4
    unfold runWorker
    rw [h1]
    simp only [Bool.false_eq_true, if_false]
    rw [h2]
    simp only [Bool.false_eq_true, if_false]
    rw [if_neg h3]
    rw [h4]

/-- Witness for C3: with every search answering HTTP 500, one page
request aborts with an error report then `finished` after exactly one
search call, and the whole run ends right after the job loop with the
`returned` outcome. -/
theorem c3_terminal_abort_witness :
    (∃ (d : List Event) (e : Event) (t : St),
      fetchPage wHttp500 true "cats" 1 1 none (initSt cfgCats)
        = (d ++ [e, Event.finished], t, FetchResult.returned) ∧
      e.isError = true ∧ csearch (d ++ [e, Event.finished]) = 1) ∧
    runWorker wHttp500 cfgCats 1
      = ([Event.mkdirOut, Event.progressMax 30, Event.progressValue 0,
          Event.progLimit 45] ++
         (jobLoop wHttp500 true 50 1 cfgCats.jobs 0 (initSt cfgCats)).1,
         (jobLoop wHttp500 true 50 1 cfgCats.jobs 0 (initSt cfgCats)).2.1,
         LoopResult.returned) := by
  constructor
  · exact (c3_terminal_abort wHttp500 true "cats" 1 50 0 30 1 cfgCats).1 0 none
      (initSt cfgCats) rfl (by decide)
  · have h := (c3_terminal_abort wHttp500 true "cats" 1 50 0 30
      1 cfgCats).2.2.2 1 rfl rfl (by decide) (by decide)
    exact h.trans (by decide)

/-! ## C8: cancellation -/

/-- In the backoff wait every 1-second sleep is immediately preceded by
a fresh read of the stop flag (so a set flag is seen within one
second). -/
theorem chainSleep_waitLoop (w : World) :
    ∀ (n : Nat) (s : St) (e : Event), List.Chain'
      (fun a b => b = Event.sleep1 → a = Event.poll false)
      (e :: (waitLoop w n s).1)
  | 0, s, e => by
    simp [waitLoop]
  | n + 1, s, e => by
    unfold waitLoop
    dsimp only
    by_cases hb : w.stop s.pollCount = true
    · simp only [hb, if_true]
      exact List.chain'_cons.mpr ⟨(fun h => nomatch h),
        List.chain'_cons.mpr ⟨(fun h => nomatch h),
          List.chain'_cons.mpr ⟨(fun h => nomatch h),
            List.chain'_singleton _⟩⟩⟩
    · simp only [hb, if_false]
      exact List.chain'_cons.mpr ⟨(fun h => nomatch h),
        List.chain'_cons.mpr ⟨(fun _ => rfl),
          chainSleep_waitLoop w n _ Event.sleep1⟩⟩

/-- In the inter-page wait every 1-second sleep is immediately preceded
by a fresh read of the stop flag. -/
theorem chainSleep_intervalLoop (w : World) :
    ∀ (n : Nat) (s : St) (e : Event), List.Chain'
      (fun a b => b = Event.sleep1 → a = Event.poll false)
      (e :: (intervalLoop w n s).1)
  | 0, s, e => by
    simp [intervalLoop]
  | n + 1, s, e => by
    unfold intervalLoop
    dsimp only
    by_cases hb : w.stop s.pollCount = true
    · simp only [hb, if_true]
      exact List.chain'_cons.mpr ⟨(fun h => nomatch h),
        List.chain'_cons.mpr ⟨(fun h => nomatch h),
          List.chain'_singleton _⟩⟩
    · simp only [hb, if_false]
      exact List.chain'_cons.mpr ⟨(fun h => nomatch h),
        List.chain'_cons.mpr ⟨(fun _ => rfl),
          chainSleep_intervalLoop w n _ Event.sleep1⟩⟩

/-- Counterexample to C8: in a run whose stop flag becomes set while
the first page request is in flight, the flag is observed (a `poll true`
occurs) yet the run ends with neither the stopped message nor the
wait-aborted message nor the completion message — and with no error —
so the stopped state is not reported through progress messages: the run
just finishes silently. -/
theorem c8_cancellation_counterexample :
    Event.poll true ∈ (runWorker wStopAt2 cfgCats 5).1 ∧
    Event.progStopped ∉ (runWorker wStopAt2 cfgCats 5).1 ∧
    Event.progWaitAborted ∉ (runWorker wStopAt2 cfgCats 5).1 ∧
    Event.progAllDone ∉ (runWorker wStopAt2 cfgCats 5).1 ∧
    (∀ e ∈ (runWorker wStopAt2 cfgCats 5).1, e.isError = false) ∧
    (runWorker wStopAt2 cfgCats 5).1.getLast? = some Event.finished := by
  decide

/-- C8 (amended): every 1-second sleep of either blocking wait is
immediately preceded by a fresh flag read, so a set flag is observed
within one second of sleeping; and a flag observed set at any boundary —
wait iteration, item loop, page loop, request loop, job loop — stops
that construct at once, with no network call and no error: the waits
report the wait-aborted message, the item/page/job loops the stopped
message, while the request-loop and later boundaries break silently.
The stop is not always reported: observation at the request-loop
boundary emits only the flag read. -/
theorem c8_cancellation_amended (w : World) (autoRetry : Bool)
    (limitPerHour jobIdx fuel : Nat) (kw : String) (target : Int)
    (pagesNeeded page pagesLeft jd n : Nat) (photo : Photo)
    (rest : List Photo) (jobs : List Job) (job : Job) (idx : Nat)
    (lastR : Option (Option (List Photo))) (s : St) :
    (∀ e, List.Chain'
      (fun a b => b = Event.sleep1 → a = Event.poll false)
      (e :: (waitLoop w n s).1)) ∧
    (∀ e, List.Chain'
      (fun a b => b = Event.sleep1 → a = Event.poll false)
      (e :: (intervalLoop w n s).1)) ∧
    (w.stop s.pollCount = true →
      waitLoop w (n + 1) s
        = ([Event.poll true, Event.progWaitAborted, Event.finished],
           { s with pollCount := s.pollCount + 1 }, false) ∧
      intervalLoop w (n + 1) s
        = ([Event.poll true, Event.progWaitAborted],
           { s with pollCount := s.pollCount + 1 }) ∧
      photosLoop w jobIdx kw target (photo :: rest) jd s
        = ([Event.poll true, Event.progStopped],
           { s with pollCount := s.pollCount + 1 }, jd) ∧
      pageLoop w autoRetry limitPerHour jobIdx kw target pagesNeeded fuel
          page (pagesLeft + 1) jd s
        = ([Event.poll true, Event.progStopped],
           { s with pollCount := s.pollCount + 1 }, jd, LoopResult.done) ∧
      fetchPage w autoRetry kw page (fuel + 1) lastR s
        = ([Event.poll true], { s with pollCount := s.pollCount + 1 },
           FetchResult.stopBreak lastR) ∧
      jobLoop w autoRetry limitPerHour fuel (job :: jobs) idx s
        = ([Event.poll true, Event.progStopped],
           { s with pollCount := s.pollCount + 1 }, LoopResult.done)) := by
  refine ⟨chainSleep_waitLoop w n s, chainSleep_intervalLoop w n s, ?_⟩
  intro hb
  refine ⟨?_, ?_, ?_, ?_, ?_, ?_⟩
  · unfold waitLoop
    dsimp only
    simp only [hb, if_true]
  · unfold intervalLoop
    dsimp only
    simp only [hb, if_true]
  · unfold photosLoop
    dsimp only
    simp only [hb, if_true]
  · conv_lhs => unfold pageLoop
    dsimp only
    simp only [hb, if_true]
  · unfold fetchPage
    dsimp only
    simp only [hb, if_true]
  · unfold jobLoop
    dsimp only
    simp only [hb, if_true]

/-- Witness for C8 (amended): with the flag set at poll index 2, one
wait iteration aborts at once with the wait-aborted message and the
request loop breaks silently with just the flag read. -/
theorem c8_cancellation_amended_witness :
    wStopAt2.stop 2 = true ∧
    waitLoop wStopAt2 1 { initSt cfgCats with pollCount := 2 }
      = ([Event.poll true, Event.progWaitAborted, Event.finished],
         { initSt cfgCats with pollCount := 3 }, false) ∧
    fetchPage wStopAt2 true "cats" 1 1 none
        { initSt cfgCats with pollCount := 2 }
      = ([Event.poll true], { initSt cfgCats with pollCount := 3 },
         FetchResult.stopBreak none) := by
  have h := (c8_cancellation_amended wStopAt2 true 50 0 0 "cats" 30 1 1 0 0 0
    phBare [] [] { keyword := "cats", count := 30 } 0 none
    { initSt cfgCats with pollCount := 2 }).2.2 (by decide)
  exact ⟨by decide, h.1, h.2.2.2.2.1⟩

/-! ## C10: the finished signal -/

/-- Prepend a finished-free event to a trace that ends in its only
`finished`. -/
theorem finLast_cons (a : Event) (l : List Event) (ha : a ≠ Event.finished)
    (h : ∃ d, l = d ++ [Event.finished] ∧ ∀ e ∈ d, e ≠ Event.finished) :
    ∃ d, a :: l = d ++ [Event.finished] ∧ ∀ e ∈ d, e ≠ Event.finished := by
  rcases h with ⟨d, rfl, hd⟩
  exact ⟨a :: d, rfl, List.forall_mem_cons.mpr ⟨ha, hd⟩⟩

/-- Prepend a finished-free trace to a trace that ends in its only
`finished`. -/
theorem finLast_append (l₁ l₂ : List Event)
    (h₁ : ∀ e ∈ l₁, e ≠ Event.finished)
    (h₂ : ∃ d, l₂ = d ++ [Event.finished] ∧ ∀ e ∈ d, e ≠ Event.finished) :
    ∃ d, l₁ ++ l₂ = d ++ [Event.finished] ∧ ∀ e ∈ d, e ≠ Event.finished := by
  rcases h₂ with ⟨d, rfl, hd⟩
  exact ⟨l₁ ++ d, by rw [List.append_assoc],
    List.forall_mem_append.mpr ⟨h₁, hd⟩⟩

/-- A finished-free trace followed by one event and `finished`. -/
theorem finLast_pair (l : List Event) (a : Event)
    (hl : ∀ e ∈ l, e ≠ Event.finished) (ha : a ≠ Event.finished) :
    ∃ d, l ++ [a, Event.finished] = d ++ [Event.finished] ∧
      ∀ e ∈ d, e ≠ Event.finished :=
  ⟨l ++ [a], by simp,
    List.forall_mem_append.mpr ⟨hl, List.forall_mem_cons.mpr ⟨ha, by simp⟩⟩⟩

/-- A finished-free trace followed by two events and `finished`. -/
theorem finLast_triple (l : List Event) (a b : Event)
    (hl : ∀ e ∈ l, e ≠ Event.finished) (ha : a ≠ Event.finished)
    (hb : b ≠ Event.finished) :
    ∃ d, l ++ [a, b, Event.finished] = d ++ [Event.finished] ∧
      ∀ e ∈ d, e ≠ Event.finished :=
  ⟨l ++ [a, b], by simp,
    List.forall_mem_append.mpr ⟨hl, List.forall_mem_cons.mpr ⟨ha,
      List.forall_mem_cons.mpr ⟨hb, by simp⟩⟩⟩⟩

/-- From the ends-in-its-only-`finished` decomposition to the C10
conclusion: `finished` occurs exactly once and it is last. -/
theorem finLast_pack (l d : List Event) (hΔ : l = d ++ [Event.finished])
    (hd : ∀ e ∈ d, e ≠ Event.finished) :
    ∃ y, l = y ++ [Event.finished] ∧ Event.finished ∉ y ∧
      l.count Event.finished = 1 := by
  refine ⟨d, hΔ, fun hm => hd _ hm rfl, ?_⟩
  rw [hΔ, List.count_append,
    List.count_eq_zero.mpr (fun hm => hd _ hm rfl)]
  simp

/-- The item loop never emits `finished`. -/
theorem noFin_photosLoop (w : World) (jobIdx : Nat) (kw : String)
    (target : Int) (photos : List Photo) (jd : Nat) (s : St) :
    ∀ e ∈ (photosLoop w jobIdx kw target photos jd s).1,
      e ≠ Event.finished := by
  intro e he hEq
  have := alphabet_photosLoop w jobIdx kw target photos jd s e he
  rw [hEq] at this
  exact absurd this (by simp [Event.isPhotoSide])

/-- The inter-page wait never emits `finished` (its abort merely breaks
the wait). -/
theorem noFin_intervalLoop (w : World) : ∀ (n : Nat) (s : St),
    ∀ e ∈ (intervalLoop w n s).1, e ≠ Event.finished
  | 0, s => by simp [intervalLoop]
  | n + 1, s => by
    unfold intervalLoop
    dsimp only
    by_cases hb : w.stop s.pollCount
    · simp [hb]
    · simp only [hb, Bool.false_eq_true, if_false]
      exact List.forall_mem_cons.mpr ⟨(fun h => nomatch h),
        List.forall_mem_cons.mpr ⟨(fun h => nomatch h),
          noFin_intervalLoop w n _⟩⟩

/-- The backoff wait emits `finished` exactly when it is aborted, and
then as its last event. -/
theorem fin_waitLoop (w : World) : ∀ (n : Nat) (s : St),
    ((waitLoop w n s).2.2 = true →
      ∀ e ∈ (waitLoop w n s).1, e ≠ Event.finished) ∧
    ((waitLoop w n s).2.2 = false →
      ∃ d, (waitLoop w n s).1 = d ++ [Event.finished] ∧
        ∀ e ∈ d, e ≠ Event.finished)
  | 0, s => ⟨fun _ => by simp [waitLoop], fun h => by simp [waitLoop] at h⟩
  | n + 1, s => by
    unfold waitLoop
    dsimp only
    by_cases hb : w.stop s.pollCount
    · simp only [hb, if_true]
      refine ⟨fun h => by simp at h, fun _ => ?_⟩
      exact ⟨[Event.poll true, Event.progWaitAborted], rfl, by simp⟩
    · simp only [hb, Bool.false_eq_true, if_false]
      refine ⟨fun h => ?_, fun h => ?_⟩
      · exact List.forall_mem_cons.mpr ⟨(fun hc => nomatch hc),
          List.forall_mem_cons.mpr ⟨(fun hc => nomatch hc),
            (fin_waitLoop w n _).1 h⟩⟩
      · rcases (fin_waitLoop w n _).2 h with ⟨d, hd, hnd⟩
        refine ⟨Event.poll false :: Event.sleep1 :: d, by rw [hd]; rfl, ?_⟩
        exact List.forall_mem_cons.mpr ⟨(fun hc => nomatch hc),
          List.forall_mem_cons.mpr ⟨(fun hc => nomatch hc), hnd⟩⟩

/-- The page-request loop emits `finished` exactly when it returns from
`run`, and then as its last event. -/
theorem fin_fetchPage (w : World) (autoRetry : Bool) (kw : String)
    (page : Nat) :
    ∀ fuel lastR s,
      ((fetchPage w autoRetry kw page fuel lastR s).2.2
          = FetchResult.returned →
        ∃ d, (fetchPage w autoRetry kw page fuel lastR s).1
          = d ++ [Event.finished] ∧ ∀ e ∈ d, e ≠ Event.finished) ∧
      ((fetchPage w autoRetry kw page fuel lastR s).2.2
          ≠ FetchResult.returned →
        ∀ e ∈ (fetchPage w autoRetry kw page fuel lastR s).1,
          e ≠ Event.finished) := by
  intro fuel
  induction fuel with
  | zero =>
    intro lastR s
    exact ⟨(fun h => nomatch h), fun _ => by simp [fetchPage]⟩
  | succ n ih =>
    intro lastR s
    unfold fetchPage
    dsimp only
    split
    · exact ⟨(fun h => nomatch h), fun _ => by simp⟩
    · split
      · exact ⟨fun _ => finLast_pair _ _ (by simp) (by simp),
          fun h => absurd rfl h⟩
      · split
        · exact ⟨(fun h => nomatch h), fun _ => by simp⟩
        · split
          · split
            · split
              · split
                · dsimp only
                  split
                  · rename_i hc
                    refine ⟨fun h => ?_, fun h => ?_⟩
                    · exact finLast_append _ _
                        (List.forall_mem_append.mpr
                          ⟨List.forall_mem_append.mpr
                            ⟨List.forall_mem_append.mpr ⟨by simp, by simp⟩,
                             by simp⟩,
                           (fin_waitLoop w _ _).1 hc⟩)
                        (finLast_cons _ _ (by simp) ((ih _ _).1 h))
                    · exact List.forall_mem_append.mpr
                        ⟨List.forall_mem_append.mpr
                          ⟨List.forall_mem_append.mpr
                            ⟨List.forall_mem_append.mpr ⟨by simp, by simp⟩,
                             by simp⟩,
                           (fin_waitLoop w _ _).1 hc⟩,
                         List.forall_mem_cons.mpr ⟨(fun hx => nomatch hx),
                           (ih _ _).2 h⟩⟩
                  · rename_i hc
                    simp only [Bool.not_eq_true] at hc
                    exact ⟨fun _ => finLast_append _ _
                        (List.forall_mem_append.mpr
                          ⟨List.forall_mem_append.mpr ⟨by simp, by simp⟩,
                           by simp⟩)
                        ((fin_waitLoop w _ _).2 hc),
                      fun h => absurd rfl h⟩
                · dsimp only
                  split
                  · rename_i hc
                    refine ⟨fun h => ?_, fun h => ?_⟩
                    · exact finLast_append _ _
                        (List.forall_mem_append.mpr
                          ⟨List.forall_mem_append.mpr
                            ⟨List.forall_mem_append.mpr ⟨by simp, by simp⟩,
                             by simp⟩,
                           (fin_waitLoop w _ _).1 hc⟩)
                        (finLast_cons _ _ (by simp) ((ih _ _).1 h))
                    · exact List.forall_mem_append.mpr
                        ⟨List.forall_mem_append.mpr
                          ⟨List.forall_mem_append.mpr
                            ⟨List.forall_mem_append.mpr ⟨by simp, by simp⟩,
                             by simp⟩,
                           (fin_waitLoop w _ _).1 hc⟩,
                         List.forall_mem_cons.mpr ⟨(fun hx => nomatch hx),
                           (ih _ _).2 h⟩⟩
                  · rename_i hc
                    simp only [Bool.not_eq_true] at hc
                    exact ⟨fun _ => finLast_append _ _
                        (List.forall_mem_append.mpr
                          ⟨List.forall_mem_append.mpr ⟨by simp, by simp⟩,
                           by simp⟩)
                        ((fin_waitLoop w _ _).2 hc),
                      fun h => absurd rfl h⟩
              · exact ⟨fun _ => finLast_pair _ _ (by simp) (by simp),
                  fun h => absurd rfl h⟩
            · exact ⟨fun _ => finLast_pair _ _ (by simp) (by simp),
                fun h => absurd rfl h⟩
          · exact ⟨fun _ => finLast_pair _ _ (by simp) (by simp),
              fun h => absurd rfl h⟩

/-- The page aftermath emits `finished` exactly when it returns from
`run` (the unexpected-exception handler), and then as its last event. -/
theorem fin_pageRest (w : World) (limitPerHour jobIdx : Nat) (kw : String)
    (target : Int) (page pagesNeeded : Nat)
    (resOpt : Option (Option (List Photo))) (jd : Nat) (s : St) :
    ((pageRest w limitPerHour jobIdx kw target page pagesNeeded resOpt jd
        s).2.2.2 = PageDecision.returnedRun →
      ∃ d, (pageRest w limitPerHour jobIdx kw target page pagesNeeded resOpt
        jd s).1 = d ++ [Event.finished] ∧ ∀ e ∈ d, e ≠ Event.finished) ∧
    ((pageRest w limitPerHour jobIdx kw target page pagesNeeded resOpt jd
        s).2.2.2 ≠ PageDecision.returnedRun →
      ∀ e ∈ (pageRest w limitPerHour jobIdx kw target page pagesNeeded resOpt
        jd s).1, e ≠ Event.finished) := by
  unfold pageRest
  dsimp only
  split
  · exact ⟨(fun h => nomatch h), fun _ => by simp⟩
  · split
    · exact ⟨fun _ => ⟨[Event.poll false, Event.errUnexpected "NameError"],
        rfl, by simp⟩, fun h => absurd rfl h⟩
    · exact ⟨fun _ => ⟨[Event.poll false, Event.errUnexpected "json"],
        rfl, by simp⟩, fun h => absurd rfl h⟩
    · split
      · exact ⟨(fun h => nomatch h), fun _ => by simp⟩
      · split
        · exact ⟨(fun h => nomatch h), fun _ =>
            List.forall_mem_cons.mpr ⟨(fun hx => nomatch hx),
              List.forall_mem_append.mpr
                ⟨noFin_photosLoop w _ _ _ _ _ _, by simp⟩⟩⟩
        · split
          · split
            · exact ⟨(fun h => nomatch h), fun _ =>
                List.forall_mem_cons.mpr ⟨(fun hx => nomatch hx),
                  List.forall_mem_append.mpr
                    ⟨List.forall_mem_append.mpr
                      ⟨noFin_photosLoop w _ _ _ _ _ _,
                       List.forall_mem_cons.mpr ⟨(fun hx => nomatch hx),
                         noFin_intervalLoop w _ _⟩⟩,
                     by simp⟩⟩⟩
            · exact ⟨(fun h => nomatch h), fun _ =>
                List.forall_mem_cons.mpr ⟨(fun hx => nomatch hx),
                  List.forall_mem_append.mpr
                    ⟨List.forall_mem_append.mpr
                      ⟨noFin_photosLoop w _ _ _ _ _ _,
                       List.forall_mem_cons.mpr ⟨(fun hx => nomatch hx),
                         noFin_intervalLoop w _ _⟩⟩,
                     by simp⟩⟩⟩
          · exact ⟨(fun h => nomatch h), fun _ =>
              List.forall_mem_cons.mpr ⟨(fun hx => nomatch hx),
                List.forall_mem_append.mpr
                  ⟨noFin_photosLoop w _ _ _ _ _ _, by simp⟩⟩⟩

/-- The page loop emits `finished` exactly when it returns from `run`,
and then as its last event. -/
theorem fin_pageLoop (w : World) (autoRetry : Bool)
    (limitPerHour jobIdx : Nat) (kw : String) (target : Int)
    (pagesNeeded fuel : Nat) :
    ∀ (pagesLeft page jd : Nat) (s : St),
      ((pageLoop w autoRetry limitPerHour jobIdx kw target pagesNeeded fuel
          page pagesLeft jd s).2.2.2 = LoopResult.returned →
        ∃ d, (pageLoop w autoRetry limitPerHour jobIdx kw target pagesNeeded
          fuel page pagesLeft jd s).1 = d ++ [Event.finished] ∧
          ∀ e ∈ d, e ≠ Event.finished) ∧
      ((pageLoop w autoRetry limitPerHour jobIdx kw target pagesNeeded fuel
          page pagesLeft jd s).2.2.2 ≠ LoopResult.returned →
        ∀ e ∈ (pageLoop w autoRetry limitPerHour jobIdx kw target pagesNeeded
          fuel page pagesLeft jd s).1, e ≠ Event.finished)
  | 0, page, jd, s =>
    ⟨(fun h => nomatch h), fun _ => by simp [pageLoop]⟩
  | pagesLeft + 1, page, jd, s => by
    unfold pageLoop
    dsimp only
    split
    · exact ⟨(fun h => nomatch h), fun _ => by simp⟩
    · split
      · rename_i hfr
        exact ⟨fun _ => finLast_cons _ _ (by simp)
            ((fin_fetchPage w autoRetry kw page fuel none _).1 hfr),
          fun h => absurd rfl h⟩
      · rename_i hfr
        refine ⟨(fun h => nomatch h), fun _ => ?_⟩
        exact List.forall_mem_cons.mpr ⟨(fun hx => nomatch hx),
          (fin_fetchPage w autoRetry kw page fuel none _).2
            (fun hc => nomatch (hfr.symm.trans hc))⟩
      · rename_i hfr
        split
        · rename_i hd
          refine ⟨(fun h => nomatch h), fun _ => ?_⟩
          exact List.forall_mem_cons.mpr ⟨(fun hx => nomatch hx),
            List.forall_mem_append.mpr
              ⟨(fin_fetchPage w autoRetry kw page fuel none _).2
                (fun hc => nomatch (hfr.symm.trans hc)),
               (fin_pageRest w limitPerHour jobIdx kw target page pagesNeeded
                 _ jd _).2 (fun hc => nomatch (hd.symm.trans hc))⟩⟩
        · rename_i hd
          refine ⟨fun _ => ?_, fun h => absurd rfl h⟩
          exact finLast_cons _ _ (by simp)
            (finLast_append _ _
              ((fin_fetchPage w autoRetry kw page fuel none _).2
                (fun hc => nomatch (hfr.symm.trans hc)))
              ((fin_pageRest w limitPerHour jobIdx kw target page pagesNeeded
                _ jd _).1 hd))
        · rename_i hd
          refine ⟨fun h => ?_, fun h => ?_⟩
          · exact finLast_cons _ _ (by simp)
              (finLast_append _ _
                (List.forall_mem_append.mpr
                  ⟨(fin_fetchPage w autoRetry kw page fuel none _).2
                    (fun hc => nomatch (hfr.symm.trans hc)),
                   (fin_pageRest w limitPerHour jobIdx kw target page
                     pagesNeeded _ jd _).2
                    (fun hc => nomatch (hd.symm.trans hc))⟩)
                ((fin_pageLoop w autoRetry limitPerHour jobIdx kw target
                  pagesNeeded fuel pagesLeft _ _ _).1 h))
          · exact List.forall_mem_cons.mpr ⟨(fun hx => nomatch hx),
              List.forall_mem_append.mpr
                ⟨List.forall_mem_append.mpr
                  ⟨(fin_fetchPage w autoRetry kw page fuel none _).2
                    (fun hc => nomatch (hfr.symm.trans hc)),
                   (fin_pageRest w limitPerHour jobIdx kw target page
                     pagesNeeded _ jd _).2
                    (fun hc => nomatch (hd.symm.trans hc))⟩,
                 (fin_pageLoop w autoRetry limitPerHour jobIdx kw target
                   pagesNeeded fuel pagesLeft _ _ _).2 h⟩⟩
      · rename_i hfr
        split
        · rename_i hd
          refine ⟨(fun h => nomatch h), fun _ => ?_⟩
          exact List.forall_mem_cons.mpr ⟨(fun hx => nomatch hx),
            List.forall_mem_append.mpr
              ⟨(fin_fetchPage w autoRetry kw page fuel none _).2
                (fun hc => nomatch (hfr.symm.trans hc)),
               (fin_pageRest w limitPerHour jobIdx kw target page pagesNeeded
                 _ jd _).2 (fun hc => nomatch (hd.symm.trans hc))⟩⟩
        · rename_i hd
          refine ⟨fun _ => ?_, fun h => absurd rfl h⟩
          exact finLast_cons _ _ (by simp)
            (finLast_append _ _
              ((fin_fetchPage w autoRetry kw page fuel none _).2
                (fun hc => nomatch (hfr.symm.trans hc)))
              ((fin_pageRest w limitPerHour jobIdx kw target page pagesNeeded
                _ jd _).1 hd))
        · rename_i hd
          refine ⟨fun h => ?_, fun h => ?_⟩
          · exact finLast_cons _ _ (by simp)
              (finLast_append _ _
                (List.forall_mem_append.mpr
                  ⟨(fin_fetchPage w autoRetry kw page fuel none _).2
                    (fun hc => nomatch (hfr.symm.trans hc)),
                   (fin_pageRest w limitPerHour jobIdx kw target page
                     pagesNeeded _ jd _).2
                    (fun hc => nomatch (hd.symm.trans hc))⟩)
                ((fin_pageLoop w autoRetry limitPerHour jobIdx kw target
                  pagesNeeded fuel pagesLeft _ _ _).1 h))
          · exact List.forall_mem_cons.mpr ⟨(fun hx => nomatch hx),
              List.forall_mem_append.mpr
                ⟨List.forall_mem_append.mpr
                  ⟨(fin_fetchPage w autoRetry kw page fuel none _).2
                    (fun hc => nomatch (hfr.symm.trans hc)),
                   (fin_pageRest w limitPerHour jobIdx kw target page
                     pagesNeeded _ jd _).2
                    (fun hc => nomatch (hd.symm.trans hc))⟩,
                 (fin_pageLoop w autoRetry limitPerHour jobIdx kw target
                   pagesNeeded fuel pagesLeft _ _ _).2 h⟩⟩

/-- The job loop emits `finished` exactly when it returns from `run`,
and then as its last event. -/
theorem fin_jobLoop (w : World) (autoRetry : Bool) (limitPerHour fuel : Nat) :
    ∀ (jobs : List Job) (idx : Nat) (s : St),
      ((jobLoop w autoRetry limitPerHour fuel jobs idx s).2.2
          = LoopResult.returned →
        ∃ d, (jobLoop w autoRetry limitPerHour fuel jobs idx s).1
          = d ++ [Event.finished] ∧ ∀ e ∈ d, e ≠ Event.finished) ∧
      ((jobLoop w autoRetry limitPerHour fuel jobs idx s).2.2
          ≠ LoopResult.returned →
        ∀ e ∈ (jobLoop w autoRetry limitPerHour fuel jobs idx s).1,
          e ≠ Event.finished)
  | [], idx, s => ⟨(fun h => nomatch h), fun _ => by simp [jobLoop]⟩
  | job :: rest, idx, s => by
    unfold jobLoop
    dsimp only
    split
    · exact ⟨(fun h => nomatch h), fun _ => by simp⟩
    · split
      · refine ⟨fun h => ?_, fun h => ?_⟩
        · exact finLast_cons _ _ (by simp)
            ((fin_jobLoop w autoRetry limitPerHour fuel rest _ _).1 h)
        · exact List.forall_mem_cons.mpr ⟨(fun hx => nomatch hx),
            (fin_jobLoop w autoRetry limitPerHour fuel rest _ _).2 h⟩
      · split
        · refine ⟨fun h => ?_, fun h => ?_⟩
          · exact finLast_cons _ _ (by simp) (finLast_cons _ _ (by simp)
              ((fin_jobLoop w autoRetry limitPerHour fuel rest _ _).1 h))
          · exact List.forall_mem_cons.mpr ⟨(fun hx => nomatch hx),
              List.forall_mem_cons.mpr ⟨(fun hx => nomatch hx),
                (fin_jobLoop w autoRetry limitPerHour fuel rest _ _).2 h⟩⟩
        · split
          · rename_i hr
            exact ⟨fun _ => finLast_append _ _ (by simp)
                ((fin_pageLoop w autoRetry limitPerHour idx job.keyword
                  job.count (pagesNeededOf job.count) fuel
                  (pagesNeededOf job.count) 1 0 _).1 hr),
              fun h => absurd rfl h⟩
          · rename_i hr
            refine ⟨(fun h => nomatch h), fun _ => ?_⟩
            exact List.forall_mem_append.mpr ⟨by simp,
              (fin_pageLoop w autoRetry limitPerHour idx job.keyword
                job.count (pagesNeededOf job.count) fuel
                (pagesNeededOf job.count) 1 0 _).2
                (fun hc => nomatch (hr.symm.trans hc))⟩
          · rename_i hr
            split
            · refine ⟨(fun h => nomatch h), fun _ => ?_⟩
              exact List.forall_mem_append.mpr
                ⟨List.forall_mem_append.mpr ⟨by simp,
                  (fin_pageLoop w autoRetry limitPerHour idx job.keyword
                    job.count (pagesNeededOf job.count) fuel
                    (pagesNeededOf job.count) 1 0 _).2
                    (fun hc => nomatch (hr.symm.trans hc))⟩,
                 by simp⟩
            · refine ⟨fun h => ?_, fun h => ?_⟩
              · exact finLast_append _ _
                  (List.forall_mem_append.mpr ⟨by simp,
                    (fin_pageLoop w autoRetry limitPerHour idx job.keyword
                      job.count (pagesNeededOf job.count) fuel
                      (pagesNeededOf job.count) 1 0 _).2
                      (fun hc => nomatch (hr.symm.trans hc))⟩)
                  (finLast_cons _ _ (by simp)
                    ((fin_jobLoop w autoRetry limitPerHour fuel rest _ _).1 h))
              · exact List.forall_mem_append.mpr
                  ⟨List.forall_mem_append.mpr ⟨by simp,
                    (fin_pageLoop w autoRetry limitPerHour idx job.keyword
                      job.count (pagesNeededOf job.count) fuel
                      (pagesNeededOf job.count) 1 0 _).2
                      (fun hc => nomatch (hr.symm.trans hc))⟩,
                   List.forall_mem_cons.mpr ⟨(fun hx => nomatch hx),
                     (fin_jobLoop w autoRetry limitPerHour fuel rest _ _).2
                       h⟩⟩

/-- C10: on every terminating execution of `run` — normal completion,
configuration-error rejection, terminal transport/HTTP/rate-limit error,
cancellation observed during a wait, or the unexpected-exception handler
— the `finished` signal is emitted exactly once, as the very last event,
so in particular every error signal of the run precedes it. -/
theorem c10_finished_once (w : World) (cfg : Config) (fuel : Nat)
    (h : (runWorker w cfg fuel).2.2 ≠ LoopResult.fuelOut) :
    ∃ d, (runWorker w cfg fuel).1 = d ++ [Event.finished] ∧
      Event.finished ∉ d ∧
      (runWorker w cfg fuel).1.count Event.finished = 1 := by
  unfold runWorker at h ⊢
  dsimp only at h ⊢
  by_cases h1 : cfg.jobs.isEmpty = true
  · simp only [h1, if_true] at h ⊢
    exact finLast_pack _ [Event.errNoJobs] rfl (by simp)
  · simp only [h1, Bool.false_eq_true, if_false] at h ⊢
    by_cases h2 :
        (!pyTruthyS (pyStrip cfg.accessKey) && !pyTruthyS cfg.envKey) = true
    · simp only [h2, if_true] at h ⊢
      exact finLast_pack _ [Event.errNoKey] rfl (by simp)
    · simp only [h2, Bool.false_eq_true, if_false] at h ⊢
      by_cases h3 : (cfg.jobs.map Job.count).sum ≤ (0 : Int)
      · rw [if_pos h3] at h ⊢
        exact finLast_pack _ [Event.mkdirOut, Event.errZeroTotal] rfl
          (by simp)
      · rw [if_neg h3] at h ⊢
        cases hjl : (jobLoop w cfg.autoRetry cfg.limitPerHour fuel cfg.jobs 0
            (initSt cfg)).2.2 with
        | done =>
          dsimp only at h ⊢
          by_cases hb : w.stop ((jobLoop w cfg.autoRetry cfg.limitPerHour
              fuel cfg.jobs 0 (initSt cfg)).2.1).pollCount = true
          · simp only [hb, if_true]
            rcases finLast_pair
                ([Event.mkdirOut,
                  Event.progressMax ((cfg.jobs.map Job.count).sum).toNat,
                  Event.progressValue 0,
                  Event.progLimit (safeLimit cfg.limitPerHour)] ++
                 (jobLoop w cfg.autoRetry cfg.limitPerHour fuel cfg.jobs 0
                   (initSt cfg)).1)
                (Event.poll true)
                (List.forall_mem_append.mpr ⟨by simp,
                  (fin_jobLoop w cfg.autoRetry cfg.limitPerHour fuel cfg.jobs
                    0 _).2 (fun hc => nomatch (hjl.symm.trans hc))⟩)
                (by simp) with ⟨d, hd, hnd⟩
            exact finLast_pack _ _ hd hnd
          · simp only [hb, Bool.false_eq_true, if_false]
            rcases finLast_triple
                ([Event.mkdirOut,
                  Event.progressMax ((cfg.jobs.map Job.count).sum).toNat,
                  Event.progressValue 0,
                  Event.progLimit (safeLimit cfg.limitPerHour)] ++
                 (jobLoop w cfg.autoRetry cfg.limitPerHour fuel cfg.jobs 0
                   (initSt cfg)).1)
                (Event.poll false) Event.progAllDone
                (List.forall_mem_append.mpr ⟨by simp,
                  (fin_jobLoop w cfg.autoRetry cfg.limitPerHour fuel cfg.jobs
                    0 _).2 (fun hc => nomatch (hjl.symm.trans hc))⟩)
                (by simp) (by simp) with ⟨d, hd, hnd⟩
            exact finLast_pack _ _ hd hnd
        | returned =>
          dsimp only at h ⊢
          rcases finLast_append
              [Event.mkdirOut,
               Event.progressMax ((cfg.jobs.map Job.count).sum).toNat,
               Event.progressValue 0,
               Event.progLimit (safeLimit cfg.limitPerHour)]
              (jobLoop w cfg.autoRetry cfg.limitPerHour fuel cfg.jobs 0
                (initSt cfg)).1 (by simp)
              ((fin_jobLoop w cfg.autoRetry cfg.limitPerHour fuel cfg.jobs 0
                _).1 hjl) with ⟨d, hd, hnd⟩
          exact finLast_pack _ _ hd hnd
        | fuelOut =>
          rw [hjl] at h
          dsimp only at h
          exact absurd rfl h

/-- Witness for C10: the empty-results run terminates normally and its
trace ends in its only `finished`. -/
theorem c10_finished_once_witness :
    (runWorker wEmptyResults cfgCats 3).2.2 ≠ LoopResult.fuelOut ∧
    ∃ d, (runWorker wEmptyResults cfgCats 3).1 = d ++ [Event.finished] ∧
      Event.finished ∉ d ∧
      (runWorker wEmptyResults cfgCats 3).1.count Event.finished = 1 :=
  ⟨by decide, c10_finished_once wEmptyResults cfgCats 3 (by decide)⟩

/-! ## C1: the download counters -/

/-- Incrementing one in-range entry of a list of counters increments its
sum. -/
theorem sum_set_getD_succ : ∀ (l : List Nat) (i : Nat), i < l.length →
    (l.set i (l.getD i 0 + 1)).sum = l.sum + 1
  | a :: t, 0, _ => by
    show ((a + 1) :: t).sum = (a :: t).sum + 1
    simp only [List.sum_cons]
    omega
  | a :: t, i + 1, h => by
    show (a :: t.set i (t.getD i 0 + 1)).sum = (a :: t).sum + 1
    have ih := sum_set_getD_succ t i (Nat.lt_of_succ_lt_succ h)
    simp only [List.sum_cons, ih]
    omega

/-- Reading back the entry just written. -/
theorem getD_set_self : ∀ (l : List Nat) (i v : Nat), i < l.length →
    (l.set i v).getD i 0 = v
  | _ :: _, 0, _, _ => rfl
  | _ :: t, i + 1, v, h => getD_set_self t i v (Nat.lt_of_succ_lt_succ h)

/-- Writing one entry leaves every other entry unchanged. -/
theorem getD_set_ne : ∀ (l : List Nat) (i j v : Nat), i ≠ j →
    (l.set i v).getD j 0 = l.getD j 0
  | [], _, _, _, _ => rfl
  | _ :: _, 0, 0, _, h => absurd rfl h
  | _ :: _, 0, _ + 1, _, _ => rfl
  | _ :: _, _ + 1, 0, _, _ => rfl
  | _ :: t, i + 1, j + 1, v, h =>
    getD_set_ne t i j v (fun hc => h (by rw [hc]))

/-- The URL resolver touches neither download counter and reports no
progress value. -/
theorem st_resolveUrl (w : World) (photo : Photo) (s : St) :
    (resolveUrl w photo s).2.1.totalDownloaded = s.totalDownloaded ∧
    (resolveUrl w photo s).2.1.perJob = s.perJob ∧
    ∀ n, Event.progressValue n ∉ (resolveUrl w photo s).1 := by
  unfold resolveUrl
  rcases photo with ⟨pid, dl, uf, ur⟩
  cases dl with
  | none => exact ⟨rfl, rfl, by simp⟩
  | some loc =>
    by_cases hl : pyTruthyS loc
    · simp only [hl, if_true]
      cases w.track s.trackCount with
      | exn m => exact ⟨rfl, rfl, by simp⟩
      | resp status jsonUrl =>
        dsimp only
        by_cases hs : status = 200
        · rw [if_pos hs]
          cases jsonUrl with
          | none => exact ⟨rfl, rfl, by simp⟩
          | some v => exact ⟨rfl, rfl, by simp⟩
        · rw [if_neg hs]
          exact ⟨rfl, rfl, by simp⟩
    · simp [hl]

/-- The backoff wait touches neither download counter. -/
theorem st_waitLoop (w : World) : ∀ (n : Nat) (s : St),
    (waitLoop w n s).2.1.totalDownloaded = s.totalDownloaded ∧
    (waitLoop w n s).2.1.perJob = s.perJob
  | 0, s => ⟨rfl, rfl⟩
  | n + 1, s => by
    unfold waitLoop
    dsimp only
    by_cases hb : w.stop s.pollCount
    · simp [hb]
    · simp only [hb, Bool.false_eq_true, if_false]
      exact ⟨(st_waitLoop w n _).1, (st_waitLoop w n _).2⟩

/-- The inter-page wait touches neither download counter. -/
theorem st_intervalLoop (w : World) : ∀ (n : Nat) (s : St),
    (intervalLoop w n s).2.totalDownloaded = s.totalDownloaded ∧
    (intervalLoop w n s).2.perJob = s.perJob
  | 0, s => ⟨rfl, rfl⟩
  | n + 1, s => by
    unfold intervalLoop
    dsimp only
    by_cases hb : w.stop s.pollCount
    · simp [hb]
    · simp only [hb, Bool.false_eq_true, if_false]
      exact ⟨(st_intervalLoop w n _).1, (st_intervalLoop w n _).2⟩

/-- The page-request loop touches neither download counter. -/
theorem st_fetchPage (w : World) (autoRetry : Bool) (kw : String)
    (page : Nat) :
    ∀ fuel lastR s,
      (fetchPage w autoRetry kw page fuel lastR s).2.1.totalDownloaded
        = s.totalDownloaded ∧
      (fetchPage w autoRetry kw page fuel lastR s).2.1.perJob
        = s.perJob := by
  intro fuel
  induction fuel with
  | zero => exact fun lastR s => ⟨rfl, rfl⟩
  | succ n ih =>
    intro lastR s
    unfold fetchPage
    dsimp only
    split
    · exact ⟨rfl, rfl⟩
    · split
      · exact ⟨rfl, rfl⟩
      · split
        · exact ⟨rfl, rfl⟩
        · split
          · split
            · split
              · split
                · dsimp only
                  split
                  · exact ⟨(ih _ _).1.trans (st_waitLoop w _ _).1,
                      (ih _ _).2.trans (st_waitLoop w _ _).2⟩
                  · exact ⟨(st_waitLoop w _ _).1, (st_waitLoop w _ _).2⟩
                · dsimp only
                  split
                  · exact ⟨(ih _ _).1.trans (st_waitLoop w _ _).1,
                      (ih _ _).2.trans (st_waitLoop w _ _).2⟩
                  · exact ⟨(st_waitLoop w _ _).1, (st_waitLoop w _ _).2⟩
              · constructor
                · split <;> rfl
                · split <;> rfl
            · exact ⟨rfl, rfl⟩
          · exact ⟨rfl, rfl⟩

/-- Lines 306-327 and 315-317: a successful image fetch advances the
run-wide and the current job's counters together; a failed one advances
neither; other jobs' counters are never touched; and every progress
value reported is bounded by the resulting total. -/
theorem cnt_downloadImage (w : World) (jobIdx : Nat) (pid url name : String)
    (s : St) (hlen : jobIdx < s.perJob.length) :
    (downloadImage w jobIdx pid url name s).2.1.perJob.length
      = s.perJob.length ∧
    (s.totalDownloaded = s.perJob.sum →
      (downloadImage w jobIdx pid url name s).2.1.totalDownloaded
        = (downloadImage w jobIdx pid url name s).2.1.perJob.sum) ∧
    s.totalDownloaded
      ≤ (downloadImage w jobIdx pid url name s).2.1.totalDownloaded ∧
    ((downloadImage w jobIdx pid url name s).2.2 = true →
      (downloadImage w jobIdx pid url name s).2.1.perJob.getD jobIdx 0
        = s.perJob.getD jobIdx 0 + 1 ∧
      (downloadImage w jobIdx pid url name s).2.1.totalDownloaded
        = s.totalDownloaded + 1) ∧
    ((downloadImage w jobIdx pid url name s).2.2 = false →
      (downloadImage w jobIdx pid url name s).2.1.perJob = s.perJob ∧
      (downloadImage w jobIdx pid url name s).2.1.totalDownloaded
        = s.totalDownloaded) ∧
    (∀ k, k ≠ jobIdx →
      (downloadImage w jobIdx pid url name s).2.1.perJob.getD k 0
        = s.perJob.getD k 0) ∧
    (∀ n, Event.progressValue n ∈ (downloadImage w jobIdx pid url name s).1 →
      n ≤ (downloadImage w jobIdx pid url name s).2.1.totalDownloaded) := by
  unfold downloadImage
  cases w.img s.imgCount with
  | exn m =>
    exact ⟨rfl, fun h => h, Nat.le_refl _, (fun h => nomatch h),
      fun _ => ⟨rfl, rfl⟩, fun k _ => rfl, by simp⟩
  | resp status =>
    dsimp only
    by_cases hs : status = 200
    · rw [if_pos hs]
      refine ⟨by simp, ?_, Nat.le_succ _, ?_, (fun h => nomatch h), ?_, ?_⟩
      · intro h
        rw [sum_set_getD_succ _ _ hlen, h]
      · exact fun _ => ⟨getD_set_self _ _ _ hlen, rfl⟩
      · exact fun k hk => getD_set_ne _ _ _ _ (fun hc => hk hc.symm)
      · intro n hn
        dsimp only
        simp at hn
        omega
    · rw [if_neg hs]
      exact ⟨rfl, fun h => h, Nat.le_refl _, (fun h => nomatch h),
        fun _ => ⟨rfl, rfl⟩, fun k _ => rfl, by simp⟩

/-- Counter invariants through the item loop: the totals always equal
the sum of the per-job counters, the current job's counter tracks
`job_downloaded` (so it never exceeds the target), other jobs' counters
are untouched, and every progress value reported is bounded by the
resulting total. -/
theorem cnt_photosLoop (w : World) (jobIdx : Nat) (kw : String)
    (target : Int) :
    ∀ (photos : List Photo) (jd : Nat) (s : St),
      jobIdx < s.perJob.length →
      s.totalDownloaded = s.perJob.sum →
      s.perJob.getD jobIdx 0 = jd →
      (photosLoop w jobIdx kw target photos jd s).2.1.perJob.length
        = s.perJob.length ∧
      (photosLoop w jobIdx kw target photos jd s).2.1.totalDownloaded
        = (photosLoop w jobIdx kw target photos jd s).2.1.perJob.sum ∧
      s.totalDownloaded
        ≤ (photosLoop w jobIdx kw target photos jd s).2.1.totalDownloaded ∧
      (photosLoop w jobIdx kw target photos jd s).2.1.perJob.getD jobIdx 0
        = (photosLoop w jobIdx kw target photos jd s).2.2 ∧
      ((photosLoop w jobIdx kw target photos jd s).2.2 = jd ∨
        ((photosLoop w jobIdx kw target photos jd s).2.2 : Int) ≤ target) ∧
      (∀ k, k ≠ jobIdx →
        (photosLoop w jobIdx kw target photos jd s).2.1.perJob.getD k 0
          = s.perJob.getD k 0) ∧
      (∀ n, Event.progressValue n
          ∈ (photosLoop w jobIdx kw target photos jd s).1 →
        n ≤ (photosLoop w jobIdx kw target photos jd s).2.1.totalDownloaded)
      := by
  intro photos
  induction photos with
  | nil =>
    intro jd s h1 h2 h3
    exact ⟨rfl, h2, Nat.le_refl _, h3, Or.inl rfl, fun k _ => rfl,
      by simp [photosLoop]⟩
  | cons photo rest ih =>
    intro jd s h1 h2 h3
    unfold photosLoop
    dsimp only
    by_cases hb : w.stop s.pollCount
    · rw [if_pos hb]
      exact ⟨rfl, h2, Nat.le_refl _, h3, Or.inl rfl, fun k _ => rfl, by simp⟩
    · rw [if_neg hb]
      by_cases ht : target ≤ (jd : Int)
      · rw [if_pos ht]
        exact ⟨rfl, h2, Nat.le_refl _, h3, Or.inl rfl, fun k _ => rfl,
          by simp⟩
      · rw [if_neg ht]
        obtain ⟨hrt, hrp, hrpv⟩ :=
          st_resolveUrl w photo { s with pollCount := s.pollCount + 1 }
        cases hurl : (if pyTruthy (resolveUrl w photo
              { s with pollCount := s.pollCount + 1 }).2.2
            then (resolveUrl w photo
              { s with pollCount := s.pollCount + 1 }).2.2
            else pyOrOpt photo.urlFull photo.urlRegular) with
        | none =>
          dsimp only
          obtain ⟨H1, H2, H3, H4, H5, H6, H7⟩ := ih jd
            (resolveUrl w photo { s with pollCount := s.pollCount + 1 }).2.1
            (by rw [hrp]; exact h1) (by rw [hrt, hrp]; exact h2)
            (by rw [hrp]; exact h3)
          refine ⟨?_, H2, ?_, H4, H5, ?_, ?_⟩
          · rw [H1, hrp]
          · exact le_of_eq_of_le hrt.symm H3
          · intro k hk
            rw [H6 k hk, hrp]
          · intro n hn
            rcases List.mem_cons.mp hn with hc | hc
            · exact nomatch hc
            rcases List.mem_append.mp hc with hc2 | hc2
            · exact absurd hc2 (hrpv n)
            rcases List.mem_cons.mp hc2 with hc3 | hc3
            · exact nomatch hc3
            · exact H7 n hc3
        | some u =>
          dsimp only
          by_cases hu : pyTruthyS u
          · rw [if_pos hu]
            obtain ⟨D1, D2, D3, D4, D5, D6, D7⟩ :=
              cnt_downloadImage w jobIdx photo.id u (fileName kw photo.id)
                (resolveUrl w photo
                  { s with pollCount := s.pollCount + 1 }).2.1
                (by rw [hrp]; exact h1)
            by_cases hok : (downloadImage w jobIdx photo.id u
                (fileName kw photo.id) (resolveUrl w photo
                  { s with pollCount := s.pollCount + 1 }).2.1).2.2 = true
            · rw [if_pos hok]
              obtain ⟨D4a, D4b⟩ := D4 hok
              obtain ⟨H1, H2, H3, H4, H5, H6, H7⟩ := ih (jd + 1)
                (downloadImage w jobIdx photo.id u (fileName kw photo.id)
                  (resolveUrl w photo
                    { s with pollCount := s.pollCount + 1 }).2.1).2.1
                (by rw [D1, hrp]; exact h1)
                (D2 (by rw [hrt, hrp]; exact h2))
                (by rw [D4a, hrp, h3])
              refine ⟨?_, H2, ?_, H4, ?_, ?_, ?_⟩
              · rw [H1, D1, hrp]
              · exact le_trans (le_of_eq hrt.symm) (le_trans D3 H3)
              · rcases H5 with h5 | h5
                · right
                  rw [h5]
                  omega
                · right
                  exact h5
              · intro k hk
                rw [H6 k hk, D6 k hk, hrp]
              · intro n hn
                rcases List.mem_cons.mp hn with hc | hc
                · exact nomatch hc
                rcases List.mem_append.mp hc with hc2 | hc2
                · rcases List.mem_append.mp hc2 with hc3 | hc3
                  · exact absurd hc3 (hrpv n)
                  · exact le_trans (D7 n hc3) H3
                · exact H7 n hc2
            · rw [if_neg hok]
              simp only [Bool.not_eq_true] at hok
              obtain ⟨D5a, D5b⟩ := D5 hok
              obtain ⟨H1, H2, H3, H4, H5, H6, H7⟩ := ih jd
                (downloadImage w jobIdx photo.id u (fileName kw photo.id)
                  (resolveUrl w photo
                    { s with pollCount := s.pollCount + 1 }).2.1).2.1
                (by rw [D1, hrp]; exact h1)
                (D2 (by rw [hrt, hrp]; exact h2))
                (by rw [D5a, hrp]; exact h3)
              refine ⟨?_, H2, ?_, H4, H5, ?_, ?_⟩
              · rw [H1, D1, hrp]
              · exact le_trans (le_of_eq hrt.symm) (le_trans D3 H3)
              · intro k hk
                rw [H6 k hk, D6 k hk, hrp]
              · intro n hn
                rcases List.mem_cons.mp hn with hc | hc
                · exact nomatch hc
                rcases List.mem_append.mp hc with hc2 | hc2
                · rcases List.mem_append.mp hc2 with hc3 | hc3
                  · exact absurd hc3 (hrpv n)
                  · exact le_trans (D7 n hc3) H3
                · exact H7 n hc2
          · rw [if_neg hu]
            obtain ⟨H1, H2, H3, H4, H5, H6, H7⟩ := ih jd
              (resolveUrl w photo { s with pollCount := s.pollCount + 1 }).2.1
              (by rw [hrp]; exact h1) (by rw [hrt, hrp]; exact h2)
              (by rw [hrp]; exact h3)
            refine ⟨?_, H2, ?_, H4, H5, ?_, ?_⟩
            · rw [H1, hrp]
            · exact le_of_eq_of_le hrt.symm H3
            · intro k hk
              rw [H6 k hk, hrp]
            · intro n hn
              rcases List.mem_cons.mp hn with hc | hc
              · exact nomatch hc
              rcases List.mem_append.mp hc with hc2 | hc2
              · exact absurd hc2 (hrpv n)
              rcases List.mem_cons.mp hc2 with hc3 | hc3
              · exact nomatch hc3
              · exact H7 n hc3

/-- Counter invariants through one page's aftermath (item loop, progress
update, job-complete check and inter-page wait). -/
theorem cnt_pageRest (w : World) (limitPerHour jobIdx : Nat) (kw : String)
    (target : Int) (page pagesNeeded : Nat)
    (resOpt : Option (Option (List Photo))) (jd : Nat) (s : St)
    (h1 : jobIdx < s.perJob.length)
    (h2 : s.totalDownloaded = s.perJob.sum)
    (h3 : s.perJob.getD jobIdx 0 = jd) :
    (pageRest w limitPerHour jobIdx kw target page pagesNeeded resOpt jd
        s).2.1.perJob.length = s.perJob.length ∧
    (pageRest w limitPerHour jobIdx kw target page pagesNeeded resOpt jd
        s).2.1.totalDownloaded
      = (pageRest w limitPerHour jobIdx kw target page pagesNeeded resOpt jd
        s).2.1.perJob.sum ∧
    s.totalDownloaded ≤ (pageRest w limitPerHour jobIdx kw target page
      pagesNeeded resOpt jd s).2.1.totalDownloaded ∧
    (pageRest w limitPerHour jobIdx kw target page pagesNeeded resOpt jd
        s).2.1.perJob.getD jobIdx 0
      = (pageRest w limitPerHour jobIdx kw target page pagesNeeded resOpt jd
        s).2.2.1 ∧
    ((pageRest w limitPerHour jobIdx kw target page pagesNeeded resOpt jd
        s).2.2.1 = jd ∨
      ((pageRest w limitPerHour jobIdx kw target page pagesNeeded resOpt jd
        s).2.2.1 : Int) ≤ target) ∧
    (∀ k, k ≠ jobIdx →
      (pageRest w limitPerHour jobIdx kw target page pagesNeeded resOpt jd
        s).2.1.perJob.getD k 0 = s.perJob.getD k 0) ∧
    (∀ n, Event.progressValue n ∈ (pageRest w limitPerHour jobIdx kw target
        page pagesNeeded resOpt jd s).1 →
      n ≤ (pageRest w limitPerHour jobIdx kw target page pagesNeeded resOpt
        jd s).2.1.totalDownloaded) := by
  have hIpv : ∀ (m : Nat) (s' : St) (n : Nat),
      Event.progressValue n ∉ (intervalLoop w m s').1 := by
    intro m s' n hn
    exact absurd (alphabet_intervalLoop w m s' _ hn)
      (by simp [Event.isWaitSide])
  unfold pageRest
  dsimp only
  split
  · exact ⟨rfl, h2, Nat.le_refl _, h3, Or.inl rfl, fun k _ => rfl, by simp⟩
  · split
    · exact ⟨rfl, h2, Nat.le_refl _, h3, Or.inl rfl, fun k _ => rfl, by simp⟩
    · exact ⟨rfl, h2, Nat.le_refl _, h3, Or.inl rfl, fun k _ => rfl, by simp⟩
    · rename_i results
      split
      · exact ⟨rfl, h2, Nat.le_refl _, h3, Or.inl rfl, fun k _ => rfl,
          by simp⟩
      · obtain ⟨P1, P2, P3, P4, P5, P6, P7⟩ :=
          cnt_photosLoop w jobIdx kw target results jd
            { s with pollCount := s.pollCount + 1 } h1 h2 h3
        split
        · refine ⟨P1, P2, P3, P4, P5, P6, ?_⟩
          intro n hn
          rcases List.mem_cons.mp hn with hc | hc
          · exact nomatch hc
          rcases List.mem_append.mp hc with hc2 | hc2
          · exact P7 n hc2
          · rcases List.mem_cons.mp hc2 with hc3 | hc3
            · exact nomatch hc3
            rcases List.mem_cons.mp hc3 with hc4 | hc4
            · exact nomatch hc4
            · exact absurd hc4 (by simp)
        · split
          · split
            · refine ⟨?_, ?_, ?_, ?_, P5, ?_, ?_⟩
              · dsimp only
                rw [(st_intervalLoop w _ _).2, P1]
              · dsimp only
                rw [(st_intervalLoop w _ _).1, (st_intervalLoop w _ _).2]
                exact P2
              · dsimp only
                rw [(st_intervalLoop w _ _).1]
                exact P3
              · dsimp only
                rw [(st_intervalLoop w _ _).2]
                exact P4
              · intro k hk
                dsimp only
                rw [(st_intervalLoop w _ _).2]
                exact P6 k hk
              · intro n hn
                dsimp only
                rw [(st_intervalLoop w _ _).1]
                rcases List.mem_cons.mp hn with hc | hc
                · exact nomatch hc
                rcases List.mem_append.mp hc with hc2 | hc2
                · rcases List.mem_append.mp hc2 with hc3 | hc3
                  · exact P7 n hc3
                  · rcases List.mem_cons.mp hc3 with hc4 | hc4
                    · exact nomatch hc4
                    · exact absurd hc4 (hIpv _ _ n)
                · exact absurd hc2 (by simp)
            · refine ⟨?_, ?_, ?_, ?_, P5, ?_, ?_⟩
              · dsimp only
                rw [(st_intervalLoop w _ _).2, P1]
              · dsimp only
                rw [(st_intervalLoop w _ _).1, (st_intervalLoop w _ _).2]
                exact P2
              · dsimp only
                rw [(st_intervalLoop w _ _).1]
                exact P3
              · dsimp only
                rw [(st_intervalLoop w _ _).2]
                exact P4
              · intro k hk
                dsimp only
                rw [(st_intervalLoop w _ _).2]
                exact P6 k hk
              · intro n hn
                dsimp only
                rw [(st_intervalLoop w _ _).1]
                rcases List.mem_cons.mp hn with hc | hc
                · exact nomatch hc
                rcases List.mem_append.mp hc with hc2 | hc2
                · rcases List.mem_append.mp hc2 with hc3 | hc3
                  · exact P7 n hc3
                  · rcases List.mem_cons.mp hc3 with hc4 | hc4
                    · exact nomatch hc4
                    · exact absurd hc4 (hIpv _ _ n)
                · exact absurd hc2 (by simp)
          · refine ⟨P1, P2, P3, P4, P5, P6, ?_⟩
            intro n hn
            rcases List.mem_cons.mp hn with hc | hc
            · exact nomatch hc
            rcases List.mem_append.mp hc with hc2 | hc2
            · exact P7 n hc2
            · rcases List.mem_cons.mp hc2 with hc3 | hc3
              · exact nomatch hc3
              · exact absurd hc3 (by simp)

/-- Counter invariants through the page loop of one job. -/
theorem cnt_pageLoop (w : World) (autoRetry : Bool)
    (limitPerHour jobIdx : Nat) (kw : String) (target : Int)
    (pagesNeeded fuel : Nat) :
    ∀ (pagesLeft page jd : Nat) (s : St),
      jobIdx < s.perJob.length →
      s.totalDownloaded = s.perJob.sum →
      s.perJob.getD jobIdx 0 = jd →
      (pageLoop w autoRetry limitPerHour jobIdx kw target pagesNeeded fuel
          page pagesLeft jd s).2.1.perJob.length = s.perJob.length ∧
      (pageLoop w autoRetry limitPerHour jobIdx kw target pagesNeeded fuel
          page pagesLeft jd s).2.1.totalDownloaded
        = (pageLoop w autoRetry limitPerHour jobIdx kw target pagesNeeded
          fuel page pagesLeft jd s).2.1.perJob.sum ∧
      s.totalDownloaded ≤ (pageLoop w autoRetry limitPerHour jobIdx kw
        target pagesNeeded fuel page pagesLeft jd s).2.1.totalDownloaded ∧
      (pageLoop w autoRetry limitPerHour jobIdx kw target pagesNeeded fuel
          page pagesLeft jd s).2.1.perJob.getD jobIdx 0
        = (pageLoop w autoRetry limitPerHour jobIdx kw target pagesNeeded
          fuel page pagesLeft jd s).2.2.1 ∧
      ((pageLoop w autoRetry limitPerHour jobIdx kw target pagesNeeded fuel
          page pagesLeft jd s).2.2.1 = jd ∨
        ((pageLoop w autoRetry limitPerHour jobIdx kw target pagesNeeded
          fuel page pagesLeft jd s).2.2.1 : Int) ≤ target) ∧
      (∀ k, k ≠ jobIdx →
        (pageLoop w autoRetry limitPerHour jobIdx kw target pagesNeeded fuel
          page pagesLeft jd s).2.1.perJob.getD k 0 = s.perJob.getD k 0) ∧
      (∀ n, Event.progressValue n ∈ (pageLoop w autoRetry limitPerHour
          jobIdx kw target pagesNeeded fuel page pagesLeft jd s).1 →
        n ≤ (pageLoop w autoRetry limitPerHour jobIdx kw target pagesNeeded
          fuel page pagesLeft jd s).2.1.totalDownloaded)
  | 0, page, jd, s => fun h1 h2 h3 =>
    ⟨rfl, h2, Nat.le_refl _, h3, Or.inl rfl, fun k _ => rfl,
      by simp [pageLoop]⟩
  | pagesLeft + 1, page, jd, s => by
    intro h1 h2 h3
    have hFpv : ∀ n, Event.progressValue n
        ∉ (fetchPage w autoRetry kw page fuel none
          { s with pollCount := s.pollCount + 1 }).1 := by
      intro n hn
      exact absurd (alphabet_fetchPage w autoRetry kw page fuel none _ _ hn)
        (by simp [Event.isFetchSide])
    obtain ⟨F1, F2⟩ := st_fetchPage w autoRetry kw page fuel none
      { s with pollCount := s.pollCount + 1 }
    unfold pageLoop
    dsimp only
    split
    · exact ⟨rfl, h2, Nat.le_refl _, h3, Or.inl rfl, fun k _ => rfl, by simp⟩
    · split
      · refine ⟨?_, ?_, ?_, ?_, Or.inl rfl, ?_, ?_⟩
        · rw [F2]
        · rw [F1, F2]
          exact h2
        · rw [F1]
        · rw [F2]
          exact h3
        · intro k hk
          rw [F2]
        · intro n hn
          rcases List.mem_cons.mp hn with hc | hc
          · exact nomatch hc
          · exact absurd hc (hFpv n)
      · refine ⟨?_, ?_, ?_, ?_, Or.inl rfl, ?_, ?_⟩
        · rw [F2]
        · rw [F1, F2]
          exact h2
        · rw [F1]
        · rw [F2]
          exact h3
        · intro k hk
          rw [F2]
        · intro n hn
          rcases List.mem_cons.mp hn with hc | hc
          · exact nomatch hc
          · exact absurd hc (hFpv n)
      · obtain ⟨R1, R2, R3, R4, R5, R6, R7⟩ := cnt_pageRest w limitPerHour
          jobIdx kw target page pagesNeeded _ jd _
          (by rw [F2]; exact h1) (by rw [F1, F2]; exact h2)
          (by rw [F2]; exact h3)
        split
        · refine ⟨?_, R2, ?_, R4, R5, ?_, ?_⟩
          · rw [R1, F2]
          · exact le_trans (le_of_eq F1.symm) R3
          · intro k hk
            rw [R6 k hk, F2]
          · intro n hn
            rcases List.mem_cons.mp hn with hc | hc
            · exact nomatch hc
            rcases List.mem_append.mp hc with hc2 | hc2
            · exact absurd hc2 (hFpv n)
            · exact R7 n hc2
        · refine ⟨?_, R2, ?_, R4, R5, ?_, ?_⟩
          · rw [R1, F2]
          · exact le_trans (le_of_eq F1.symm) R3
          · intro k hk
            rw [R6 k hk, F2]
          · intro n hn
            rcases List.mem_cons.mp hn with hc | hc
            · exact nomatch hc
            rcases List.mem_append.mp hc with hc2 | hc2
            · exact absurd hc2 (hFpv n)
            · exact R7 n hc2
        · obtain ⟨Q1, Q2, Q3, Q4, Q5, Q6, Q7⟩ := cnt_pageLoop w autoRetry
            limitPerHour jobIdx kw target pagesNeeded fuel pagesLeft
            (page + 1) _ _ (by rw [R1, F2]; exact h1) R2 R4
          refine ⟨?_, Q2, ?_, Q4, ?_, ?_, ?_⟩
          · rw [Q1, R1, F2]
          · exact le_trans (le_of_eq F1.symm) (le_trans R3 Q3)
          · rcases Q5 with q | q
            · rcases R5 with r | r
              · exact Or.inl (q.trans r)
              · right
                rw [q]
                exact r
            · exact Or.inr q
          · intro k hk
            rw [Q6 k hk, R6 k hk, F2]
          · intro n hn
            rcases List.mem_cons.mp hn with hc | hc
            · exact nomatch hc
            rcases List.mem_append.mp hc with hc2 | hc2
            · rcases List.mem_append.mp hc2 with hc3 | hc3
              · exact absurd hc3 (hFpv n)
              · exact le_trans (R7 n hc3) Q3
            · exact Q7 n hc2
      · obtain ⟨R1, R2, R3, R4, R5, R6, R7⟩ := cnt_pageRest w limitPerHour
          jobIdx kw target page pagesNeeded _ jd _
          (by rw [F2]; exact h1) (by rw [F1, F2]; exact h2)
          (by rw [F2]; exact h3)
        split
        · refine ⟨?_, R2, ?_, R4, R5, ?_, ?_⟩
          · rw [R1, F2]
          · exact le_trans (le_of_eq F1.symm) R3
          · intro k hk
            rw [R6 k hk, F2]
          · intro n hn
            rcases List.mem_cons.mp hn with hc | hc
            · exact nomatch hc
            rcases List.mem_append.mp hc with hc2 | hc2
            · exact absurd hc2 (hFpv n)
            · exact R7 n hc2
        · refine ⟨?_, R2, ?_, R4, R5, ?_, ?_⟩
          · rw [R1, F2]
          · exact le_trans (le_of_eq F1.symm) R3
          · intro k hk
            rw [R6 k hk, F2]
          · intro n hn
            rcases List.mem_cons.mp hn with hc | hc
            · exact nomatch hc
            rcases List.mem_append.mp hc with hc2 | hc2
            · exact absurd hc2 (hFpv n)
            · exact R7 n hc2
        · obtain ⟨Q1, Q2, Q3, Q4, Q5, Q6, Q7⟩ := cnt_pageLoop w autoRetry
            limitPerHour jobIdx kw target pagesNeeded fuel pagesLeft
            (page + 1) _ _ (by rw [R1, F2]; exact h1) R2 R4
          refine ⟨?_, Q2, ?_, Q4, ?_, ?_, ?_⟩
          · rw [Q1, R1, F2]
          · exact le_trans (le_of_eq F1.symm) (le_trans R3 Q3)
          · rcases Q5 with q | q
            · rcases R5 with r | r
              · exact Or.inl (q.trans r)
              · right
                rw [q]
                exact r
            · exact Or.inr q
          · intro k hk
            rw [Q6 k hk, R6 k hk, F2]
          · intro n hn
            rcases List.mem_cons.mp hn with hc | hc
            · exact nomatch hc
            rcases List.mem_append.mp hc with hc2 | hc2
            · rcases List.mem_append.mp hc2 with hc3 | hc3
              · exact absurd hc3 (hFpv n)
              · exact le_trans (R7 n hc3) Q3
            · exact Q7 n hc2

/-- Counter invariants through the job loop: jobs before `idx` keep
their counters, jobs from `idx` on start at zero and end bounded by
their targets, the total always equals the per-job sum, and every
progress value reported is bounded by the final total. -/
theorem cnt_jobLoop (w : World) (autoRetry : Bool)
    (limitPerHour fuel : Nat) :
    ∀ (jobs : List Job) (idx : Nat) (s : St),
      s.totalDownloaded = s.perJob.sum →
      (∀ k, idx ≤ k → s.perJob.getD k 0 = 0) →
      idx + jobs.length ≤ s.perJob.length →
      (jobLoop w autoRetry limitPerHour fuel jobs idx s).2.1.perJob.length
        = s.perJob.length ∧
      (jobLoop w autoRetry limitPerHour fuel jobs idx s).2.1.totalDownloaded
        = (jobLoop w autoRetry limitPerHour fuel jobs idx
          s).2.1.perJob.sum ∧
      s.totalDownloaded ≤ (jobLoop w autoRetry limitPerHour fuel jobs idx
        s).2.1.totalDownloaded ∧
      (∀ k, k < idx →
        (jobLoop w autoRetry limitPerHour fuel jobs idx s).2.1.perJob.getD
          k 0 = s.perJob.getD k 0) ∧
      (∀ k, idx ≤ k →
        (jobLoop w autoRetry limitPerHour fuel jobs idx s).2.1.perJob.getD
          k 0 ≤ ((jobs.getD (k - idx)
            { keyword := "", count := 0 }).count).toNat) ∧
      (∀ n, Event.progressValue n
          ∈ (jobLoop w autoRetry limitPerHour fuel jobs idx s).1 →
        n ≤ (jobLoop w autoRetry limitPerHour fuel jobs idx
          s).2.1.totalDownloaded)
  | [], idx, s => by
    intro h2 h0 hlen
    refine ⟨rfl, h2, Nat.le_refl _, fun k _ => rfl, ?_, by simp [jobLoop]⟩
    intro k hk
    show s.perJob.getD k 0 ≤ _
    rw [h0 k hk]
    exact Nat.zero_le _
  | job :: rest, idx, s => by
    intro h2 h0 hlen
    have hlen' : idx + rest.length + 1 ≤ s.perJob.length := by
      simpa [Nat.add_assoc, Nat.add_comm 1 rest.length] using hlen
    unfold jobLoop
    dsimp only
    split
    · refine ⟨rfl, h2, Nat.le_refl _, fun k _ => rfl, ?_, by simp⟩
      intro k hk
      show s.perJob.getD k 0 ≤ _
      rw [h0 k hk]
      exact Nat.zero_le _
    · split
      · obtain ⟨J1, J2, J3, J4, J5, J6⟩ := cnt_jobLoop w autoRetry
          limitPerHour fuel rest (idx + 1)
          { s with pollCount := s.pollCount + 1 } h2
          (fun k hk => h0 k (Nat.le_of_succ_le hk))
            (by show idx + 1 + rest.length ≤ s.perJob.length; omega)
        refine ⟨J1, J2, J3, ?_, ?_, ?_⟩
        · intro k hk
          exact J4 k (Nat.lt_succ_of_lt hk)
        · intro k hk
          by_cases he : k = idx
          · subst he
            rw [J4 k (Nat.lt_succ_self _)]
            show s.perJob.getD k 0 ≤ _
            rw [h0 k (Nat.le_refl _)]
            exact Nat.zero_le _
          · have hk2 : idx + 1 ≤ k :=
              Nat.succ_le_of_lt (Nat.lt_of_le_of_ne hk (fun hc => he hc.symm))
            have harr : k - idx = (k - (idx + 1)) + 1 := by omega
            rw [harr, List.getD_cons_succ]
            exact J5 k hk2
        · intro n hn
          rcases List.mem_cons.mp hn with hc | hc
          · exact nomatch hc
          · exact J6 n hc
      · split
        · obtain ⟨J1, J2, J3, J4, J5, J6⟩ := cnt_jobLoop w autoRetry
            limitPerHour fuel rest (idx + 1)
            { s with pollCount := s.pollCount + 1 } h2
            (fun k hk => h0 k (Nat.le_of_succ_le hk))
            (by show idx + 1 + rest.length ≤ s.perJob.length; omega)
          refine ⟨J1, J2, J3, ?_, ?_, ?_⟩
          · intro k hk
            exact J4 k (Nat.lt_succ_of_lt hk)
          · intro k hk
            by_cases he : k = idx
            · subst he
              rw [J4 k (Nat.lt_succ_self _)]
              show s.perJob.getD k 0 ≤ _
              rw [h0 k (Nat.le_refl _)]
              exact Nat.zero_le _
            · have hk2 : idx + 1 ≤ k :=
                Nat.succ_le_of_lt (Nat.lt_of_le_of_ne hk
                  (fun hc => he hc.symm))
              have harr : k - idx = (k - (idx + 1)) + 1 := by omega
              rw [harr, List.getD_cons_succ]
              exact J5 k hk2
          · intro n hn
            rcases List.mem_cons.mp hn with hc | hc
            · exact nomatch hc
            rcases List.mem_cons.mp hc with hc2 | hc2
            · exact nomatch hc2
            · exact J6 n hc2
        · obtain ⟨P1, P2, P3, P4, P5, P6, P7⟩ := cnt_pageLoop w autoRetry
            limitPerHour idx job.keyword job.count
            (pagesNeededOf job.count) fuel (pagesNeededOf job.count) 1 0
            { s with pollCount := s.pollCount + 1 }
            (by show idx < s.perJob.length; omega) h2
            (h0 idx (Nat.le_refl _))
          split
          · refine ⟨P1, P2, P3, ?_, ?_, ?_⟩
            · intro k hk
              exact P6 k (Nat.ne_of_lt hk)
            · intro k hk
              by_cases he : k = idx
              · subst he
                have hg := P4
                rcases P5 with p | p
                · rw [hg, p]
                  exact Nat.zero_le _
                · rw [hg, Nat.sub_self, List.getD_cons_zero]
                  omega
              · have hk2 : idx + 1 ≤ k :=
                  Nat.succ_le_of_lt (Nat.lt_of_le_of_ne hk
                    (fun hc => he hc.symm))
                rw [P6 k (fun hc => he hc)]
                show s.perJob.getD k 0 ≤ _
                rw [h0 k hk]
                exact Nat.zero_le _
            · intro n hn
              rcases List.mem_append.mp hn with hc | hc
              · exact absurd hc (by simp)
              · exact P7 n hc
          · refine ⟨P1, P2, P3, ?_, ?_, ?_⟩
            · intro k hk
              exact P6 k (Nat.ne_of_lt hk)
            · intro k hk
              by_cases he : k = idx
              · subst he
                have hg := P4
                rcases P5 with p | p
                · rw [hg, p]
                  exact Nat.zero_le _
                · rw [hg, Nat.sub_self, List.getD_cons_zero]
                  omega
              · rw [P6 k (fun hc => he hc)]
                show s.perJob.getD k 0 ≤ _
                rw [h0 k hk]
                exact Nat.zero_le _
            · intro n hn
              rcases List.mem_append.mp hn with hc | hc
              · exact absurd hc (by simp)
              · exact P7 n hc
          · split
            · refine ⟨P1, P2, P3, ?_, ?_, ?_⟩
              · intro k hk
                exact P6 k (Nat.ne_of_lt hk)
              · intro k hk
                by_cases he : k = idx
                · subst he
                  have hg := P4
                  rcases P5 with p | p
                  · rw [hg, p]
                    exact Nat.zero_le _
                  · rw [hg, Nat.sub_self, List.getD_cons_zero]
                    omega
                · rw [P6 k (fun hc => he hc)]
                  show s.perJob.getD k 0 ≤ _
                  rw [h0 k hk]
                  exact Nat.zero_le _
              · intro n hn
                rcases List.mem_append.mp hn with hc | hc
                · rcases List.mem_append.mp hc with hc2 | hc2
                  · exact absurd hc2 (by simp)
                  · exact P7 n hc2
                · exact absurd hc (by simp)
            · obtain ⟨J1, J2, J3, J4, J5, J6⟩ := cnt_jobLoop w autoRetry
                limitPerHour fuel rest (idx + 1)
                { (pageLoop w autoRetry limitPerHour idx job.keyword
                    job.count (pagesNeededOf job.count) fuel 1
                    (pagesNeededOf job.count) 0
                    { s with pollCount := s.pollCount + 1 }).2.1 with
                  pollCount := (pageLoop w autoRetry limitPerHour idx
                    job.keyword job.count (pagesNeededOf job.count) fuel 1
                    (pagesNeededOf job.count) 0
                    { s with pollCount := s.pollCount + 1
                      }).2.1.pollCount + 1 } P2
                (fun k hk => (P6 k (fun hc => by omega)).trans
                  (h0 k (Nat.le_of_succ_le hk)))
                (le_trans (by show idx + 1 + rest.length ≤ s.perJob.length; omega)
                  (le_of_eq P1.symm))
              refine ⟨J1.trans P1, J2, le_trans P3 J3, ?_, ?_, ?_⟩
              · intro k hk
                exact (J4 k (Nat.lt_succ_of_lt hk)).trans
                  (P6 k (Nat.ne_of_lt hk))
              · intro k hk
                by_cases he : k = idx
                · subst he
                  rw [(J4 k (Nat.lt_succ_self _)).trans P4,
                    Nat.sub_self, List.getD_cons_zero]
                  rcases P5 with p | p
                  · rw [p]
                    exact Nat.zero_le _
                  · omega
                · have hk2 : idx + 1 ≤ k :=
                    Nat.succ_le_of_lt (Nat.lt_of_le_of_ne hk
                      (fun hc => he hc.symm))
                  have harr : k - idx = (k - (idx + 1)) + 1 := by omega
                  rw [harr, List.getD_cons_succ]
                  exact J5 k hk2
              · intro n hn
                rcases List.mem_append.mp hn with hc | hc
                · rcases List.mem_append.mp hc with hc2 | hc2
                  · exact absurd hc2 (by simp)
                  · exact le_trans (P7 n hc2) J3
                · rcases List.mem_cons.mp hc with hc2 | hc2
                  · exact nomatch hc2
                  · exact J6 n hc2

/-- The initial per-job counters are all zero. -/
theorem getD_map_zero : ∀ (l : List Job) (k : Nat),
    ((l.map fun _ => (0 : Nat)).getD k 0) = 0
  | [], _ => rfl
  | _ :: _, 0 => rfl
  | _ :: t, k + 1 => getD_map_zero t k

/-- The initial per-job counters sum to zero. -/
theorem sum_map_zero (l : List Job) :
    (l.map fun _ => (0 : Nat)).sum = 0 := by simp

/-- Pointwise `getD` bounds of matching length give a `Forall₂` bound. -/
theorem forall₂_of_getD : ∀ (l : List Nat) (jobs : List Job),
    l.length = jobs.length →
    (∀ k, l.getD k 0
      ≤ ((jobs.getD k { keyword := "", count := 0 }).count).toNat) →
    List.Forall₂ (fun d j => d ≤ j.count.toNat) l jobs
  | [], [], _, _ => List.Forall₂.nil
  | [], _ :: _, h, _ => absurd h (by simp)
  | _ :: _, [], h, _ => absurd h (by simp)
  | a :: l, j :: jobs, h, hk =>
    List.Forall₂.cons (hk 0)
      (forall₂_of_getD l jobs (by simpa using h) (fun k => hk (k + 1)))

/-- C1 (amended): at run end the run-wide total equals the sum of the
per-job counters, each job's counter is bounded by `max(targetCount, 0)`
(so by `targetCount` whenever the target is nonnegative — a job with a
nonpositive target is skipped and its counter stays 0), hence the total
is at most the sum of the clamped targets; and every progress value
reported during the run is bounded by that same sum. -/
theorem c1_counters (w : World) (cfg : Config) (fuel : Nat) :
    (runWorker w cfg fuel).2.1.totalDownloaded
      = (runWorker w cfg fuel).2.1.perJob.sum ∧
    List.Forall₂ (fun d j => d ≤ j.count.toNat)
      (runWorker w cfg fuel).2.1.perJob cfg.jobs ∧
    (runWorker w cfg fuel).2.1.totalDownloaded
      ≤ (cfg.jobs.map (fun j => j.count.toNat)).sum ∧
    (∀ n, Event.progressValue n ∈ (runWorker w cfg fuel).1 →
      n ≤ (cfg.jobs.map (fun j => j.count.toNat)).sum) := by
  have hInit : List.Forall₂ (fun d j => d ≤ j.count.toNat)
      (cfg.jobs.map fun _ => (0 : Nat)) cfg.jobs :=
    forall₂_of_getD _ _ (by simp)
      (fun k => by rw [getD_map_zero]; exact Nat.zero_le _)
  unfold runWorker
  dsimp only
  by_cases h1 : cfg.jobs.isEmpty = true
  · simp only [h1, if_true]
    exact ⟨(sum_map_zero cfg.jobs).symm, hInit, Nat.zero_le _,
      fun n hn => absurd hn (by simp)⟩
  · simp only [h1, Bool.false_eq_true, if_false]
    by_cases h2 :
        (!pyTruthyS (pyStrip cfg.accessKey) && !pyTruthyS cfg.envKey) = true
    · simp only [h2, if_true]
      exact ⟨(sum_map_zero cfg.jobs).symm, hInit, Nat.zero_le _,
        fun n hn => absurd hn (by simp)⟩
    · simp only [h2, Bool.false_eq_true, if_false]
      by_cases h3 : (cfg.jobs.map Job.count).sum ≤ (0 : Int)
      · rw [if_pos h3]
        exact ⟨(sum_map_zero cfg.jobs).symm, hInit, Nat.zero_le _,
          fun n hn => absurd hn (by simp)⟩
      · rw [if_neg h3]
        obtain ⟨J1, J2, J3, J4, J5, J6⟩ := cnt_jobLoop w cfg.autoRetry
          cfg.limitPerHour fuel cfg.jobs 0 (initSt cfg)
          (sum_map_zero cfg.jobs).symm (fun k _ => getD_map_zero cfg.jobs k)
          (by simp [initSt])
        have hF : List.Forall₂ (fun d j => d ≤ j.count.toNat)
            (jobLoop w cfg.autoRetry cfg.limitPerHour fuel cfg.jobs 0
              (initSt cfg)).2.1.perJob cfg.jobs := by
          refine forall₂_of_getD _ _ (J1.trans (by simp [initSt])) ?_
          intro k
          have h := J5 k (Nat.zero_le k)
          rwa [Nat.sub_zero] at h
        have hSum : (jobLoop w cfg.autoRetry cfg.limitPerHour fuel cfg.jobs 0
            (initSt cfg)).2.1.perJob.sum
            ≤ (cfg.jobs.map (fun j => j.count.toNat)).sum :=
          List.Forall₂.sum_le_sum (List.forall₂_map_right_iff.mpr hF)
        have hTot : (jobLoop w cfg.autoRetry cfg.limitPerHour fuel cfg.jobs 0
            (initSt cfg)).2.1.totalDownloaded
            ≤ (cfg.jobs.map (fun j => j.count.toNat)).sum :=
          le_trans (le_of_eq J2) hSum
        have hPv : ∀ n, Event.progressValue n
            ∈ [Event.mkdirOut,
               Event.progressMax ((cfg.jobs.map Job.count).sum).toNat,
               Event.progressValue 0,
               Event.progLimit (safeLimit cfg.limitPerHour)] ++
              (jobLoop w cfg.autoRetry cfg.limitPerHour fuel cfg.jobs 0
                (initSt cfg)).1 →
            n ≤ (cfg.jobs.map (fun j => j.count.toNat)).sum := by
          intro n hn
          rcases List.mem_append.mp hn with hc | hc
          · simp at hc
            omega
          · exact le_trans (J6 n hc) hTot
        cases hjl : (jobLoop w cfg.autoRetry cfg.limitPerHour fuel cfg.jobs 0
            (initSt cfg)).2.2 with
        | done =>
          dsimp only
          by_cases hb : w.stop ((jobLoop w cfg.autoRetry cfg.limitPerHour
              fuel cfg.jobs 0 (initSt cfg)).2.1).pollCount = true
          · simp only [hb, if_true]
            refine ⟨J2, hF, hTot, ?_⟩
            intro n hn
            rcases List.mem_append.mp hn with hc | hc
            · exact hPv n hc
            · exact absurd hc (by simp)
          · simp only [hb, Bool.false_eq_true, if_false]
            refine ⟨J2, hF, hTot, ?_⟩
            intro n hn
            rcases List.mem_append.mp hn with hc | hc
            · exact hPv n hc
            · exact absurd hc (by simp)
        | returned =>
          dsimp only
          exact ⟨J2, hF, hTot, hPv⟩
        | fuelOut =>
          dsimp only
          exact ⟨J2, hF, hTot, hPv⟩

/-- Counterexample to C1 as stated: a job may carry a negative target
(the code only skips it, line 108), and then its per-job downloaded
count 0 exceeds the target, so `perJobDownloaded[j] ≤ Job[j].targetCount`
fails at run end. -/
theorem c1_counters_counterexample :
    (runWorker wEmptyResults
      { accessKey := "k", envKey := "",
        jobs := [{ keyword := "x", count := -1 }],
        limitPerHour := 50, autoRetry := true } 2).2.1.perJob.getD 0 0
      = 0 ∧
    ¬ (((runWorker wEmptyResults
      { accessKey := "k", envKey := "",
        jobs := [{ keyword := "x", count := -1 }],
        limitPerHour := 50, autoRetry := true } 2).2.1.perJob.getD 0 0 : Int)
      ≤ ({ keyword := "x", count := -1 } : Job).count) := by decide

/-- Witness for C1 (amended): a completed one-photo run keeps the total
equal to the per-job sum and within the clamped targets. -/
theorem c1_counters_witness :
    (runWorker wOnePhoto cfgOne 5).2.1.totalDownloaded
      = (runWorker wOnePhoto cfgOne 5).2.1.perJob.sum ∧
    List.Forall₂ (fun d j => d ≤ j.count.toNat)
      (runWorker wOnePhoto cfgOne 5).2.1.perJob cfgOne.jobs ∧
    (runWorker wOnePhoto cfgOne 5).2.1.totalDownloaded
      ≤ (cfgOne.jobs.map (fun j => j.count.toNat)).sum :=
  ⟨(c1_counters wOnePhoto cfgOne 5).1,
   (c1_counters wOnePhoto cfgOne 5).2.1,
   (c1_counters wOnePhoto cfgOne 5).2.2.1⟩
